import Mathlib

/-!
# Artifact referrers subsystem of the registry

A shallow embedding of the ORAS artifact manifest handler
(`registry/extension/orasv2`) and of the referrers query service, together
with the properties proved about them.

Go values are embedded as follows.

* `string` is `String`; `[]byte` is a list of byte values (`List Nat`).
* `error` is `Option Err` (`none` is `nil`).
* A collaborator of the handler (blob store, manifest service, link
  function, link enumerator, response encoder) is a field of `Env`: a
  function of the state of the outside world that returns its result and the
  next state.  Every call made on a collaborator is recorded, in order, in
  the log of the `World`.
* A Go panic is the `Outcome.panicked` result.
-/

namespace Distribution

/-- Go `digest.Digest`: a string, normally of the form `algorithm:hex`. -/
abbrev Digest := String

/-- Go `[]byte`. -/
abbrev Bytes := List Nat

/-- The fields of `distribution.Descriptor` read by the handlers. -/
structure Descriptor where
  MediaType : String
  Size : Int
  Digest : Digest
  deriving DecidableEq, Repr

/-- The Go `error` values that occur in the handlers. -/
inductive Err where
  /-- The sentinel `distribution.ErrBlobUnknown`. -/
  | ErrBlobUnknown
  /-- The sentinel `distribution.ErrManifestFormatNotSupported`. -/
  | ErrManifestFormatNotSupported
  /-- The value `distribution.ErrManifestBlobUnknown{Digest: d}`. -/
  | ErrManifestBlobUnknown (d : Digest)
  /-- The value `distribution.ErrManifestUnknownRevision{Name, Revision}`. -/
  | ErrManifestUnknownRevision (name : String) (revision : Digest)
  /-- The value `driver.PathNotFoundError{Path: path}`. -/
  | PathNotFoundError (path : String)
  /-- The value `errors.New(msg)` or `fmt.Errorf` with the message `msg`. -/
  | errorsNew (msg : String)
  /-- The value `*json.SyntaxError` of `encoding/json`. -/
  | SyntaxError
  /-- The value `*json.UnmarshalTypeError` of `encoding/json`, with the kind
  of JSON value that did not fit and the Go type it was decoded into. -/
  | UnmarshalTypeError (value : String) (goType : String)
  /-- Any other error value handed back by a collaborator. -/
  | other (code : Nat)
  /-- The slice `distribution.ErrManifestVerification`. -/
  | ErrManifestVerification (errs : List Err)

mutual
/-- Decidable equality of error values (the comparison `err == sentinel`
of Go, and equality of the results of the handlers). -/
def Err.decEq : (a b : Err) → Decidable (a = b)
  | .ErrBlobUnknown, b => match b with
    | .ErrBlobUnknown => isTrue rfl
    | .ErrManifestFormatNotSupported | .ErrManifestBlobUnknown _
    | .ErrManifestUnknownRevision _ _ | .PathNotFoundError _ | .errorsNew _
    | .SyntaxError | .UnmarshalTypeError _ _ | .other _
    | .ErrManifestVerification _ => isFalse (by intro h; cases h)
  | .ErrManifestFormatNotSupported, b => match b with
    | .ErrManifestFormatNotSupported => isTrue rfl
    | .ErrBlobUnknown | .ErrManifestBlobUnknown _
    | .ErrManifestUnknownRevision _ _ | .PathNotFoundError _ | .errorsNew _
    | .SyntaxError | .UnmarshalTypeError _ _ | .other _
    | .ErrManifestVerification _ => isFalse (by intro h; cases h)
  | .ErrManifestBlobUnknown d, b => match b with
    | .ErrManifestBlobUnknown e =>
      if h : d = e then isTrue (by rw [h])
      else isFalse (by intro h2; cases h2; exact h rfl)
    | .ErrBlobUnknown | .ErrManifestFormatNotSupported
    | .ErrManifestUnknownRevision _ _ | .PathNotFoundError _ | .errorsNew _
    | .SyntaxError | .UnmarshalTypeError _ _ | .other _
    | .ErrManifestVerification _ => isFalse (by intro h; cases h)
  | .ErrManifestUnknownRevision n r, b => match b with
    | .ErrManifestUnknownRevision n2 r2 =>
      if h : n = n2 ∧ r = r2 then isTrue (by rw [h.1, h.2])
      else isFalse (by intro h2; cases h2; exact h ⟨rfl, rfl⟩)
    | .ErrBlobUnknown | .ErrManifestFormatNotSupported
    | .ErrManifestBlobUnknown _ | .PathNotFoundError _ | .errorsNew _
    | .SyntaxError | .UnmarshalTypeError _ _ | .other _
    | .ErrManifestVerification _ => isFalse (by intro h; cases h)
  | .PathNotFoundError d, b => match b with
    | .PathNotFoundError e =>
      if h : d = e then isTrue (by rw [h])
      else isFalse (by intro h2; cases h2; exact h rfl)
    | .ErrBlobUnknown | .ErrManifestFormatNotSupported
    | .ErrManifestBlobUnknown _ | .ErrManifestUnknownRevision _ _
    | .errorsNew _ | .SyntaxError | .UnmarshalTypeError _ _ | .other _
    | .ErrManifestVerification _ => isFalse (by intro h; cases h)
  | .errorsNew d, b => match b with
    | .errorsNew e =>
      if h : d = e then isTrue (by rw [h])
      else isFalse (by intro h2; cases h2; exact h rfl)
    | .ErrBlobUnknown | .ErrManifestFormatNotSupported
    | .ErrManifestBlobUnknown _ | .ErrManifestUnknownRevision _ _
    | .PathNotFoundError _ | .SyntaxError | .UnmarshalTypeError _ _ | .other _
    | .ErrManifestVerification _ => isFalse (by intro h; cases h)
  | .SyntaxError, b => match b with
    | .SyntaxError => isTrue rfl
    | .ErrBlobUnknown | .ErrManifestFormatNotSupported
    | .ErrManifestBlobUnknown _ | .ErrManifestUnknownRevision _ _
    | .PathNotFoundError _ | .errorsNew _ | .UnmarshalTypeError _ _ | .other _
    | .ErrManifestVerification _ => isFalse (by intro h; cases h)
  | .UnmarshalTypeError n r, b => match b with
    | .UnmarshalTypeError n2 r2 =>
      if h : n = n2 ∧ r = r2 then isTrue (by rw [h.1, h.2])
      else isFalse (by intro h2; cases h2; exact h ⟨rfl, rfl⟩)
    | .ErrBlobUnknown | .ErrManifestFormatNotSupported
    | .ErrManifestBlobUnknown _ | .ErrManifestUnknownRevision _ _
    | .PathNotFoundError _ | .errorsNew _ | .SyntaxError | .other _
    | .ErrManifestVerification _ => isFalse (by intro h; cases h)
  | .other d, b => match b with
    | .other e =>
      if h : d = e then isTrue (by rw [h])
      else isFalse (by intro h2; cases h2; exact h rfl)
    | .ErrBlobUnknown | .ErrManifestFormatNotSupported
    | .ErrManifestBlobUnknown _ | .ErrManifestUnknownRevision _ _
    | .PathNotFoundError _ | .errorsNew _ | .SyntaxError
    | .UnmarshalTypeError _ _
    | .ErrManifestVerification _ => isFalse (by intro h; cases h)
  | .ErrManifestVerification l, b => match b with
    | .ErrManifestVerification l2 => match Err.decEqList l l2 with
      | isTrue h => isTrue (by rw [h])
      | isFalse h => isFalse (by intro h2; cases h2; exact h rfl)
    | .ErrBlobUnknown | .ErrManifestFormatNotSupported
    | .ErrManifestBlobUnknown _ | .ErrManifestUnknownRevision _ _
    | .PathNotFoundError _ | .errorsNew _ | .SyntaxError
    | .UnmarshalTypeError _ _ | .other _ => isFalse (by intro h; cases h)
/-- Decidable equality of lists of error values. -/
def Err.decEqList : (as bs : List Err) → Decidable (as = bs)
  | [], [] => isTrue rfl
  | [], _ :: _ => isFalse (by intro h; cases h)
  | _ :: _, [] => isFalse (by intro h; cases h)
  | a :: as, b :: bs => match Err.decEq a b, Err.decEqList as bs with
    | isTrue h, isTrue h2 => isTrue (by rw [h, h2])
    | isFalse h, _ => isFalse (by intro h2; cases h2; exact h rfl)
    | _, isFalse h => isFalse (by intro h2; cases h2; exact h rfl)
end

instance : DecidableEq Err := Err.decEq

/-- The result of a Go call that may panic. -/
inductive Outcome (α : Type) where
  /-- The call returned `a`. -/
  | returned (a : α)
  /-- The call panicked: `digest.Digest.sepIndex` found no `:` in `d`. -/
  | panicked (d : Digest)
  deriving DecidableEq

/-! ## The artifact manifest (`artifactmanifest.go`) -/

/-- The struct `v1.Descriptor` of the ORAS artifacts specification. -/
structure V1Descriptor where
  MediaType : String
  ArtifactType : String
  Digest : Digest
  Size : Int
  URLs : List String
  Annotations : List (String × String)
  deriving DecidableEq

/-- The struct `v1.Manifest` of the ORAS artifacts specification. -/
structure V1Manifest where
  MediaType : String
  ArtifactType : String
  Blobs : List V1Descriptor
  Subject : V1Descriptor
  Annotations : List (String × String)
  deriving DecidableEq

/-- The zero value of `v1.Descriptor`. -/
def V1Descriptor.zero : V1Descriptor := ⟨"", "", "", 0, [], []⟩

/-- The zero value of `v1.Manifest`. -/
def V1Manifest.zero : V1Manifest := ⟨"", "", [], V1Descriptor.zero, []⟩

/-- The constant `v1.MediaTypeArtifactManifest`. -/
def MediaTypeArtifactManifest : String :=
  "application/vnd.cncf.oras.artifact.manifest.v1+json"

/-- The struct `Manifest`: the ORAS artifact manifest. -/
structure Manifest where
  inner : V1Manifest
  deriving DecidableEq

/-- The method `Manifest.ArtifactType`. -/
def Manifest.ArtifactType (a : Manifest) : String := a.inner.ArtifactType

/-- The method `Manifest.References`: the descriptors of the blobs. -/
def Manifest.References (a : Manifest) : List Descriptor :=
  a.inner.Blobs.map fun b => ⟨b.MediaType, b.Size, b.Digest⟩

/-- The method `Manifest.Subject`. -/
def Manifest.Subject (a : Manifest) : Descriptor :=
  ⟨a.inner.Subject.MediaType, a.inner.Subject.Size, a.inner.Subject.Digest⟩

/-- The struct `DeserializedManifest`: a `Manifest` with the original JSON. -/
structure DeserializedManifest extends Manifest where
  raw : Bytes
  deriving DecidableEq

/-- The method `DeserializedManifest.Payload`. -/
def DeserializedManifest.Payload (d : DeserializedManifest) :
    String × Bytes × Option Err :=
  (MediaTypeArtifactManifest, d.raw, none)

/-- A value of the interface `distribution.Manifest`: either a
`*DeserializedManifest` of this package or a manifest of another kind. -/
inductive AnyManifest where
  | artifact (dm : DeserializedManifest)
  | foreign (mediaType : String) (payload : Bytes)
  deriving DecidableEq

/-! ## Digests and paths (`go-digest`, package `path`) -/

/-- The part of a digest before its first `:` and the part after it, or
`none` when there is no `:` (`strings.Index(d, ":") < 0`). -/
def sepSplit : List Char → Option (List Char × List Char)
  | [] => none
  | c :: cs =>
    if c = ':' then some ([], cs)
    else match sepSplit cs with
      | none => none
      | some p => some (c :: p.1, p.2)

/-- The method `Digest.Algorithm`: `d[:d.sepIndex()]`; it panics when the
digest holds no `:`. -/
def Digest.Algorithm (d : Digest) : Outcome String :=
  match sepSplit d.data with
  | none => .panicked d
  | some p => .returned (String.mk p.1)

/-- The method `Digest.Hex`: `d[d.sepIndex()+1:]`; it panics when the
digest holds no `:`. -/
def Digest.Hex (d : Digest) : Outcome String :=
  match sepSplit d.data with
  | none => .panicked d
  | some p => .returned (String.mk p.2)

/-- The elements of a path between its slashes (`strings.Split(p, "/")`). -/
def splitSlash : List Char → List (List Char)
  | [] => [[]]
  | c :: cs =>
    if c = '/' then [] :: splitSlash cs
    else match splitSlash cs with
      | [] => [[c]]
      | e :: es => (c :: e) :: es

/-- One step of `path.Clean` on the element `e`: `dots` counts the leading
`..` elements kept (a path that is not rooted), `stack` holds the elements
kept after them, the last one first. -/
def cleanStep (rooted : Bool) (acc : Nat × List (List Char))
    (e : List Char) : Nat × List (List Char) :=
  if e = [] ∨ e = ['.'] then acc
  else if e = ['.', '.'] then
    match acc.2 with
    | _ :: rest => (acc.1, rest)
    | [] => if rooted then acc else (acc.1 + 1, [])
  else (acc.1, e :: acc.2)

/-- Go `path.Clean` on the characters of a path. -/
def cleanChars (p : List Char) : List Char :=
  if p = [] then ['.']
  else
    let rooted : Bool := p.head? = some '/'
    let acc := (splitSlash p).foldl (cleanStep rooted) (0, [])
    let elems := List.replicate acc.1 ['.', '.'] ++ acc.2.reverse
    let body := List.intercalate ['/'] elems
    if rooted then '/' :: body
    else if body = [] then ['.'] else body

/-- The buffer that `path.Join` builds before cleaning it: an element is
appended, after a `/` when the buffer is not empty, unless the buffer and
the element are both empty. -/
def joinBuf (buf : List Char) : List (List Char) → List Char
  | [] => buf
  | e :: es =>
    if buf ≠ [] ∨ e ≠ [] then
      joinBuf ((if buf ≠ [] then buf ++ ['/'] else buf) ++ e) es
    else joinBuf buf es

/-- Go `path.Join`. -/
def pathJoin (elem : List String) : String :=
  if (elem.map fun e => e.data.length).sum = 0 then ""
  else String.mk (cleanChars (joinBuf [] (elem.map fun e => e.data)))

/-- The function `referrersLinkPath`. -/
def referrersLinkPath (name : String) : String :=
  pathJoin ["/docker/registry/", "v2", "repositories", name, "_refs", "subjects"]

/-! ## Collaborators -/

/-- The struct `artifactv1.Descriptor` as the referrers query returns it. -/
structure ReferrerDescriptor where
  MediaType : String
  ArtifactType : String
  Digest : Digest
  Size : Int
  deriving DecidableEq

/-- A call made on a collaborator. -/
inductive Call where
  /-- The call `repository.Blobs(ctx).Stat(ctx, dgst)`. -/
  | BlobsStat (dgst : Digest)
  /-- The call `repository.Manifests(ctx)`. -/
  | Manifests
  /-- The call `Exists(ctx, dgst)` on the manifest service. -/
  | Exists (dgst : Digest)
  /-- The call `Get(ctx, dgst)` on the manifest service. -/
  | Get (dgst : Digest)
  /-- The call `blobStore.Put(ctx, mediaType, payload)`. -/
  | BlobStorePut (mediaType : String) (payload : Bytes)
  /-- The call `linkFunc(ctx, path, dgst)`. -/
  | linkFunc (path : String) (dgst : Digest)
  /-- The call `linkBlobEnumerator(ctx, rootPath, visit)`. -/
  | linkBlobEnumerator (rootPath : String)
  /-- The call `BlobStatter().Stat(ctx, dgst)` on the namespace. -/
  | StatterStat (dgst : Digest)
  /-- The call `w.Header().Set(key, value)` on the response writer. -/
  | HeaderSet (key value : String)
  /-- The call `Encode(response)` of the JSON encoder on the response
  writer; `none` is a nil slice of referrers. -/
  | Encode (referrers : Option (List ReferrerDescriptor))
  /-- The call `h.Referrers(ctx, dgst, artifactType)` of the handler of the
  package `oci`. -/
  | OciReferrers (dgst : Digest) (artifactType : String)
  /-- The call `Encode(response)` of the handler of the package `oci`, with
  the manifests of the image index that is the response. -/
  | EncodeIndex (manifests : Option (List Descriptor))
  deriving DecidableEq

/-- What the link enumerator does for a root path: the digests it hands to
the visitor, in order, and the error it returns once they have all been
visited (`driver.PathNotFoundError` for a root that does not exist). -/
structure Enumeration where
  digests : List Digest
  final : Option Err
  deriving DecidableEq

/-- The collaborators of the handlers, over the states `σ` of the outside
world.  Each one maps its arguments and the current state to its result and
the next state. -/
structure Env (σ : Type) where
  /-- The result of `repository.Named().Name()`. -/
  Name : String
  /-- The method `Stat` of `repository.Blobs(ctx)`. -/
  BlobsStat : Digest → σ → (Descriptor × Option Err) × σ
  /-- The method `repository.Manifests`; the service it returns is the
  one that `Exists` and `Get` belong to. -/
  Manifests : σ → Option Err × σ
  /-- The method `Exists` of the manifest service. -/
  Exists : Digest → σ → (Bool × Option Err) × σ
  /-- The method `Get` of the manifest service. -/
  Get : Digest → σ → Except Err AnyManifest × σ
  /-- The method `Put` of the blob store of the handler. -/
  BlobStorePut : String → Bytes → σ → (Descriptor × Option Err) × σ
  /-- The function `linkFunc` of the handler. -/
  linkFunc : String → Digest → σ → Option Err × σ
  /-- The function `linkBlobEnumerator` of the handler. -/
  linkBlobEnumerator : String → σ → Enumeration × σ
  /-- The method `Stat` of `Namespace.BlobStatter()`. -/
  StatterStat : Digest → σ → (Descriptor × Option Err) × σ
  /-- The JSON encoder writing the response to the response writer. -/
  Encode : Option (List ReferrerDescriptor) → σ → Option Err × σ

/-- The state of the outside world and the calls made on it so far. -/
structure World (σ : Type) where
  st : σ
  log : List Call
  deriving DecidableEq

variable {σ : Type}

/-- Records the call `c` and moves to the state `s`. -/
def World.step (w : World σ) (c : Call) (s : σ) : World σ :=
  ⟨s, w.log ++ [c]⟩

/-! ## The manifest handler (`artifactmanifesthandler.go`) -/

/-- The method `CanPut`: the type assertion `man.(*DeserializedManifest)`. -/
def CanPut (man : AnyManifest) : Bool :=
  match man with
  | .artifact _ => true
  | .foreign _ _ => false

/-- The loop of `verifyManifest` over `dm.References()`: every blob is
stat-ed; an error other than `ErrBlobUnknown` is appended, and on any error
or an empty digest `ErrManifestBlobUnknown` is appended. -/
def verifyReferences (env : Env σ) :
    List Descriptor → List Err → World σ → List Err × World σ
  | [], errs, w => (errs, w)
  | blobDesc :: rest, errs, w =>
    let r := env.BlobsStat blobDesc.Digest w.st
    let desc := r.1.1
    let err := r.1.2
    let errs1 := match err with
      | some e => if e ≠ Err.ErrBlobUnknown then errs ++ [e] else errs
      | none => errs
    let errs2 :=
      if err ≠ none ∨ desc.Digest = "" then
        errs1 ++ [Err.ErrManifestBlobUnknown blobDesc.Digest]
      else errs1
    verifyReferences env rest errs2 (w.step (.BlobsStat blobDesc.Digest) r.2)

/-- The end of `verifyManifest`: the accumulated errors, or nil. -/
def verifyResult (errs : List Err) : Option Err :=
  if errs.length ≠ 0 then some (Err.ErrManifestVerification errs) else none

/-- The method `verifyManifest`. -/
def verifyManifest (env : Env σ) (dm : DeserializedManifest)
    (skipDependencyVerification : Bool) (w : World σ) :
    Option Err × World σ :=
  let errs : List Err :=
    if dm.ArtifactType = "" then
      [Err.ErrManifestVerification [Err.errorsNew "artifactType invalid"]]
    else []
  if !skipDependencyVerification then
    let l := verifyReferences env dm.References errs w
    let m := env.Manifests l.2.st
    let w2 := l.2.step .Manifests m.2
    match m.1 with
    | some err => (some err, w2)
    | none =>
      let subject := dm.Subject
      let x := env.Exists subject.Digest w2.st
      let w3 := w2.step (.Exists subject.Digest) x.2
      let exists_ := x.1.1
      let err := x.1.2
      let errs3 :=
        if !exists_ ∨ err = some Err.ErrBlobUnknown then
          l.1 ++ [Err.ErrManifestBlobUnknown subject.Digest]
        else match err with
          | some e => l.1 ++ [e]
          | none => l.1
      (verifyResult errs3, w3)
  else (verifyResult errs, w)

/-- The path that `indexReferrers` and `Referrers` build for a subject:
`path.Join(referrersLinkPath(name), subject.Algorithm(), subject.Hex())`. -/
def referrersRootPath (name : String) (subject : Digest) : Outcome String :=
  match subject.Algorithm with
  | .panicked d => .panicked d
  | .returned alg =>
    match subject.Hex with
    | .panicked d => .panicked d
    | .returned hex => .returned (pathJoin [referrersLinkPath name, alg, hex])

/-- The path `referenceLinkPath` of `indexReferrers`:
`path.Join(rootPath, revision.Algorithm(), revision.Hex(), "link")`. -/
def referenceLinkPath (name : String) (subject revision : Digest) :
    Outcome String :=
  match referrersRootPath name subject with
  | .panicked d => .panicked d
  | .returned rootPath =>
    match revision.Algorithm with
    | .panicked d => .panicked d
    | .returned alg =>
      match revision.Hex with
      | .panicked d => .panicked d
      | .returned hex => .returned (pathJoin [rootPath, alg, hex, "link"])

/-- The method `indexReferrers`. -/
def indexReferrers (env : Env σ) (dm : DeserializedManifest)
    (revision : Digest) (w : World σ) : Outcome (Option Err) × World σ :=
  let subjectRevision := dm.Subject.Digest
  match referenceLinkPath env.Name subjectRevision revision with
  | .panicked d => (.panicked d, w)
  | .returned path =>
    let r := env.linkFunc path revision w.st
    (.returned r.1, w.step (.linkFunc path revision) r.2)

/-- The method `Put` of the handler. -/
def Put (env : Env σ) (man : AnyManifest) (skipDependencyVerification : Bool)
    (w : World σ) : Outcome (Digest × Option Err) × World σ :=
  if !CanPut man then
    (.returned ("", some Err.ErrManifestFormatNotSupported), w)
  else
    match man with
    | .foreign _ _ =>
      (.returned ("", some (Err.errorsNew
        "wrong type put to artifactManifestHandler")), w)
    | .artifact da =>
      let v := verifyManifest env da skipDependencyVerification w
      match v.1 with
      | some err => (.returned ("", some err), v.2)
      | none =>
        let pl := da.Payload
        match pl.2.2 with
        | some err => (.returned ("", some err), v.2)
        | none =>
          let r := env.BlobStorePut pl.1 pl.2.1 v.2.st
          let w2 := v.2.step (.BlobStorePut pl.1 pl.2.1) r.2
          match r.1.2 with
          | some err => (.returned ("", some err), w2)
          | none =>
            let revision := r.1.1
            let ix := indexReferrers env da revision.Digest w2
            match ix.1 with
            | .panicked d => (.panicked d, ix.2)
            | .returned (some err) => (.returned ("", some err), ix.2)
            | .returned none => (.returned (revision.Digest, none), ix.2)

/-! ## The referrers query (`artifactservice.go`, `orasv2.go`) -/

/-- Go `append` on a slice that may be nil (`none`). -/
def appendSlice {α : Type} (s : Option (List α)) (a : α) : Option (List α) :=
  match s with
  | none => some [a]
  | some l => some (l ++ [a])

/-- The visitor that `Referrers` hands to the link enumerator, on the
slice `referrers` it appends to. -/
def referrersVisit (env : Env σ) (referrerRevision : Digest)
    (referrers : Option (List ReferrerDescriptor)) (w : World σ) :
    Option Err × Option (List ReferrerDescriptor) × World σ :=
  let g := env.Get referrerRevision w.st
  let w1 := w.step (.Get referrerRevision) g.2
  match g.1 with
  | .error err => (some err, referrers, w1)
  | .ok man =>
    match man with
    | .foreign _ _ => (none, referrers, w1)
    | .artifact ArtifactMan =>
      let r := env.StatterStat referrerRevision w1.st
      let w2 := w1.step (.StatterStat referrerRevision) r.2
      match r.1.2 with
      | some err => (some err, referrers, w2)
      | none =>
        let desc := r.1.1
        let mediaType := ArtifactMan.Payload.1
        (none, appendSlice referrers
          ⟨mediaType, ArtifactMan.ArtifactType, desc.Digest, desc.Size⟩, w2)

/-- Modelled from the spec: the link enumerator `storage.LinkBlobEnumerate`,
whose code is not part of the sources.  It invokes `visit` once per digest
found under the root, in order; if `visit` returns an error the enumeration
stops and that error propagates; otherwise it returns its own result
`final`.  The value of type `β` is what the visitor closes over. -/
def enumerate {β : Type}
    (visit : Digest → β → World σ → Option Err × β × World σ) :
    List Digest → Option Err → β → World σ → Option Err × β × World σ
  | [], final, b, w => (final, b, w)
  | d :: ds, final, b, w =>
    let v := visit d b w
    match v.1 with
    | some err => (some err, v.2.1, v.2.2)
    | none => enumerate visit ds final v.2.1 v.2.2

/-- The type switch `case driver.PathNotFoundError` of `Referrers`. -/
def isPathNotFoundError : Err → Bool
  | .PathNotFoundError _ => true
  | _ => false

set_option linter.unusedVariables false in
/-- The method `Referrers` of the referrers handler. -/
def Referrers (env : Env σ) (revision : Digest) (referrerType : String)
    (w : World σ) :
    Outcome (Option (List ReferrerDescriptor) × Option Err) × World σ :=
  let m := env.Manifests w.st
  let w1 := w.step .Manifests m.2
  match m.1 with
  | some err => (.returned (none, some err), w1)
  | none =>
    match referrersRootPath env.Name revision with
    | .panicked d => (.panicked d, w1)
    | .returned rootPath =>
      let en := env.linkBlobEnumerator rootPath w1.st
      let w2 := w1.step (.linkBlobEnumerator rootPath) en.2
      let r := enumerate (referrersVisit env) en.1.digests en.1.final none w2
      match r.1 with
      | some err =>
        if isPathNotFoundError err then (.returned (none, none), r.2.2)
        else (.returned (none, some err), r.2.2)
      | none => (.returned (r.2.1, none), r.2.2)

/-- The error codes of the registry API that the handler uses. -/
inductive ErrorCode where
  | ErrorCodeManifestUnknown
  | ErrorCodeUnknown
  deriving DecidableEq

/-- The detail attached to an API error by `WithDetail`. -/
inductive Detail where
  | text (s : String)
  | err (e : Err)
  deriving DecidableEq

/-- The value `errcode.Error`: an error code with its detail. -/
structure ApiError where
  Code : ErrorCode
  Detail : Detail
  deriving DecidableEq

/-- The type assertion `err.(distribution.ErrManifestUnknownRevision)`. -/
def isErrManifestUnknownRevision : Err → Bool
  | .ErrManifestUnknownRevision _ _ => true
  | _ => false

/-- The struct `referrersHandler`: the digest of the target manifest. -/
structure referrersHandler where
  Digest : Digest

/-- The method `Get` of the referrers handler, with the value
`artifactType` of the form field of the request and the list `errors` of
the extension context; it returns the list of errors of the context. -/
def referrersHandler.Get (env : Env σ) (h : referrersHandler)
    (artifactType : String) (errors : List ApiError) (w : World σ) :
    Outcome (List ApiError) × World σ :=
  if h.Digest = "" then
    (.returned (errors ++
      [⟨.ErrorCodeManifestUnknown, .text "digest not specified"⟩]), w)
  else
    let r := Referrers env h.Digest artifactType w
    match r.1 with
    | .panicked d => (.panicked d, r.2)
    | .returned (_, some err) =>
      if isErrManifestUnknownRevision err then
        (.returned (errors ++ [⟨.ErrorCodeManifestUnknown, .err err⟩]), r.2)
      else
        (.returned (errors ++ [⟨.ErrorCodeUnknown, .err err⟩]), r.2)
    | .returned (referrers, none) =>
      let referrers1 : Option (List ReferrerDescriptor) :=
        match referrers with
        | none => some []
        | some l => some l
      let w1 := r.2.step (.HeaderSet "Content-Type" "application/json") r.2.st
      let e := env.Encode referrers1 w1.st
      let w2 := w1.step (.Encode referrers1) e.2
      match e.1 with
      | some err =>
        (.returned (errors ++ [⟨.ErrorCodeUnknown, .err err⟩]), w2)
      | none => (.returned errors, w2)

/-! ## JSON (`encoding/json`)

The standard library decoder, as far as the handlers depend on it: the
syntax check of the scanner, the unquoting of strings, and the decoding of a
document into `v1.Manifest`.  Keys are matched to fields as the decoder
folds them: without regard to ASCII case, and with the long s (U+017F) and
the Kelvin sign (U+212A) taken for `s` and `k`.  A slice is decoded into
fresh elements; this differs from the decoder only in the elements of a
slice field whose key the document repeats, never in the error returned. -/

/-- A parsed JSON value. -/
inductive Json where
  | null
  | bool (b : Bool)
  | number (literal : String)
  | string (s : String)
  | array (elems : List Json)
  | object (members : List (String × Json))

/-- The JSON white space: space, tab, carriage return, line feed. -/
def isSpace (b : Nat) : Bool := b = 32 || b = 9 || b = 13 || b = 10

/-- Drops the leading white space. -/
def skipSpace : Bytes → Bytes
  | [] => []
  | b :: bs => if isSpace b then skipSpace bs else b :: bs

/-- An ASCII digit. -/
def isDigit (b : Nat) : Bool := 48 ≤ b && b ≤ 57

/-- The leading digits of the input and what follows them. -/
def spanDigits : Bytes → Bytes × Bytes
  | [] => ([], [])
  | b :: bs =>
    if isDigit b then (b :: (spanDigits bs).1, (spanDigits bs).2)
    else ([], b :: bs)

/-- The integer part of a number: `0`, or a digit from 1 to 9 followed by
digits. -/
def scanInt : Bytes → Option (Bytes × Bytes)
  | [] => none
  | b :: bs =>
    if b = 48 then some ([48], bs)
    else if isDigit b then some (b :: (spanDigits bs).1, (spanDigits bs).2)
    else none

/-- The optional fraction of a number: `.` and at least one digit. -/
def scanFrac : Bytes → Option (Bytes × Bytes)
  | 46 :: bs =>
    match (spanDigits bs).1 with
    | [] => none
    | ds => some (46 :: ds, (spanDigits bs).2)
  | bs => some ([], bs)

/-- The optional exponent of a number: `e` or `E`, an optional sign and at
least one digit. -/
def scanExp : Bytes → Option (Bytes × Bytes)
  | [] => some ([], [])
  | b :: bs =>
    if b = 101 ∨ b = 69 then
      let sign : Bytes := match bs with
        | c :: _ => if c = 43 ∨ c = 45 then [c] else []
        | [] => []
      let rest := bs.drop sign.length
      match (spanDigits rest).1 with
      | [] => none
      | ds => some (b :: sign ++ ds, (spanDigits rest).2)
    else some ([], b :: bs)

/-- A number literal at the head of the input, and the rest of the input. -/
def scanNumber (bs : Bytes) : Option (Bytes × Bytes) :=
  let neg : Bytes := match bs with
    | 45 :: _ => [45]
    | _ => []
  match scanInt (bs.drop neg.length) with
  | none => none
  | some (i, r1) =>
    match scanFrac r1 with
    | none => none
    | some (f, r2) =>
      match scanExp r2 with
      | none => none
      | some (e, r3) => some (neg ++ i ++ f ++ e, r3)

/-- The value of a hexadecimal digit. -/
def hexVal (b : Nat) : Option Nat :=
  if 48 ≤ b ∧ b ≤ 57 then some (b - 48)
  else if 97 ≤ b ∧ b ≤ 102 then some (b - 87)
  else if 65 ≤ b ∧ b ≤ 70 then some (b - 55)
  else none

/-- The value of the four hexadecimal digits at the head of the input. -/
def hex4 : Bytes → Option Nat
  | a :: b :: c :: d :: _ =>
    match hexVal a, hexVal b, hexVal c, hexVal d with
    | some x, some y, some z, some t => some (((x * 16 + y) * 16 + z) * 16 + t)
    | _, _, _, _ => none
  | _ => none

/-- The function `getu4`: the value of an escape `\uXXXX` at the head of the
input. -/
def getu4 : Bytes → Option Nat
  | 92 :: 117 :: rest => hex4 rest
  | _ => none

/-- A continuation byte of UTF-8 within the given bounds. -/
def inRange (lo hi b : Nat) : Bool := lo ≤ b && b ≤ hi

/-- Go `utf8.DecodeRune`: the first rune of the input and its width in
bytes; an invalid encoding is the rune U+FFFD of width 1. -/
def decodeRune : Bytes → Nat × Nat
  | [] => (0xFFFD, 0)
  | b0 :: rest =>
    if b0 < 0x80 then (b0, 1)
    else if inRange 0xC2 0xDF b0 then
      match rest with
      | b1 :: _ =>
        if inRange 0x80 0xBF b1 then ((b0 - 0xC0) * 64 + (b1 - 0x80), 2)
        else (0xFFFD, 1)
      | _ => (0xFFFD, 1)
    else if inRange 0xE0 0xEF b0 then
      match rest with
      | b1 :: b2 :: _ =>
        let lo := if b0 = 0xE0 then 0xA0 else 0x80
        let hi := if b0 = 0xED then 0x9F else 0xBF
        if inRange lo hi b1 && inRange 0x80 0xBF b2 then
          (((b0 - 0xE0) * 64 + (b1 - 0x80)) * 64 + (b2 - 0x80), 3)
        else (0xFFFD, 1)
      | _ => (0xFFFD, 1)
    else if inRange 0xF0 0xF4 b0 then
      match rest with
      | b1 :: b2 :: b3 :: _ =>
        let lo := if b0 = 0xF0 then 0x90 else 0x80
        let hi := if b0 = 0xF4 then 0x8F else 0xBF
        if inRange lo hi b1 && inRange 0x80 0xBF b2 && inRange 0x80 0xBF b3 then
          ((((b0 - 0xF0) * 64 + (b1 - 0x80)) * 64 + (b2 - 0x80)) * 64
            + (b3 - 0x80), 4)
        else (0xFFFD, 1)
      | _ => (0xFFFD, 1)
    else (0xFFFD, 1)

/-- The character of a one-letter escape of a JSON string. -/
def simpleEscape (b : Nat) : Option Char :=
  if b = 34 then some '"'
  else if b = 92 then some '\\'
  else if b = 47 then some '/'
  else if b = 98 then some (Char.ofNat 8)
  else if b = 102 then some (Char.ofNat 12)
  else if b = 110 then some '\n'
  else if b = 114 then some '\r'
  else if b = 116 then some '\t'
  else none

/-- The rune of an escape `\uXXXX` of value `r` followed by `rest`, and the
number of bytes of `rest` consumed with it: a surrogate pair is one rune, a
lone surrogate is U+FFFD. -/
def unicodeEscape (r : Nat) (rest : Bytes) : Nat × Nat :=
  if 0xD800 ≤ r ∧ r < 0xE000 then
    match getu4 rest with
    | some r2 =>
      if r < 0xDC00 ∧ 0xDC00 ≤ r2 ∧ r2 < 0xE000 then
        ((r - 0xD800) * 1024 + (r2 - 0xDC00) + 0x10000, 6)
      else (0xFFFD, 0)
    | none => (0xFFFD, 0)
  else (r, 0)

/-- The body of a JSON string after its opening quote: the characters it
denotes and the input after its closing quote.  A control character or an
unknown escape is a syntax error. -/
def scanString : Nat → Bytes → List Char → Option (List Char × Bytes)
  | 0, _, _ => none
  | _ + 1, [], _ => none
  | fuel + 1, b :: bs, acc =>
    if b = 34 then some (acc, bs)
    else if b = 92 then
      match bs with
      | [] => none
      | e :: rest =>
        if e = 117 then
          match hex4 rest with
          | none => none
          | some r =>
            let u := unicodeEscape r (rest.drop 4)
            scanString fuel (rest.drop (4 + u.2)) (acc ++ [Char.ofNat u.1])
        else
          match simpleEscape e with
          | none => none
          | some c => scanString fuel rest (acc ++ [c])
    else if b < 32 then none
    else
      let d := decodeRune (b :: bs)
      scanString fuel ((b :: bs).drop d.2) (acc ++ [Char.ofNat d.1])

/-- The constant `maxNestingDepth` of the scanner. -/
def maxNestingDepth : Nat := 10000

/-- The input after the literal `lit`, when the input starts with it. -/
def dropLiteral (lit : Bytes) (bs : Bytes) : Option Bytes :=
  if lit.isPrefixOf bs then some (bs.drop lit.length) else none

mutual
/-- A JSON value at the head of the input (after white space), nested
`depth` deep, and the rest of the input; `none` is a syntax error. -/
def parseValue : Nat → Nat → Bytes → Option (Json × Bytes)
  | 0, _, _ => none
  | fuel + 1, depth, bs =>
    match skipSpace bs with
    | [] => none
    | b :: rest =>
      if b = 123 then
        if depth + 1 > maxNestingDepth then none
        else match skipSpace rest with
          | 125 :: rest2 => some (.object [], rest2)
          | _ =>
            (parseMembers fuel (depth + 1) rest []).map fun r =>
              (.object r.1, r.2)
      else if b = 91 then
        if depth + 1 > maxNestingDepth then none
        else match skipSpace rest with
          | 93 :: rest2 => some (.array [], rest2)
          | _ =>
            (parseElems fuel (depth + 1) rest []).map fun r =>
              (.array r.1, r.2)
      else if b = 34 then
        match scanString (rest.length + 1) rest [] with
        | none => none
        | some (cs, rest2) => some (.string (String.mk cs), rest2)
      else if b = 116 then
        (dropLiteral [114, 117, 101] rest).map fun r => (.bool true, r)
      else if b = 102 then
        (dropLiteral [97, 108, 115, 101] rest).map fun r => (.bool false, r)
      else if b = 110 then
        (dropLiteral [117, 108, 108] rest).map fun r => (.null, r)
      else
        match scanNumber (b :: rest) with
        | none => none
        | some (lit, rest2) =>
          some (.number (String.mk (lit.map Char.ofNat)), rest2)
/-- The elements of an array from its next element on, after the elements
`acc`, up to its closing bracket. -/
def parseElems : Nat → Nat → Bytes → List Json → Option (List Json × Bytes)
  | 0, _, _, _ => none
  | fuel + 1, depth, bs, acc =>
    match parseValue fuel depth bs with
    | none => none
    | some (v, rest) =>
      match skipSpace rest with
      | 44 :: rest2 => parseElems fuel depth rest2 (acc ++ [v])
      | 93 :: rest2 => some (acc ++ [v], rest2)
      | _ => none
/-- The members of an object from its next key on, after the members
`acc`, up to its closing brace. -/
def parseMembers : Nat → Nat → Bytes → List (String × Json) →
    Option (List (String × Json) × Bytes)
  | 0, _, _, _ => none
  | fuel + 1, depth, bs, acc =>
    match skipSpace bs with
    | 34 :: rest =>
      match scanString (rest.length + 1) rest [] with
      | none => none
      | some (key, rest2) =>
        match skipSpace rest2 with
        | 58 :: rest3 =>
          match parseValue fuel depth rest3 with
          | none => none
          | some (v, rest4) =>
            match skipSpace rest4 with
            | 44 :: rest5 =>
              parseMembers fuel depth rest5 (acc ++ [(String.mk key, v)])
            | 125 :: rest5 => some (acc ++ [(String.mk key, v)], rest5)
            | _ => none
        | _ => none
    | _ => none
end

/-- The function `checkValid` followed by the parse of the document: one
JSON value between white space, or `none` on a syntax error.  The fuel
bounds the number of nested steps, each of which consumes a byte of the
input. -/
def parseJson (data : Bytes) : Option Json :=
  match parseValue (data.length + 1) 0 data with
  | none => none
  | some (v, rest) => if skipSpace rest = [] then some v else none

/-- The kind of a JSON value, as `json.UnmarshalTypeError` names it. -/
def Json.kind : Json → String
  | .null => "null"
  | .bool _ => "bool"
  | .number _ => "number"
  | .string _ => "string"
  | .array _ => "array"
  | .object _ => "object"

/-- The fold of a key under which the decoder matches it to the name of a
field (`foldName`): the ASCII letters in one case, and the two runes that
fold to an ASCII letter, the long s (U+017F) and the Kelvin sign (U+212A),
as `s` and `k`. -/
def foldKey (s : String) : String :=
  String.mk (s.data.map fun c =>
    if 'A' ≤ c ∧ c ≤ 'Z' then Char.ofNat (c.toNat + 32)
    else if c = Char.ofNat 0x17F then 's'
    else if c = Char.ofNat 0x212A then 'k'
    else c)

/-- Decoding into a Go string (or `digest.Digest`) that holds `cur`: null
leaves it as it is, a JSON string sets it. -/
def decodeString (goType : String) (cur : String) : Json → Except Err String
  | .null => .ok cur
  | .string s => .ok s
  | v => .error (.UnmarshalTypeError v.kind goType)

/-- Go `strconv.ParseInt(lit, 10, 64)` on a JSON number literal. -/
def parseInt64 (lit : String) : Option Int :=
  let cs := lit.data
  let neg : Bool := cs.head? = some '-'
  let ds := if neg then cs.tail else cs
  if ds ≠ [] ∧ ds.all Char.isDigit then
    let n : Nat := ds.foldl (fun a c => a * 10 + (c.toNat - 48)) 0
    let v : Int := if neg then -(n : Int) else (n : Int)
    if -(2 : Int) ^ 63 ≤ v ∧ v < (2 : Int) ^ 63 then some v else none
  else none

/-- Decoding into an `int64` that holds `cur`. -/
def decodeInt64 (cur : Int) : Json → Except Err Int
  | .null => .ok cur
  | .number lit =>
    match parseInt64 lit with
    | some v => .ok v
    | none => .error (.UnmarshalTypeError ("number " ++ lit) "int64")
  | v => .error (.UnmarshalTypeError v.kind "int64")

/-- Decoding into a `[]string`. -/
def decodeStrings : Json → Except Err (List String)
  | .null => .ok []
  | .array elems => elems.mapM (decodeString "string" "")
  | v => .error (.UnmarshalTypeError v.kind "[]string")

/-- Sets the key `k` of a map to `v`. -/
def mapSet (m : List (String × String)) (k v : String) :
    List (String × String) :=
  if m.any (fun p => p.1 = k) then
    m.map fun p => if p.1 = k then (k, v) else p
  else m ++ [(k, v)]

/-- Decoding into a `map[string]string` that holds `cur`. -/
def decodeAnnotations (cur : List (String × String)) :
    Json → Except Err (List (String × String))
  | .null => .ok []
  | .object members =>
    members.foldlM (fun m kv =>
      (decodeString "string" "" kv.2).map fun s => mapSet m kv.1 s) cur
  | v => .error (.UnmarshalTypeError v.kind "map[string]string")

/-- Decoding one member of an object into the field of `v1.Descriptor`
that its key names; a key that names no field is skipped. -/
def decodeDescriptorField (d : V1Descriptor) (kv : String × Json) :
    Except Err V1Descriptor :=
  let key := foldKey kv.1
  if key = "mediatype" then
    (decodeString "string" d.MediaType kv.2).map fun x =>
      { d with MediaType := x }
  else if key = "artifacttype" then
    (decodeString "string" d.ArtifactType kv.2).map fun x =>
      { d with ArtifactType := x }
  else if key = "digest" then
    (decodeString "digest.Digest" d.Digest kv.2).map fun x =>
      { d with Digest := x }
  else if key = "size" then
    (decodeInt64 d.Size kv.2).map fun x => { d with Size := x }
  else if key = "urls" then
    (decodeStrings kv.2).map fun x => { d with URLs := x }
  else if key = "annotations" then
    (decodeAnnotations d.Annotations kv.2).map fun x =>
      { d with Annotations := x }
  else .ok d

/-- Decoding into a `v1.Descriptor` that holds `cur`. -/
def decodeDescriptor (cur : V1Descriptor) : Json → Except Err V1Descriptor
  | .null => .ok cur
  | .object members => members.foldlM decodeDescriptorField cur
  | v => .error (.UnmarshalTypeError v.kind "v1.Descriptor")

/-- Decoding into a `[]v1.Descriptor`. -/
def decodeDescriptors : Json → Except Err (List V1Descriptor)
  | .null => .ok []
  | .array elems => elems.mapM (decodeDescriptor V1Descriptor.zero)
  | v => .error (.UnmarshalTypeError v.kind "[]v1.Descriptor")

/-- Decoding one member of an object into the field of `v1.Manifest`
that its key names; a key that names no field is skipped. -/
def decodeManifestField (m : V1Manifest) (kv : String × Json) :
    Except Err V1Manifest :=
  let key := foldKey kv.1
  if key = "mediatype" then
    (decodeString "string" m.MediaType kv.2).map fun x =>
      { m with MediaType := x }
  else if key = "artifacttype" then
    (decodeString "string" m.ArtifactType kv.2).map fun x =>
      { m with ArtifactType := x }
  else if key = "blobs" then
    (decodeDescriptors kv.2).map fun x => { m with Blobs := x }
  else if key = "subject" then
    (decodeDescriptor m.Subject kv.2).map fun x => { m with Subject := x }
  else if key = "annotations" then
    (decodeAnnotations m.Annotations kv.2).map fun x =>
      { m with Annotations := x }
  else .ok m

/-- Decoding into a `v1.Manifest` that holds `cur`: null leaves it as it
is, an object sets its fields, any other value is a type error. -/
def decodeManifest (cur : V1Manifest) : Json → Except Err V1Manifest
  | .null => .ok cur
  | .object members => members.foldlM decodeManifestField cur
  | v => .error (.UnmarshalTypeError v.kind "v1.Manifest")

/-- The call `json.Unmarshal(data, &v)` with `v` a `json.RawMessage`: it
succeeds exactly on a syntactically valid document. -/
def jsonValid (data : Bytes) : Bool := (parseJson data).isSome

/-- The call `json.Unmarshal(data, &man)` with `man` a `v1.Manifest`
holding `cur`: the decoded manifest, or the error. -/
def jsonUnmarshal (data : Bytes) (cur : V1Manifest) : Except Err V1Manifest :=
  match parseJson data with
  | none => .error .SyntaxError
  | some v => decodeManifest cur v

/-! ## Unmarshalling (`artifactmanifest.go`, `artifactmanifesthandler.go`) -/

/-- The method `UnmarshalJSON`: the manifest after the call and the error
returned. -/
def DeserializedManifest.UnmarshalJSON (d : DeserializedManifest) (b : Bytes) :
    DeserializedManifest × Option Err :=
  let d1 : DeserializedManifest := { d with raw := b }
  match jsonUnmarshal d1.raw V1Manifest.zero with
  | .error err => (d1, some err)
  | .ok man =>
    if man.ArtifactType = "" then
      (d1, some (Err.errorsNew "artifactType cannot be empty"))
    else ({ d1 with inner := man }, none)

/-- The method `CanUnmarshal`. -/
def CanUnmarshal (content : Bytes) : Bool := jsonValid content

/-- The zero value `&DeserializedManifest{}`. -/
def DeserializedManifest.zero : DeserializedManifest :=
  { inner := V1Manifest.zero, raw := [] }

set_option linter.unusedVariables false in
/-- The method `Unmarshal` of the handler: the manifest returned (`none` is
nil) and the error. -/
def Unmarshal (dgst : Digest) (content : Bytes) :
    Option AnyManifest × Option Err :=
  if !CanUnmarshal content then
    (none, some Err.ErrManifestFormatNotSupported)
  else
    let r := DeserializedManifest.zero.UnmarshalJSON content
    match r.2 with
    | some err => (none, some err)
    | none => (some (.artifact r.1), none)

/-! ## A registry held in memory

A concrete outside world on which the handlers are run in the examples:
blobs are kept by digest, links by path. -/

/-- The blobs and the links of a registry held in memory. -/
structure Registry where
  /-- The stored blobs: digest, media type and content. -/
  blobs : List (Digest × String × Bytes)
  /-- The links written so far: path and target. -/
  links : List (String × Digest)
  deriving DecidableEq

/-- The digest that the registry in memory gives to a content: one letter
per byte. -/
def Registry.digestOf (content : Bytes) : Digest :=
  String.mk ("mem:".data ++ content.map fun b => Char.ofNat (97 + b % 26))

/-- The blob stored under a digest. -/
def Registry.find (s : Registry) (d : Digest) : Option (String × Bytes) :=
  (s.blobs.find? fun b => b.1 = d).map fun b => b.2

/-- The descriptor of a stored blob, or `ErrBlobUnknown`. -/
def Registry.stat (s : Registry) (d : Digest) : Descriptor × Option Err :=
  match s.find d with
  | some b => (⟨b.1, b.2.length, d⟩, none)
  | none => (⟨"", 0, ""⟩, some Err.ErrBlobUnknown)

/-- The manifest stored under a digest: an artifact manifest is
unmarshalled by the handler, any other blob is a manifest of another
kind. -/
def Registry.get (s : Registry) (d : Digest) : Except Err AnyManifest :=
  match s.find d with
  | none => .error (Err.ErrManifestUnknownRevision "repo" d)
  | some b =>
    if b.1 = MediaTypeArtifactManifest then
      match Unmarshal d b.2 with
      | (some man, none) => .ok man
      | (_, some err) => .error err
      | (none, none) => .error (Err.ErrManifestUnknownRevision "repo" d)
    else .ok (.foreign b.1 b.2)

/-- The links found under a root path, or `PathNotFoundError`. -/
def Registry.enumeration (s : Registry) (root : String) : Enumeration :=
  let found := s.links.filter fun l => (root.data ++ ['/']).isPrefixOf l.1.data
  if found = [] then ⟨[], some (Err.PathNotFoundError root)⟩
  else ⟨found.map fun l => l.2, none⟩

/-- The collaborators over the registry held in memory, for the
repository `repo`. -/
def Registry.env : Env Registry where
  Name := "repo"
  BlobsStat := fun d s => (s.stat d, s)
  Manifests := fun s => (none, s)
  Exists := fun d s => (((s.find d).isSome, none), s)
  Get := fun d s => (s.get d, s)
  BlobStorePut := fun mt content s =>
    ((⟨mt, content.length, Registry.digestOf content⟩, none),
      { s with blobs := s.blobs ++ [(Registry.digestOf content, mt, content)] })
  linkFunc := fun path d s => (none, { s with links := s.links ++ [(path, d)] })
  linkBlobEnumerator := fun root s => (s.enumeration root, s)
  StatterStat := fun d s => (s.stat d, s)
  Encode := fun _ s => (none, s)

/-- An artifact manifest of type `artifactType` about `subject` with the
blobs `blobs` and the raw bytes `raw`. -/
def sampleManifest (artifactType : String) (subject : Digest)
    (blobs : List Digest) (raw : Bytes) : DeserializedManifest where
  inner :=
    { V1Manifest.zero with
      ArtifactType := artifactType
      Subject := { V1Descriptor.zero with Digest := subject }
      Blobs := blobs.map fun d => { V1Descriptor.zero with Digest := d } }
  raw := raw

/-- The calls that only read the stores. -/
def Call.isRead : Call → Bool
  | .BlobStorePut _ _ => false
  | .linkFunc _ _ => false
  | _ => true

/-- The world after `Put` has stored the payload of `dm`. -/
def afterStore (env : Env σ) (dm : DeserializedManifest) (skip : Bool)
    (w : World σ) : World σ :=
  (verifyManifest env dm skip w).2.step
    (.BlobStorePut MediaTypeArtifactManifest dm.raw)
    (env.BlobStorePut MediaTypeArtifactManifest dm.raw
      (verifyManifest env dm skip w).2.st).2

/-- The registry held in memory with a blob store that rejects every
write. -/
def Registry.envStoreFails : Env Registry :=
  { Registry.env with
    BlobStorePut := fun _ _ s => ((⟨"", 0, ""⟩, some (Err.other 1)), s) }

/-- The registry held in memory with a link function that fails. -/
def Registry.envLinkFails : Env Registry :=
  { Registry.env with linkFunc := fun _ _ s => (some (Err.other 2), s) }

/-- The document `{"artifactType":"a","subject":{"digest":"sha256:s"}}`. -/
def docA : Bytes :=
  [123, 34, 97, 114, 116, 105, 102, 97, 99, 116, 84, 121, 112, 101, 34, 58,
   34, 97, 34, 44, 34, 115, 117, 98, 106, 101, 99, 116, 34, 58, 123, 34, 100,
   105, 103, 101, 115, 116, 34, 58, 34, 115, 104, 97, 50, 53, 54, 58, 115, 34,
   125, 125]

/-- The document `{"artifactType":"b","subject":{"digest":"sha256:s"}}`. -/
def docB : Bytes :=
  [123, 34, 97, 114, 116, 105, 102, 97, 99, 116, 84, 121, 112, 101, 34, 58,
   34, 98, 34, 44, 34, 115, 117, 98, 106, 101, 99, 116, 34, 58, 123, 34, 100,
   105, 103, 101, 115, 116, 34, 58, 34, 115, 104, 97, 50, 53, 54, 58, 115, 34,
   125, 125]

/-- A registry that holds the subject `sha256:s`. -/
def withSubject : World Registry :=
  ⟨⟨[("sha256:s", "application/vnd.oci.image.manifest.v1+json", [123, 125])],
    []⟩, []⟩

/-- Unmarshals the document `doc` and puts the manifest, with dependency
verification; a document that is rejected leaves the world as it is. -/
def putDocument (env : Env σ) (doc : Bytes) (w : World σ) : World σ :=
  match (Unmarshal "" doc).1 with
  | some man => (Put env man false w).2
  | none => w

/-- The registry after the documents `docA` and `docB`, two artifact
manifests of types `a` and `b` about the subject `sha256:s`, have been
put. -/
def twoReferrers : World Registry :=
  putDocument Registry.env docB (putDocument Registry.env docA withSubject)

/-- The registry held in memory behind a response writer that fails. -/
def Registry.envEncodeFails : Env Registry :=
  { Registry.env with Encode := fun _ s => (some (Err.other 3), s) }

/-! ## The outcome of verification, case by case -/

/-- The state of the world after the blobs `refs` have been stat-ed in
turn. -/
def statState (env : Env σ) : List Descriptor → σ → σ
  | [], s => s
  | b :: rest, s => statState env rest (env.BlobsStat b.Digest s).2

/-- The result that `Stat` gives for each of the blobs `refs` when they
are stat-ed in turn. -/
def statResults (env : Env σ) :
    List Descriptor → σ → List (Descriptor × Option Err)
  | [], _ => []
  | b :: rest, s =>
    (env.BlobsStat b.Digest s).1 ::
      statResults env rest (env.BlobsStat b.Digest s).2

/-- The entries recorded for the blob `b` when `Stat` gives `r`: nothing
for a blob that is found; `ErrManifestBlobUnknown` alone for the sentinel
`ErrBlobUnknown` or for an empty digest; the error itself and then
`ErrManifestBlobUnknown` for any other error. -/
def blobEntries (b : Descriptor) (r : Descriptor × Option Err) : List Err :=
  match r.2 with
  | some e =>
    if e = Err.ErrBlobUnknown then [Err.ErrManifestBlobUnknown b.Digest]
    else [e, Err.ErrManifestBlobUnknown b.Digest]
  | none =>
    if r.1.Digest = "" then [Err.ErrManifestBlobUnknown b.Digest] else []

/-- The entries recorded for the blobs `refs`, stat-ed in turn. -/
def referenceEntries (env : Env σ) : List Descriptor → σ → List Err
  | [], _ => []
  | b :: rest, s =>
    blobEntries b (env.BlobsStat b.Digest s).1 ++
      referenceEntries env rest (env.BlobsStat b.Digest s).2

/-- The entry recorded for an empty artifact type. -/
def artifactTypeEntries (dm : DeserializedManifest) : List Err :=
  if dm.ArtifactType = "" then
    [Err.ErrManifestVerification [Err.errorsNew "artifactType invalid"]]
  else []

/-- The entry recorded for the subject `d` when `Exists` gives `r`. -/
def subjectEntries (d : Digest) (r : Bool × Option Err) : List Err :=
  match r with
  | (false, _) => [Err.ErrManifestBlobUnknown d]
  | (true, some e) =>
    if e = Err.ErrBlobUnknown then [Err.ErrManifestBlobUnknown d] else [e]
  | (true, none) => []

/-- The registry held in memory with a repository whose manifest service
cannot be obtained. -/
def Registry.envManifestsFails : Env Registry :=
  { Registry.env with Manifests := fun s => (some (Err.other 4), s) }

/-- The registry held in memory with a blob store whose `Stat` fails with
an error of the storage driver. -/
def Registry.envStatFails : Env Registry :=
  { Registry.env with
    BlobsStat := fun _ s => ((⟨"", 0, ""⟩, some (Err.other 5)), s) }

/-- The type assertion `err.(*json.UnmarshalTypeError)`. -/
def isTypeError : Err → Bool
  | .UnmarshalTypeError _ _ => true
  | _ => false

/-! ## Marshalling, and the handler of the package `oci` -/

/-- The method `MarshalJSON`: the raw bytes (`none` is nil) and the
error. -/
def DeserializedManifest.MarshalJSON (d : DeserializedManifest) :
    Option Bytes × Option Err :=
  if d.raw.length > 0 then (some d.raw, none)
  else (none, some (Err.errorsNew
    "JSON representation not initialized in DeserializedManifest"))

/-- The constant `v1.MediaTypeImageIndex` of the OCI image specification. -/
def MediaTypeImageIndex : String := "application/vnd.oci.image.index.v1+json"

/-- The collaborators of the referrers handler of the package `oci`: its
method `Referrers`, whose code is not part of the sources, and the JSON
encoder writing the image index to the response writer. -/
structure OciEnv (σ : Type) where
  /-- The method `Referrers` of the handler. -/
  Referrers : Digest → String → σ →
    (Option (List Descriptor) × Option Err) × σ
  /-- The JSON encoder writing the response to the response writer. -/
  Encode : Option (List Descriptor) → σ → Option Err × σ

/-- The method `getReferrers` of the referrers handler of the package
`oci`, with the value `artifactType` of the form field of the request and the
list `errors` of the extension context; it returns the list of errors of
the context. -/
def getReferrers (env : OciEnv σ) (h : referrersHandler)
    (artifactType : String) (errors : List ApiError) (w : World σ) :
    List ApiError × World σ :=
  if h.Digest = "" then
    (errors ++ [⟨.ErrorCodeManifestUnknown, .text "digest not specified"⟩], w)
  else
    let r := env.Referrers h.Digest artifactType w.st
    let w1 := w.step (.OciReferrers h.Digest artifactType) r.2
    match r.1.2 with
    | some err =>
      if isErrManifestUnknownRevision err then
        (errors ++ [⟨.ErrorCodeManifestUnknown, .err err⟩], w1)
      else (errors ++ [⟨.ErrorCodeUnknown, .err err⟩], w1)
    | none =>
      let referrers : Option (List Descriptor) :=
        match r.1.1 with
        | none => some []
        | some l => some l
      let w2 := w1.step (.HeaderSet "Content-Type" MediaTypeImageIndex) w1.st
      let e := env.Encode referrers w2.st
      let w3 := w2.step (.EncodeIndex referrers) e.2
      match e.1 with
      | some err => (errors ++ [⟨.ErrorCodeUnknown, .err err⟩], w3)
      | none => (errors, w3)

/-- An OCI handler over the registry held in memory, whose subjects have no
referrer. -/
def Registry.ociEnv : OciEnv Registry where
  Referrers := fun _ _ s => ((none, none), s)
  Encode := fun _ s => (none, s)

/-! ## The outcome of the referrers query, digest by digest -/

/-- Go `append` of the elements `l` to a slice that may be nil: a nil slice
stays nil when nothing is appended. -/
def appendAll {α : Type} (s : Option (List α)) (l : List α) :
    Option (List α) :=
  match l with
  | [] => s
  | _ :: _ => some (s.getD [] ++ l)

/-- Every visit of the digests, made in turn, succeeds: `Get` returns a
manifest and, for an artifact manifest, `Stat` returns no error. -/
def visitsSucceed (env : Env σ) : List Digest → σ → Bool
  | [], _ => true
  | d :: ds, s =>
    match (env.Get d s).1 with
    | .error _ => false
    | .ok (.foreign _ _) => visitsSucceed env ds (env.Get d s).2
    | .ok (.artifact _) =>
      (env.StatterStat d (env.Get d s).2).1.2 = none &&
        visitsSucceed env ds (env.StatterStat d (env.Get d s).2).2

/-- The state of the world after the visits of the digests. -/
def visitState (env : Env σ) : List Digest → σ → σ
  | [], s => s
  | d :: ds, s =>
    match (env.Get d s).1 with
    | .ok (.artifact _) =>
      visitState env ds (env.StatterStat d (env.Get d s).2).2
    | _ => visitState env ds (env.Get d s).2

/-- The sub-sequence of the enumerated digests whose manifest is an
artifact manifest, in the order of the enumeration, each with the digest
and the size that `Stat` returns, the media type of the payload and the
artifact type of the manifest. -/
def referrerEntries (env : Env σ) : List Digest → σ → List ReferrerDescriptor
  | [], _ => []
  | d :: ds, s =>
    match (env.Get d s).1 with
    | .ok (.artifact dm) =>
      ⟨dm.Payload.1, dm.ArtifactType,
        (env.StatterStat d (env.Get d s).2).1.1.Digest,
        (env.StatterStat d (env.Get d s).2).1.1.Size⟩ ::
        referrerEntries env ds (env.StatterStat d (env.Get d s).2).2
    | _ => referrerEntries env ds (env.Get d s).2

/-- The calls of the visits of the digests: `Get` for each digest, and
`Stat` for those whose manifest is an artifact manifest. -/
def visitCalls (env : Env σ) : List Digest → σ → List Call
  | [], _ => []
  | d :: ds, s =>
    match (env.Get d s).1 with
    | .ok (.artifact _) =>
      Call.Get d :: Call.StatterStat d ::
        visitCalls env ds (env.StatterStat d (env.Get d s).2).2
    | _ => Call.Get d :: visitCalls env ds (env.Get d s).2

/-- The error with which the visit of the digest `d` fails in the state
`s`: the error of `Get`, or the error of `Stat` for an artifact
manifest. -/
def visitError (env : Env σ) (d : Digest) (s : σ) : Option Err :=
  match (env.Get d s).1 with
  | .error e => some e
  | .ok (.foreign _ _) => none
  | .ok (.artifact _) => (env.StatterStat d (env.Get d s).2).1.2

/-- The registry held in memory with a blob statter for which the blob of
`docB` has gone: its `Stat` fails with `driver.PathNotFoundError`. -/
def Registry.envStatterGone : Env Registry :=
  { Registry.env with
    StatterStat := fun d s =>
      if d = Registry.digestOf docB then
        ((⟨"", 0, ""⟩, some (Err.PathNotFoundError d)), s)
      else (s.stat d, s) }

/-- The registry held in memory with a blob statter that fails with an
error of the storage driver. -/
def Registry.envStatterFails : Env Registry :=
  { Registry.env with
    StatterStat := fun _ s => ((⟨"", 0, ""⟩, some (Err.other 6)), s) }

/-! ## Paths by their elements, and the layout of the storage variant -/

/-- The elements joined by `/`. -/
def joinSlash : List (List Char) → List Char
  | [] => []
  | [x] => x
  | x :: y :: rest => x ++ '/' :: joinSlash (y :: rest)

/-- The rooted path with the elements `es`. -/
def rootedPath (es : List (List Char)) : List Char := '/' :: joinSlash es

/-- Each of the elements after a `/`, one after the other. -/
def consSlashAll : List (List Char) → List Char
  | [] => []
  | x :: xs => '/' :: x ++ consSlashAll xs

/-- The elements of all the strings, split at their slashes. -/
def splitAll : List (List Char) → List (List Char)
  | [] => []
  | x :: xs => splitSlash x ++ splitAll xs

/-- A path element that `path.Clean` keeps as it is: not empty, without
`/`, and neither `.` nor `..`. -/
def goodSeg (e : List Char) : Prop :=
  e ≠ [] ∧ '/' ∉ e ∧ e ≠ ['.'] ∧ e ≠ ['.', '.']

instance (e : List Char) : Decidable (goodSeg e) := by
  unfold goodSeg
  infer_instance

/-- A well-formed digest: it holds a `:`, and its algorithm and its hex are
path elements that `path.Clean` keeps. -/
def wellFormed (d : Digest) : Prop :=
  match sepSplit d.data with
  | none => False
  | some p => goodSeg p.1 ∧ goodSeg p.2

instance (d : Digest) : Decidable (wellFormed d) := by
  unfold wellFormed
  split <;> infer_instance

/-- A valid repository name: its elements between slashes are path
elements that `path.Clean` keeps. -/
def validName (name : String) : Prop :=
  ∀ e ∈ splitSlash name.data, goodSeg e

instance (name : String) : Decidable (validName name) := by
  unfold validName
  infer_instance

/-- The elements of a path: what stands between its slashes, without the
empty elements. -/
def pathElems (p : String) : List (List Char) :=
  (splitSlash p.data).filter fun e => e ≠ []

/-- The path `p` lies under the directory `root`: the elements of `root`
are the first elements of `p`. -/
def isUnder (root p : String) : Prop := pathElems root <+: pathElems p

instance (root p : String) : Decidable (isUnder root p) := by
  unfold isUnder
  infer_instance

/-- The function `manifestLinkPath` of the storage variant. -/
def manifestLinkPath (name : String) : String :=
  pathJoin ["/docker/registry/", "v2", "repositories", name, "_manifests",
    "revisions"]

/-- The function `rootPathFn` of `referrersStoreFactory`, for the subject
`revision`: `path.Join(manifestLinkPath(name), revision.Algorithm(),
revision.Hex(), "ref")`. -/
def referrersStoreRootPath (name : String) (revision : Digest) :
    Outcome String :=
  match revision.Algorithm with
  | .panicked d => .panicked d
  | .returned alg =>
    match revision.Hex with
    | .panicked d => .panicked d
    | .returned hex =>
      .returned (pathJoin [manifestLinkPath name, alg, hex, "ref"])

/-- The function `ResolvePath` of the referrers store that
`referrersStoreFactory` builds for the subject `revision`:
`path.Join(rootPathFn(name), dgst.Algorithm(), dgst.Hex(), "link")`. -/
def referrersStoreResolvePath (name : String) (revision dgst : Digest) :
    Outcome String :=
  match referrersStoreRootPath name revision with
  | .panicked d => .panicked d
  | .returned rootPath =>
    match dgst.Algorithm with
    | .panicked d => .panicked d
    | .returned alg =>
      match dgst.Hex with
      | .panicked d => .panicked d
      | .returned hex => .returned (pathJoin [rootPath, alg, hex, "link"])

/-! ## The namespace of the package `oras` (`extension/oras/oras.go`) -/

/-- A value of the interface `distribution.Repository` that is not nil: a
repository of the base namespace, or an `*artifactRepository` wrapping a
repository (`none` is nil) with the flags `storageEnabled` and
`referrersEnabled`. -/
inductive Repository (ρ : Type) where
  | base (r : ρ)
  | artifactRepository (Repository : Option (Repository ρ))
      (storageEnabled referrersEnabled : Bool)

/-- The struct `orasNamespace` of the package `oras`: the embedded base
namespace, given by its method `Repository`, and the two flags. -/
structure orasNamespace (ρ : Type) where
  /-- The method `Repository` of the embedded `distribution.Namespace`. -/
  Namespace : String → Option ρ × Option Err
  storageEnabled : Bool
  referrersEnabled : Bool

/-- The method `Repository` of `*orasNamespace`, run for at most `fuel`
nested calls: `none` when the call has not returned within them.  Its body
starts with the call `o.Repository(ctx, name)`, which Go resolves to this
method itself, the method declared on `*orasNamespace` hiding the one of
the embedded namespace. -/
def orasNamespace.Repository {ρ : Type} (o : orasNamespace ρ) (name : String) :
    Nat → Option (Option (Repository ρ) × Option Err)
  | 0 => none
  | fuel + 1 =>
    match orasNamespace.Repository o name fuel with
    | none => none
    | some (repo, err) =>
      match err with
      | some e => some (none, some e)
      | none =>
        some (some (.artifactRepository repo o.storageEnabled
          o.referrersEnabled), none)

/-- The result expected of the method `Repository`: the error of the base
namespace, or an `artifactRepository` wrapping the repository of the base
namespace with the flags of the namespace. -/
def orasNamespace.wrapBase {ρ : Type} (o : orasNamespace ρ) (name : String) :
    Option (Distribution.Repository ρ) × Option Err :=
  match o.Namespace name with
  | (_, some e) => (none, some e)
  | (repo, none) =>
    (some (.artifactRepository (repo.map .base) o.storageEnabled
      o.referrersEnabled), none)

/-! ## Digests without a separator, and a blob store with digests of its own -/

/-- The document `{"artifactType":"a"}`, which names no subject. -/
def docNoSubject : Bytes :=
  [123, 34, 97, 114, 116, 105, 102, 97, 99, 116, 84, 121, 112, 101, 34, 58,
   34, 97, 34, 125]

/-- The registry held in memory with a blob store that gives the digest
`d` to every content. -/
def Registry.envWithDigest (d : Digest) : Env Registry :=
  { Registry.env with
    BlobStorePut := fun mt content s =>
      ((⟨mt, content.length, d⟩, none),
        { s with blobs := s.blobs ++ [(d, mt, content)] }) }

/-- A registry in which a link under the referrers root of `sha256:s`
points to the digest `mem:zz`, of which it holds no blob. -/
def danglingLink : World Registry :=
  ⟨⟨[], [("/docker/registry/v2/repositories/repo/_refs/subjects/sha256/s/mem/zz/link",
    "mem:zz")]⟩, []⟩

/-! ## Properties of verification and `Put` -/

theorem verifyReferences_log (env : Env σ) (refs : List Descriptor)
    (errs : List Err) (w : World σ) :
    (verifyReferences env refs errs w).2.log =
      w.log ++ refs.map fun b => Call.BlobsStat b.Digest := by
  induction refs generalizing errs w with
  | nil => simp [verifyReferences]
  | cons b rest ih =>
    simp only [verifyReferences, ih, World.step, List.map_cons]
    simp

theorem verifyManifest_log (env : Env σ) (dm : DeserializedManifest)
    (skip : Bool) (w : World σ) :
    ∃ calls, (verifyManifest env dm skip w).2.log = w.log ++ calls ∧
      ∀ c ∈ calls, c.isRead = true := by
  unfold verifyManifest
  cases skip with
  | true => exact ⟨[], by simp⟩
  | false =>
    simp only [Bool.not_false, if_true]
    split
    · refine ⟨(dm.References.map fun b => Call.BlobsStat b.Digest)
        ++ [Call.Manifests], ?_, ?_⟩
      · simp [World.step, verifyReferences_log]
      · intro c hc
        simp at hc
        rcases hc with ⟨a, _, rfl⟩ | rfl <;> rfl
    · refine ⟨(dm.References.map fun b => Call.BlobsStat b.Digest)
        ++ [Call.Manifests, Call.Exists dm.Subject.Digest], ?_, ?_⟩
      · simp [World.step, verifyReferences_log]
      · intro c hc
        simp at hc
        rcases hc with ⟨a, _, rfl⟩ | rfl | rfl <;> rfl

theorem isRead_not_write {c : Call} (h : c.isRead = true) :
    (∀ mt p, c ≠ .BlobStorePut mt p) ∧ (∀ p d, c ≠ .linkFunc p d) := by
  constructor
  · intro mt p hc; subst hc; simp [Call.isRead] at h
  · intro p d hc; subst hc; simp [Call.isRead] at h

theorem Put_verify_error (env : Env σ) (dm : DeserializedManifest)
    (skip : Bool) (w : World σ) (err : Err)
    (h : (verifyManifest env dm skip w).1 = some err) :
    Put env (.artifact dm) skip w =
      (.returned ("", some err), (verifyManifest env dm skip w).2) := by
  simp [Put, CanPut, h]

theorem Put_store_error (env : Env σ) (dm : DeserializedManifest)
    (skip : Bool) (w : World σ) (err : Err)
    (hv : (verifyManifest env dm skip w).1 = none)
    (hp : (env.BlobStorePut MediaTypeArtifactManifest dm.raw
      (verifyManifest env dm skip w).2.st).1.2 = some err) :
    Put env (.artifact dm) skip w =
      (.returned ("", some err), afterStore env dm skip w) := by
  simp [Put, CanPut, hv, DeserializedManifest.Payload, hp, afterStore]

theorem Put_panic (env : Env σ) (dm : DeserializedManifest)
    (skip : Bool) (w : World σ) (d : Digest)
    (hv : (verifyManifest env dm skip w).1 = none)
    (hp : (env.BlobStorePut MediaTypeArtifactManifest dm.raw
      (verifyManifest env dm skip w).2.st).1.2 = none)
    (hpath : referenceLinkPath env.Name dm.Subject.Digest
      (env.BlobStorePut MediaTypeArtifactManifest dm.raw
        (verifyManifest env dm skip w).2.st).1.1.Digest = .panicked d) :
    Put env (.artifact dm) skip w =
      (.panicked d, afterStore env dm skip w) := by
  simp [Put, CanPut, hv, DeserializedManifest.Payload, hp, afterStore,
    indexReferrers, hpath]

theorem Put_link (env : Env σ) (dm : DeserializedManifest)
    (skip : Bool) (w : World σ) (path : String)
    (hv : (verifyManifest env dm skip w).1 = none)
    (hp : (env.BlobStorePut MediaTypeArtifactManifest dm.raw
      (verifyManifest env dm skip w).2.st).1.2 = none)
    (hpath : referenceLinkPath env.Name dm.Subject.Digest
      (env.BlobStorePut MediaTypeArtifactManifest dm.raw
        (verifyManifest env dm skip w).2.st).1.1.Digest = .returned path) :
    Put env (.artifact dm) skip w =
      (match (env.linkFunc path
          (env.BlobStorePut MediaTypeArtifactManifest dm.raw
            (verifyManifest env dm skip w).2.st).1.1.Digest
          (afterStore env dm skip w).st).1 with
        | some err => .returned ("", some err)
        | none => .returned ((env.BlobStorePut MediaTypeArtifactManifest dm.raw
            (verifyManifest env dm skip w).2.st).1.1.Digest, none),
       (afterStore env dm skip w).step
         (.linkFunc path (env.BlobStorePut MediaTypeArtifactManifest dm.raw
            (verifyManifest env dm skip w).2.st).1.1.Digest)
         (env.linkFunc path
          (env.BlobStorePut MediaTypeArtifactManifest dm.raw
            (verifyManifest env dm skip w).2.st).1.1.Digest
          (afterStore env dm skip w).st).2) := by
  simp only [Put, CanPut, hv, DeserializedManifest.Payload, hp, afterStore,
    indexReferrers, hpath]
  simp
  split <;> simp_all

/-- C1. Validation precedes persistence: when `verifyManifest` on `dm` with
dependency verification returns the error `err`, `Put` returns `err` with
the empty digest, and the calls it has made are those of the verification:
none of them is a call of `blobStore.Put` or of `linkFunc`. -/
theorem put_validation_precedes_persistence (env : Env σ)
    (dm : DeserializedManifest) (w : World σ) (err : Err)
    (h : (verifyManifest env dm false w).1 = some err) :
    (Put env (.artifact dm) false w).1 = .returned ("", some err) ∧
    ∃ calls, (Put env (.artifact dm) false w).2.log = w.log ++ calls ∧
      ∀ c ∈ calls,
        (∀ mt p, c ≠ .BlobStorePut mt p) ∧ (∀ p d, c ≠ .linkFunc p d) := by
  rw [Put_verify_error env dm false w err h]
  refine ⟨rfl, ?_⟩
  obtain ⟨calls, hlog, hread⟩ := verifyManifest_log env dm false w
  exact ⟨calls, hlog, fun c hc => isRead_not_write (hread c hc)⟩

/-- A manifest whose subject is not in the registry: `Put` returns the
verification error and writes nothing. -/
theorem put_validation_precedes_persistence_witness :
    (verifyManifest Registry.env (sampleManifest "a" "sha256:s" [] [123, 125])
        false ⟨⟨[], []⟩, []⟩).1 =
      some (.ErrManifestVerification [.ErrManifestBlobUnknown "sha256:s"]) ∧
    ((Put Registry.env (.artifact (sampleManifest "a" "sha256:s" [] [123, 125]))
        false ⟨⟨[], []⟩, []⟩).1 =
      .returned ("", some
        (.ErrManifestVerification [.ErrManifestBlobUnknown "sha256:s"])) ∧
    ∃ calls, (Put Registry.env
        (.artifact (sampleManifest "a" "sha256:s" [] [123, 125]))
        false ⟨⟨[], []⟩, []⟩).2.log = [] ++ calls ∧
      ∀ c ∈ calls,
        (∀ mt p, c ≠ .BlobStorePut mt p) ∧ (∀ p d, c ≠ .linkFunc p d)) :=
  ⟨by decide, put_validation_precedes_persistence Registry.env
    (sampleManifest "a" "sha256:s" [] [123, 125]) ⟨⟨[], []⟩, []⟩ _ (by decide)⟩

theorem sepSplit_isSome (l : List Char) :
    (sepSplit l).isSome = true ↔ ':' ∈ l := by
  induction l with
  | nil => simp [sepSplit]
  | cons c cs ih =>
    simp only [sepSplit]
    by_cases hc : c = ':'
    · simp [hc]
    · simp only [hc, if_false, List.mem_cons]
      cases h : sepSplit cs with
      | none =>
        rw [h] at ih
        simp only [Option.isSome_none, Bool.false_eq_true, false_iff] at ih
        simp [ih, Ne.symm hc]
      | some p =>
        rw [h] at ih
        simp only [Option.isSome_some, true_iff] at ih
        simp [ih]

theorem sepSplit_of_mem (d : Digest) (h : ':' ∈ d.data) :
    ∃ p, sepSplit d.data = some p := by
  have := (sepSplit_isSome d.data).mpr h
  cases hs : sepSplit d.data with
  | none => rw [hs] at this; cases this
  | some p => exact ⟨p, rfl⟩

theorem sepSplit_of_not_mem (d : Digest) (h : ':' ∉ d.data) :
    sepSplit d.data = none := by
  cases hs : sepSplit d.data with
  | none => rfl
  | some p =>
    exact absurd ((sepSplit_isSome d.data).mp (by rw [hs]; rfl)) h

theorem referenceLinkPath_defined (name : String) (s r : Digest)
    (hs : ':' ∈ s.data) (hr : ':' ∈ r.data) :
    ∃ path, referenceLinkPath name s r = .returned path := by
  obtain ⟨p, hp⟩ := sepSplit_of_mem s hs
  obtain ⟨q, hq⟩ := sepSplit_of_mem r hr
  simp only [referenceLinkPath, referrersRootPath, Digest.Algorithm,
    Digest.Hex, hp, hq]
  exact ⟨_, rfl⟩

theorem referenceLinkPath_panics (name : String) (s r : Digest)
    (h : ':' ∉ s.data ∨ ':' ∉ r.data) :
    ∃ d, referenceLinkPath name s r = .panicked d := by
  by_cases hs : ':' ∈ s.data
  · have hr : ':' ∉ r.data := h.resolve_left (fun hn => hn hs)
    obtain ⟨p, hp⟩ := sepSplit_of_mem s hs
    exact ⟨r, by simp [referenceLinkPath, referrersRootPath, Digest.Algorithm,
      Digest.Hex, hp, sepSplit_of_not_mem r hr]⟩
  · exact ⟨s, by simp [referenceLinkPath, referrersRootPath, Digest.Algorithm,
      sepSplit_of_not_mem s hs]⟩

/-- C3, as stated, fails: the document `{"artifactType":"a"}` names no
subject.  It is unmarshalled into a manifest; put with `skip` in a registry
whose `linkFunc` never fails, its verification passes and `blobStore.Put`
succeeds, yet `Put` does not return the digest: once the blob is stored,
`indexReferrers` panics on the algorithm of the empty subject digest, and
`linkFunc` is not called.  The same happens, with dependency verification,
for a manifest about the stored subject `sha256:s` when the blob store
returns the digest `bare`, which holds no `:`. -/
theorem put_without_separator_panics :
    (Unmarshal "" docNoSubject =
      (some (.artifact (sampleManifest "a" "" [] docNoSubject)), none) ∧
    (verifyManifest Registry.env (sampleManifest "a" "" [] docNoSubject) true
      ⟨⟨[], []⟩, []⟩).1 = none ∧
    (Registry.env.BlobStorePut MediaTypeArtifactManifest docNoSubject
      ⟨[], []⟩).1 =
      (⟨MediaTypeArtifactManifest, 20, Registry.digestOf docNoSubject⟩, none) ∧
    (∀ path d s, (Registry.env.linkFunc path d s).1 = none) ∧
    (Put Registry.env (.artifact (sampleManifest "a" "" [] docNoSubject)) true
      ⟨⟨[], []⟩, []⟩).1 = .panicked "" ∧
    (Put Registry.env (.artifact (sampleManifest "a" "" [] docNoSubject)) true
      ⟨⟨[], []⟩, []⟩).2.log =
      [.BlobStorePut MediaTypeArtifactManifest docNoSubject]) ∧
    ((verifyManifest (Registry.envWithDigest "bare")
      (sampleManifest "a" "sha256:s" [] docA) false withSubject).1 = none ∧
    ((Registry.envWithDigest "bare").BlobStorePut MediaTypeArtifactManifest
      docA withSubject.st).1 = (⟨MediaTypeArtifactManifest, 52, "bare"⟩, none) ∧
    (∀ path d s, ((Registry.envWithDigest "bare").linkFunc path d s).1 = none) ∧
    (Put (Registry.envWithDigest "bare")
      (.artifact (sampleManifest "a" "sha256:s" [] docA)) false
      withSubject).1 = .panicked "bare" ∧
    (Put (Registry.envWithDigest "bare")
      (.artifact (sampleManifest "a" "sha256:s" [] docA)) false
      withSubject).2.log =
      [.Manifests, .Exists "sha256:s",
       .BlobStorePut MediaTypeArtifactManifest docA]) :=
  ⟨⟨by decide, by decide, by decide, fun _ _ _ => rfl, by decide, by decide⟩,
   ⟨by decide, by decide, fun _ _ _ => rfl, by decide, by decide⟩⟩

/-- C3, amended.  Put postcondition.  Let the verification of `dm` pass and
`blobStore.Put` return the descriptor `r` without error.  When the subject
digest and `r.Digest` both hold a `:`, the referrer link path `path` built
from the repository name, the subject digest and `r.Digest` exists, and if
`linkFunc` succeeds on it `Put` returns `(r.Digest, nil)`, having made, after
the calls of the verification (none of them a store or a link), exactly two
calls: `blobStore.Put` with the artifact manifest media type and the raw
bytes, then `linkFunc` with `path` and `r.Digest`.  When one of the two
digests holds no `:`, `Put` panics after the call of `blobStore.Put`, and
`linkFunc` is not called. -/
theorem put_postcondition (env : Env σ) (dm : DeserializedManifest)
    (skip : Bool) (w : World σ) (r : Descriptor)
    (hv : (verifyManifest env dm skip w).1 = none)
    (hp : (env.BlobStorePut MediaTypeArtifactManifest dm.raw
      (verifyManifest env dm skip w).2.st).1 = (r, none)) :
    (':' ∈ dm.Subject.Digest.data → ':' ∈ r.Digest.data →
      ∃ path,
        referenceLinkPath env.Name dm.Subject.Digest r.Digest =
          .returned path ∧
        ((env.linkFunc path r.Digest (afterStore env dm skip w).st).1 = none →
          (Put env (.artifact dm) skip w).1 = .returned (r.Digest, none) ∧
          ∃ reads, (Put env (.artifact dm) skip w).2.log =
              w.log ++ reads ++
                [.BlobStorePut MediaTypeArtifactManifest dm.raw,
                 .linkFunc path r.Digest] ∧
            ∀ c ∈ reads,
              (∀ mt p, c ≠ .BlobStorePut mt p) ∧
              (∀ p d, c ≠ .linkFunc p d))) ∧
    ((':' ∉ dm.Subject.Digest.data ∨ ':' ∉ r.Digest.data) →
      (∃ d, (Put env (.artifact dm) skip w).1 = .panicked d) ∧
      ∃ reads, (Put env (.artifact dm) skip w).2.log =
          w.log ++ reads ++
            [.BlobStorePut MediaTypeArtifactManifest dm.raw] ∧
        ∀ c ∈ reads,
          (∀ mt p, c ≠ .BlobStorePut mt p) ∧ (∀ p d, c ≠ .linkFunc p d)) := by
  have hp2 : (env.BlobStorePut MediaTypeArtifactManifest dm.raw
      (verifyManifest env dm skip w).2.st).1.2 = none := by rw [hp]
  have hp1 : (env.BlobStorePut MediaTypeArtifactManifest dm.raw
      (verifyManifest env dm skip w).2.st).1.1 = r := by rw [hp]
  obtain ⟨calls, hlog, hread⟩ := verifyManifest_log env dm skip w
  constructor
  · intro hs hr
    obtain ⟨path, hpath⟩ :=
      referenceLinkPath_defined env.Name dm.Subject.Digest r.Digest hs hr
    refine ⟨path, hpath, fun hl => ?_⟩
    rw [← hp1] at hpath hl
    rw [Put_link env dm skip w path hv hp2 hpath, hl, hp1]
    refine ⟨rfl, calls, ?_, fun c hc => isRead_not_write (hread c hc)⟩
    simp [World.step, afterStore, hlog]
  · intro hno
    obtain ⟨d, hd⟩ :=
      referenceLinkPath_panics env.Name dm.Subject.Digest r.Digest hno
    rw [← hp1] at hd
    rw [Put_panic env dm skip w d hv hp2 hd]
    refine ⟨⟨d, rfl⟩, calls, ?_, fun c hc => isRead_not_write (hread c hc)⟩
    simp [World.step, afterStore, hlog]

/-- A manifest about a subject that is in the registry is stored and then
linked under the root of its subject. -/
theorem put_postcondition_witness :
    (Put Registry.env (.artifact (sampleManifest "a" "sha256:s" [] [123, 125]))
        false ⟨⟨[("sha256:s", "application/x", [1])], []⟩, []⟩).1 =
      .returned ("mem:tv", none) ∧
    ∃ reads, (Put Registry.env
        (.artifact (sampleManifest "a" "sha256:s" [] [123, 125]))
        false ⟨⟨[("sha256:s", "application/x", [1])], []⟩, []⟩).2.log =
        [] ++ reads ++
          [.BlobStorePut MediaTypeArtifactManifest [123, 125],
           .linkFunc
            "/docker/registry/v2/repositories/repo/_refs/subjects/sha256/s/mem/tv/link"
            "mem:tv"] ∧
      ∀ c ∈ reads,
        (∀ mt p, c ≠ .BlobStorePut mt p) ∧ (∀ p d, c ≠ .linkFunc p d) := by
  obtain ⟨path, hpath, h⟩ :=
    (put_postcondition Registry.env
      (sampleManifest "a" "sha256:s" [] [123, 125])
      false ⟨⟨[("sha256:s", "application/x", [1])], []⟩, []⟩
      ⟨MediaTypeArtifactManifest, 2, "mem:tv"⟩ (by decide) (by decide)).1
      (by decide) (by decide)
  have hc : referenceLinkPath Registry.env.Name
      (sampleManifest "a" "sha256:s" [] [123, 125]).Subject.Digest "mem:tv" =
      .returned
        "/docker/registry/v2/repositories/repo/_refs/subjects/sha256/s/mem/tv/link" := by
    decide
  have hpe := Outcome.returned.inj (hpath.symm.trans hc)
  subst hpe
  exact h (by decide)

theorem Put_foreign (env : Env σ) (mt : String) (payload : Bytes)
    (skip : Bool) (w : World σ) :
    Put env (.foreign mt payload) skip w =
      (.returned ("", some Err.ErrManifestFormatNotSupported), w) := by
  simp [Put, CanPut]

/-- C4. Store-then-index ordering.  In every execution of `Put`: (1) a call
of `linkFunc` is made only for an artifact manifest whose verification
passed and whose payload `blobStore.Put` stored without error, with the
digest that `blobStore.Put` returned, and it is the call right after that
of `blobStore.Put` and the last one; (2) if `blobStore.Put` fails, `Put`
returns its error with the empty digest and the log ends with the call of
`blobStore.Put`, so `linkFunc` is not called; (3) if `linkFunc` fails,
`Put` returns its error with the empty digest and the call of `linkFunc` is
the last call made. -/
theorem put_store_then_index (env : Env σ) (skip : Bool) (w : World σ) :
    (∀ man calls p d, (Put env man skip w).2.log = w.log ++ calls →
      Call.linkFunc p d ∈ calls →
      ∃ dm r, man = .artifact dm ∧ (verifyManifest env dm skip w).1 = none ∧
        (env.BlobStorePut MediaTypeArtifactManifest dm.raw
          (verifyManifest env dm skip w).2.st).1 = (r, none) ∧
        d = r.Digest ∧
        (Put env man skip w).2.log = (verifyManifest env dm skip w).2.log ++
          [.BlobStorePut MediaTypeArtifactManifest dm.raw, .linkFunc p d]) ∧
    (∀ dm err, (verifyManifest env dm skip w).1 = none →
      (env.BlobStorePut MediaTypeArtifactManifest dm.raw
        (verifyManifest env dm skip w).2.st).1.2 = some err →
      (Put env (.artifact dm) skip w).1 = .returned ("", some err) ∧
      (Put env (.artifact dm) skip w).2.log =
        (verifyManifest env dm skip w).2.log ++
          [.BlobStorePut MediaTypeArtifactManifest dm.raw]) ∧
    (∀ dm r path err, (verifyManifest env dm skip w).1 = none →
      (env.BlobStorePut MediaTypeArtifactManifest dm.raw
        (verifyManifest env dm skip w).2.st).1 = (r, none) →
      referenceLinkPath env.Name dm.Subject.Digest r.Digest = .returned path →
      (env.linkFunc path r.Digest (afterStore env dm skip w).st).1 = some err →
      (Put env (.artifact dm) skip w).1 = .returned ("", some err) ∧
      (Put env (.artifact dm) skip w).2 =
        ⟨(env.linkFunc path r.Digest (afterStore env dm skip w).st).2,
         (verifyManifest env dm skip w).2.log ++
          [.BlobStorePut MediaTypeArtifactManifest dm.raw,
           .linkFunc path r.Digest]⟩) := by
  refine ⟨?_, ?_, ?_⟩
  · intro man calls p d hlog hmem
    cases man with
    | foreign mt payload =>
      rw [Put_foreign] at hlog
      have : calls = [] := by simpa using hlog
      simp [this] at hmem
    | artifact dm =>
      obtain ⟨reads, hreads, hread⟩ := verifyManifest_log env dm skip w
      have hnot : Call.linkFunc p d ∉ reads := fun hin =>
        (isRead_not_write (hread _ hin)).2 p d rfl
      cases hv : (verifyManifest env dm skip w).1 with
      | some err =>
        rw [Put_verify_error env dm skip w err hv, hreads] at hlog
        have : calls = reads := by simpa using hlog.symm
        exact absurd (this ▸ hmem) hnot
      | none =>
        cases hp : (env.BlobStorePut MediaTypeArtifactManifest dm.raw
            (verifyManifest env dm skip w).2.st).1.2 with
        | some err =>
          rw [Put_store_error env dm skip w err hv hp] at hlog
          simp only [afterStore, World.step, hreads, List.append_assoc,
            List.append_cancel_left_eq] at hlog
          subst hlog
          simp [hnot] at hmem
        | none =>
          cases hpath : referenceLinkPath env.Name dm.Subject.Digest
            (env.BlobStorePut MediaTypeArtifactManifest dm.raw
              (verifyManifest env dm skip w).2.st).1.1.Digest with
          | panicked dd =>
            rw [Put_panic env dm skip w dd hv hp hpath] at hlog
            simp only [afterStore, World.step, hreads, List.append_assoc,
              List.append_cancel_left_eq] at hlog
            subst hlog
            simp [hnot] at hmem
          | returned path =>
            have hput := Put_link env dm skip w path hv hp hpath
            rw [hput] at hlog
            simp only [afterStore, World.step, hreads, List.append_assoc,
              List.append_cancel_left_eq] at hlog
            subst hlog
            simp [hnot] at hmem
            refine ⟨dm, _, rfl, hv, Prod.ext rfl hp, hmem.2, ?_⟩
            rw [hput]
            simp [afterStore, World.step, hmem.1, hmem.2]
  · intro dm err hv hp
    rw [Put_store_error env dm skip w err hv hp]
    exact ⟨rfl, by simp [afterStore, World.step]⟩
  · intro dm r path err hv hp hpath hl
    have hp2 : (env.BlobStorePut MediaTypeArtifactManifest dm.raw
        (verifyManifest env dm skip w).2.st).1.2 = none := by rw [hp]
    have hp1 : (env.BlobStorePut MediaTypeArtifactManifest dm.raw
        (verifyManifest env dm skip w).2.st).1.1 = r := by rw [hp]
    rw [← hp1] at hpath hl
    rw [Put_link env dm skip w path hv hp2 hpath, hl, hp1]
    exact ⟨rfl, by simp [afterStore, World.step]⟩

/-- A blob store that rejects the write: `Put` fails after the call of
`blobStore.Put`, without a call of `linkFunc`; and a link function that
fails: `Put` fails after the call of `linkFunc`, the blob staying stored. -/
theorem put_store_then_index_witness :
    ((Put Registry.envStoreFails
        (.artifact (sampleManifest "a" "sha256:s" [] [123, 125])) true
        ⟨⟨[], []⟩, []⟩).1 = .returned ("", some (Err.other 1)) ∧
      (Put Registry.envStoreFails
        (.artifact (sampleManifest "a" "sha256:s" [] [123, 125])) true
        ⟨⟨[], []⟩, []⟩).2.log =
        [] ++ [.BlobStorePut MediaTypeArtifactManifest [123, 125]]) ∧
    ((Put Registry.envLinkFails
        (.artifact (sampleManifest "a" "sha256:s" [] [123, 125])) true
        ⟨⟨[], []⟩, []⟩).1 = .returned ("", some (Err.other 2)) ∧
      (Put Registry.envLinkFails
        (.artifact (sampleManifest "a" "sha256:s" [] [123, 125])) true
        ⟨⟨[], []⟩, []⟩).2 =
        ⟨⟨[("mem:tv", MediaTypeArtifactManifest, [123, 125])], []⟩,
         [] ++ [.BlobStorePut MediaTypeArtifactManifest [123, 125],
          .linkFunc
            "/docker/registry/v2/repositories/repo/_refs/subjects/sha256/s/mem/tv/link"
            "mem:tv"]⟩) :=
  ⟨(put_store_then_index Registry.envStoreFails true ⟨⟨[], []⟩, []⟩).2.1
      (sampleManifest "a" "sha256:s" [] [123, 125]) (Err.other 1)
      (by decide) (by decide),
   (put_store_then_index Registry.envLinkFails true ⟨⟨[], []⟩, []⟩).2.2
      (sampleManifest "a" "sha256:s" [] [123, 125])
      ⟨MediaTypeArtifactManifest, 2, "mem:tv"⟩
      "/docker/registry/v2/repositories/repo/_refs/subjects/sha256/s/mem/tv/link"
      (Err.other 2) (by decide) (by decide) (by decide) (by decide)⟩

theorem Referrers_filter_irrelevant (env : Env σ) (revision : Digest)
    (t1 t2 : String) (w : World σ) :
    Referrers env revision t1 w = Referrers env revision t2 w := rfl

/-- C2. The referrers query does not filter: on a registry that holds two
artifact manifests about the subject `sha256:s`, of types `a` and `b`,
`Referrers` with the filter `a` returns both of them, the second one of
type `b`. -/
theorem referrers_filter_not_applied :
    (Referrers Registry.env "sha256:s" "a" ⟨twoReferrers.st, []⟩).1 =
      .returned (some
        [⟨MediaTypeArtifactManifest, "a", Registry.digestOf docA, 52⟩,
         ⟨MediaTypeArtifactManifest, "b", Registry.digestOf docB, 52⟩],
        none) := by
  decide

theorem Referrers_root_not_found (env : Env σ) (D : Digest) (t : String)
    (w : World σ) (root path : String)
    (hm : (env.Manifests w.st).1 = none)
    (hroot : referrersRootPath env.Name D = .returned root)
    (he : (env.linkBlobEnumerator root (env.Manifests w.st).2).1 =
      ⟨[], some (Err.PathNotFoundError path)⟩) :
    Referrers env D t w =
      (.returned (none, none),
        ⟨(env.linkBlobEnumerator root (env.Manifests w.st).2).2,
          w.log ++ [.Manifests, .linkBlobEnumerator root]⟩) := by
  simp [Referrers, hm, hroot, World.step, he, enumerate, isPathNotFoundError]

theorem referrersRootPath_nonempty (name : String) (D : Digest) (root : String)
    (hroot : referrersRootPath name D = .returned root) : D ≠ "" := by
  intro h
  subst h
  simp [referrersRootPath, Digest.Algorithm, sepSplit] at hroot

/-- C5, as stated, fails: the root of `sha256:s` does not exist and
`Referrers` returns no error and a nil list, but the response writer fails
and `Get` appends an error to the context. -/
theorem get_empty_subject_appends_error :
    (Registry.envEncodeFails.linkBlobEnumerator
        "/docker/registry/v2/repositories/repo/_refs/subjects/sha256/s"
        ⟨[], []⟩).1 =
      ⟨[], some (Err.PathNotFoundError
        "/docker/registry/v2/repositories/repo/_refs/subjects/sha256/s")⟩ ∧
    (Referrers Registry.envEncodeFails "sha256:s" "" ⟨⟨[], []⟩, []⟩).1 =
      .returned (none, none) ∧
    (referrersHandler.Get Registry.envEncodeFails ⟨"sha256:s"⟩ "" []
        ⟨⟨[], []⟩, []⟩).1 =
      .returned [⟨.ErrorCodeUnknown, .err (Err.other 3)⟩] := by
  decide

/-- C5, amended.  When `repository.Manifests` succeeds and the link
enumerator reports `driver.PathNotFoundError` for the referrers root of
`D`, without visiting a digest, then for every filter `t` the query
`Referrers` returns no error and a nil list; `Get` then sets the content
type and encodes a response whose list is not nil and is empty; it leaves the
errors of the context as they are when the encoder succeeds, and appends
`ErrorCodeUnknown` with the error of the encoder when it fails. -/
theorem get_empty_subject (env : Env σ) (D : Digest) (t : String)
    (errors : List ApiError) (w : World σ) (root path : String)
    (hm : (env.Manifests w.st).1 = none)
    (hroot : referrersRootPath env.Name D = .returned root)
    (he : (env.linkBlobEnumerator root (env.Manifests w.st).2).1 =
      ⟨[], some (Err.PathNotFoundError path)⟩) :
    (Referrers env D t w).1 = .returned (none, none) ∧
    (referrersHandler.Get env ⟨D⟩ t errors w).2.log =
      (Referrers env D t w).2.log ++
        [.HeaderSet "Content-Type" "application/json", .Encode (some [])] ∧
    ((env.Encode (some []) (Referrers env D t w).2.st).1 = none →
      (referrersHandler.Get env ⟨D⟩ t errors w).1 = .returned errors) ∧
    (∀ err, (env.Encode (some []) (Referrers env D t w).2.st).1 = some err →
      (referrersHandler.Get env ⟨D⟩ t errors w).1 =
        .returned (errors ++ [⟨.ErrorCodeUnknown, .err err⟩])) := by
  have hD := referrersRootPath_nonempty env.Name D root hroot
  have hR := Referrers_root_not_found env D t w root path hm hroot he
  refine ⟨by rw [hR], ?_, ?_, ?_⟩
  · simp only [referrersHandler.Get, hD, if_false, hR, World.step]
    split <;> simp
  · intro henc
    simp only [referrersHandler.Get, hD, if_false, hR, World.step] at henc ⊢
    simp [henc]
  · intro err henc
    simp only [referrersHandler.Get, hD, if_false, hR, World.step] at henc ⊢
    simp [henc]

/-- The subject `sha256:s` has no referrer in the empty registry: the query
returns a nil list and `Get` encodes an empty list without error. -/
theorem get_empty_subject_witness :
    (Referrers Registry.env "sha256:s" "a" ⟨⟨[], []⟩, []⟩).1 =
      .returned (none, none) ∧
    (referrersHandler.Get Registry.env ⟨"sha256:s"⟩ "a" [] ⟨⟨[], []⟩, []⟩).2.log
      = (Referrers Registry.env "sha256:s" "a" ⟨⟨[], []⟩, []⟩).2.log ++
        [.HeaderSet "Content-Type" "application/json", .Encode (some [])] ∧
    (referrersHandler.Get Registry.env ⟨"sha256:s"⟩ "a" [] ⟨⟨[], []⟩, []⟩).1 =
      .returned [] :=
  have h := get_empty_subject Registry.env "sha256:s" "a" [] ⟨⟨[], []⟩, []⟩
    "/docker/registry/v2/repositories/repo/_refs/subjects/sha256/s"
    "/docker/registry/v2/repositories/repo/_refs/subjects/sha256/s"
    (by decide) (by decide) (by decide)
  ⟨h.1, h.2.1, h.2.2.1 (by decide)⟩

theorem verifyReferences_eq (env : Env σ) (refs : List Descriptor)
    (errs : List Err) (w : World σ) :
    verifyReferences env refs errs w =
      (errs ++ referenceEntries env refs w.st,
        ⟨statState env refs w.st,
          w.log ++ refs.map fun b => Call.BlobsStat b.Digest⟩) := by
  induction refs generalizing errs w with
  | nil => simp [verifyReferences, referenceEntries, statState]
  | cons b rest ih =>
    simp only [verifyReferences, ih, World.step, referenceEntries, statState,
      List.map_cons, blobEntries]
    refine Prod.ext ?_ (by simp)
    simp only
    rcases h : (env.BlobsStat b.Digest w.st).1 with ⟨desc, err⟩
    cases err with
    | none => by_cases hd : desc.Digest = "" <;> simp [hd]
    | some e => by_cases he : e = Err.ErrBlobUnknown <;> simp [he]

theorem verifyManifest_eq (env : Env σ) (dm : DeserializedManifest)
    (w : World σ) :
    (verifyManifest env dm false w).1 =
      match (env.Manifests (statState env dm.References w.st)).1 with
      | some err => some err
      | none =>
        verifyResult (artifactTypeEntries dm ++
          referenceEntries env dm.References w.st ++
          subjectEntries dm.Subject.Digest
            (env.Exists dm.Subject.Digest
              (env.Manifests (statState env dm.References w.st)).2).1) := by
  simp only [verifyManifest, Bool.not_false, if_true, verifyReferences_eq,
    World.step]
  cases hm : (env.Manifests (statState env dm.References w.st)).1 with
  | some err => simp
  | none =>
    simp only [artifactTypeEntries]
    rcases hx : (env.Exists dm.Subject.Digest
      (env.Manifests (statState env dm.References w.st)).2).1 with ⟨ex, err⟩
    cases ex <;> cases err <;> simp [subjectEntries]
    rename_i e
    by_cases he : e = Err.ErrBlobUnknown <;> simp [he]

theorem verifyManifest_skip (env : Env σ) (dm : DeserializedManifest)
    (w : World σ) :
    verifyManifest env dm true w = (verifyResult (artifactTypeEntries dm), w) := by
  simp [verifyManifest, artifactTypeEntries]

theorem blobEntries_unknown_mem (b : Descriptor) (r : Descriptor × Option Err)
    (h : r.2 ≠ none ∨ r.1.Digest = "") :
    Err.ErrManifestBlobUnknown b.Digest ∈ blobEntries b r := by
  rcases r with ⟨desc, err⟩
  cases err with
  | none =>
    have hd : desc.Digest = "" := by simpa using h
    simp [blobEntries, hd]
  | some e => by_cases he : e = Err.ErrBlobUnknown <;> simp [blobEntries, he]

theorem referenceEntries_mem (env : Env σ) (refs : List Descriptor) (s : σ)
    (p : Descriptor × Descriptor × Option Err)
    (hp : p ∈ refs.zip (statResults env refs s)) (hne : p.2.2 ≠ none) :
    Err.ErrManifestBlobUnknown p.1.Digest ∈ referenceEntries env refs s := by
  induction refs generalizing s with
  | nil => simp [statResults] at hp
  | cons b rest ih =>
    simp only [statResults, List.zip_cons_cons, List.mem_cons] at hp
    simp only [referenceEntries, List.mem_append]
    rcases hp with rfl | hp
    · exact Or.inl (blobEntries_unknown_mem _ _ (Or.inl hne))
    · exact Or.inr (ih _ hp)

theorem verifyResult_nil : verifyResult [] = none := rfl

theorem verifyResult_ne_nil (errs : List Err) (h : errs ≠ []) :
    verifyResult errs = some (Err.ErrManifestVerification errs) := by
  cases errs with
  | nil => exact absurd rfl h
  | cons a l => simp [verifyResult]

/-- C6, as stated, fails: the blob `sha256:q` is unknown, but the manifest
service cannot be obtained and `verifyManifest` returns that error alone:
the failure recorded for the blob is not in the error returned. -/
theorem verify_manifests_failure_drops_entries :
    (Registry.envManifestsFails.BlobsStat "sha256:q" ⟨[], []⟩).1.2 =
      some Err.ErrBlobUnknown ∧
    (verifyManifest Registry.envManifestsFails
      (sampleManifest "a" "sha256:s" ["sha256:q"] [123, 125]) false
      ⟨⟨[], []⟩, []⟩).1 = some (Err.other 4) ∧
    ¬ ∃ errs, (verifyManifest Registry.envManifestsFails
        (sampleManifest "a" "sha256:s" ["sha256:q"] [123, 125]) false
        ⟨⟨[], []⟩, []⟩).1 = some (Err.ErrManifestVerification errs) ∧
      Err.ErrManifestBlobUnknown "sha256:q" ∈ errs := by
  refine ⟨by decide, by decide, ?_⟩
  rintro ⟨errs, h, -⟩
  have h2 : (verifyManifest Registry.envManifestsFails
      (sampleManifest "a" "sha256:s" ["sha256:q"] [123, 125]) false
      ⟨⟨[], []⟩, []⟩).1 = some (Err.other 4) := by decide
  rw [h2] at h
  cases h

/-- C6, amended.  With dependency verification, when
`repository.Manifests` succeeds the error returned by `verifyManifest` is
the list `errs` of all the failures recorded (nil when there is none): it
holds an entry for an empty artifact type, `ErrManifestBlobUnknown` for every
blob of `References` whose `Stat` fails, and `ErrManifestBlobUnknown` for a
subject that does not exist or whose `Exists` returns `ErrBlobUnknown`.
When `repository.Manifests` fails, its error is returned alone, in place of
the failures recorded before it. -/
theorem verify_accumulates (env : Env σ) (dm : DeserializedManifest)
    (w : World σ) :
    (∀ err, (env.Manifests (statState env dm.References w.st)).1 = some err →
      (verifyManifest env dm false w).1 = some err) ∧
    ((env.Manifests (statState env dm.References w.st)).1 = none →
      ∃ errs,
        (errs = [] → (verifyManifest env dm false w).1 = none) ∧
        (errs ≠ [] → (verifyManifest env dm false w).1 =
          some (Err.ErrManifestVerification errs)) ∧
        (dm.ArtifactType = "" →
          Err.ErrManifestVerification [Err.errorsNew "artifactType invalid"]
            ∈ errs) ∧
        (∀ p ∈ dm.References.zip (statResults env dm.References w.st),
          p.2.2 ≠ none → Err.ErrManifestBlobUnknown p.1.Digest ∈ errs) ∧
        ((env.Exists dm.Subject.Digest
            (env.Manifests (statState env dm.References w.st)).2).1.1 = false ∨
          (env.Exists dm.Subject.Digest
            (env.Manifests (statState env dm.References w.st)).2).1.2 =
              some Err.ErrBlobUnknown →
          Err.ErrManifestBlobUnknown dm.Subject.Digest ∈ errs)) := by
  constructor
  · intro err hm
    rw [verifyManifest_eq, hm]
  · intro hm
    refine ⟨artifactTypeEntries dm ++ referenceEntries env dm.References w.st ++
      subjectEntries dm.Subject.Digest (env.Exists dm.Subject.Digest
        (env.Manifests (statState env dm.References w.st)).2).1,
      fun h => ?_, fun h => ?_, ?_, ?_, ?_⟩
    · rw [verifyManifest_eq, hm]
      simp only
      rw [h]
      rfl
    · rw [verifyManifest_eq, hm]
      exact verifyResult_ne_nil _ h
    · intro ht
      simp [artifactTypeEntries, ht]
    · intro p hp hne
      simp only [List.mem_append]
      exact Or.inl (Or.inr (referenceEntries_mem env _ _ p hp hne))
    · intro hs
      simp only [List.mem_append]
      refine Or.inr ?_
      rcases hx : (env.Exists dm.Subject.Digest
        (env.Manifests (statState env dm.References w.st)).2).1 with ⟨ex, err⟩
      rw [hx] at hs
      cases ex with
      | false => simp [subjectEntries]
      | true =>
        have : err = some Err.ErrBlobUnknown := by simpa using hs
        simp [subjectEntries, this]

/-- A manifest with an unknown blob and an unknown subject: both failures
are in the error returned. -/
theorem verify_accumulates_witness :
    ∃ errs,
      (verifyManifest Registry.env
        (sampleManifest "a" "sha256:s" ["sha256:q"] [123, 125]) false
        ⟨⟨[], []⟩, []⟩).1 = some (Err.ErrManifestVerification errs) ∧
      Err.ErrManifestBlobUnknown "sha256:q" ∈ errs ∧
      Err.ErrManifestBlobUnknown "sha256:s" ∈ errs := by
  obtain ⟨errs, -, h2, -, h4, h5⟩ :=
    (verify_accumulates Registry.env
      (sampleManifest "a" "sha256:s" ["sha256:q"] [123, 125])
      ⟨⟨[], []⟩, []⟩).2 (by decide)
  have hq := h4 (⟨"", 0, "sha256:q"⟩, ⟨"", 0, ""⟩, some Err.ErrBlobUnknown)
    (by decide) (by decide)
  have hs := h5 (Or.inl (by decide))
  exact ⟨errs, h2 (List.ne_nil_of_mem hq), hq, hs⟩

theorem statState_append (env : Env σ) (pre post : List Descriptor) (s : σ) :
    statState env (pre ++ post) s = statState env post (statState env pre s) := by
  induction pre generalizing s with
  | nil => rfl
  | cons b rest ih => simp [statState, ih]

theorem referenceEntries_append (env : Env σ) (pre post : List Descriptor)
    (s : σ) :
    referenceEntries env (pre ++ post) s =
      referenceEntries env pre s ++
        referenceEntries env post (statState env pre s) := by
  induction pre generalizing s with
  | nil => rfl
  | cons b rest ih => simp [referenceEntries, statState, ih]

/-- C7, as stated, fails: for the blob `sha256:q`, a `Stat` that fails with
an error of the store records two entries, the error and then
`ErrManifestBlobUnknown`, whereas a blob that is absent records one; the
two aggregates differ. -/
theorem verify_stat_failure_two_entries :
    (verifyManifest Registry.envStatFails
      (sampleManifest "a" "sha256:s" ["sha256:q"] [123, 125]) false
      withSubject).1 =
      some (Err.ErrManifestVerification
        [Err.other 5, Err.ErrManifestBlobUnknown "sha256:q"]) ∧
    (verifyManifest Registry.env
      (sampleManifest "a" "sha256:s" ["sha256:q"] [123, 125]) false
      withSubject).1 =
      some (Err.ErrManifestVerification
        [Err.ErrManifestBlobUnknown "sha256:q"]) ∧
    (verifyManifest Registry.envStatFails
      (sampleManifest "a" "sha256:s" ["sha256:q"] [123, 125]) false
      withSubject).1 ≠
    (verifyManifest Registry.env
      (sampleManifest "a" "sha256:s" ["sha256:q"] [123, 125]) false
      withSubject).1 := by
  decide

/-- C7, amended.  Let `b` be a blob of `References`, after the blobs `pre`
and before the blobs `post`, and let `repository.Manifests` succeed.  If
`Stat` of `b` returns the sentinel `ErrBlobUnknown`, the aggregate returned
holds exactly one entry for `b`, `ErrManifestBlobUnknown` with its digest,
between the entries of what precedes and of what follows.  If `Stat` returns
any other error `e`, it holds two entries for `b`: `e` itself and then
`ErrManifestBlobUnknown` with its digest. -/
theorem verify_blob_stat_failure (env : Env σ) (dm : DeserializedManifest)
    (w : World σ) (pre post : List Descriptor) (b : Descriptor)
    (href : dm.References = pre ++ b :: post)
    (hm : (env.Manifests (statState env dm.References w.st)).1 = none) :
    ((env.BlobsStat b.Digest (statState env pre w.st)).1.2 =
        some Err.ErrBlobUnknown →
      (verifyManifest env dm false w).1 =
        some (Err.ErrManifestVerification
          ((artifactTypeEntries dm ++ referenceEntries env pre w.st) ++
            [Err.ErrManifestBlobUnknown b.Digest] ++
            (referenceEntries env post (statState env (pre ++ [b]) w.st) ++
              subjectEntries dm.Subject.Digest (env.Exists dm.Subject.Digest
                (env.Manifests (statState env dm.References w.st)).2).1)))) ∧
    (∀ e, e ≠ Err.ErrBlobUnknown →
      (env.BlobsStat b.Digest (statState env pre w.st)).1.2 = some e →
      (verifyManifest env dm false w).1 =
        some (Err.ErrManifestVerification
          ((artifactTypeEntries dm ++ referenceEntries env pre w.st) ++
            [e, Err.ErrManifestBlobUnknown b.Digest] ++
            (referenceEntries env post (statState env (pre ++ [b]) w.st) ++
              subjectEntries dm.Subject.Digest (env.Exists dm.Subject.Digest
                (env.Manifests (statState env dm.References w.st)).2).1)))) := by
  have hsplit : referenceEntries env dm.References w.st =
      referenceEntries env pre w.st ++
        (blobEntries b (env.BlobsStat b.Digest (statState env pre w.st)).1 ++
          referenceEntries env post (statState env (pre ++ [b]) w.st)) := by
    rw [href, referenceEntries_append, statState_append]
    simp [referenceEntries, statState]
  constructor
  · intro hs
    rw [verifyManifest_eq, hm]
    simp only
    rw [hsplit, verifyResult_ne_nil]
    · simp [blobEntries, hs]
    · simp [blobEntries, hs]
  · intro e hne hs
    rw [verifyManifest_eq, hm]
    simp only
    rw [hsplit, verifyResult_ne_nil]
    · simp [blobEntries, hs, hne]
    · simp [blobEntries, hs, hne]

/-- The blob `sha256:q` is absent from the registry: one entry is recorded
for it. -/
theorem verify_blob_stat_failure_witness :
    (verifyManifest Registry.env
      (sampleManifest "a" "sha256:s" ["sha256:q"] [123, 125]) false
      withSubject).1 =
      some (Err.ErrManifestVerification
        (([] ++ []) ++ [Err.ErrManifestBlobUnknown "sha256:q"] ++ ([] ++ []))) :=
  (verify_blob_stat_failure Registry.env
    (sampleManifest "a" "sha256:s" ["sha256:q"] [123, 125]) withSubject
    [] [] ⟨"", 0, "sha256:q"⟩ (by decide) (by decide)).1 (by decide)

theorem subjectEntries_unknown_mem (d : Digest) (r : Bool × Option Err)
    (h : r.1 = false ∨ r.2 = some Err.ErrBlobUnknown) :
    Err.ErrManifestBlobUnknown d ∈ subjectEntries d r := by
  rcases r with ⟨ex, err⟩
  cases ex with
  | false => simp [subjectEntries]
  | true =>
    have : err = some Err.ErrBlobUnknown := by simpa using h
    simp [subjectEntries, this]

/-- C8. Subject verification: with dependency verification, when the
manifest service is obtained and `Exists` of the subject digest returns
`exists = false` (with any error or none) or returns the sentinel
`ErrBlobUnknown`, `verifyManifest` returns an aggregate that contains
`ErrManifestBlobUnknown` with the subject digest, and `Put` fails with that
aggregate and the empty digest. -/
theorem verify_subject_unknown (env : Env σ) (dm : DeserializedManifest)
    (w : World σ)
    (hm : (env.Manifests (statState env dm.References w.st)).1 = none)
    (hs : (env.Exists dm.Subject.Digest
        (env.Manifests (statState env dm.References w.st)).2).1.1 = false ∨
      (env.Exists dm.Subject.Digest
        (env.Manifests (statState env dm.References w.st)).2).1.2 =
          some Err.ErrBlobUnknown) :
    ∃ errs,
      (verifyManifest env dm false w).1 =
        some (Err.ErrManifestVerification errs) ∧
      Err.ErrManifestBlobUnknown dm.Subject.Digest ∈ errs ∧
      (Put env (.artifact dm) false w).1 =
        .returned ("", some (Err.ErrManifestVerification errs)) := by
  have hmem : Err.ErrManifestBlobUnknown dm.Subject.Digest ∈
      artifactTypeEntries dm ++ referenceEntries env dm.References w.st ++
        subjectEntries dm.Subject.Digest (env.Exists dm.Subject.Digest
          (env.Manifests (statState env dm.References w.st)).2).1 :=
    List.mem_append_right _ (subjectEntries_unknown_mem _ _ hs)
  have hv : (verifyManifest env dm false w).1 =
      some (Err.ErrManifestVerification
        (artifactTypeEntries dm ++ referenceEntries env dm.References w.st ++
          subjectEntries dm.Subject.Digest (env.Exists dm.Subject.Digest
            (env.Manifests (statState env dm.References w.st)).2).1)) := by
    rw [verifyManifest_eq, hm]
    exact verifyResult_ne_nil _ (List.ne_nil_of_mem hmem)
  exact ⟨_, hv, hmem, by rw [Put_verify_error env dm false w _ hv]⟩

/-- The subject `sha256:s` is not in the empty registry: verification and
`Put` fail with `ErrManifestBlobUnknown` for it. -/
theorem verify_subject_unknown_witness :
    ∃ errs,
      (verifyManifest Registry.env
        (sampleManifest "a" "sha256:s" [] [123, 125]) false
        ⟨⟨[], []⟩, []⟩).1 = some (Err.ErrManifestVerification errs) ∧
      Err.ErrManifestBlobUnknown "sha256:s" ∈ errs ∧
      (Put Registry.env (.artifact (sampleManifest "a" "sha256:s" [] [123, 125]))
        false ⟨⟨[], []⟩, []⟩).1 =
        .returned ("", some (Err.ErrManifestVerification errs)) :=
  verify_subject_unknown Registry.env
    (sampleManifest "a" "sha256:s" [] [123, 125]) ⟨⟨[], []⟩, []⟩
    (by decide) (Or.inl (by decide))

/-! ## Properties of unmarshalling -/

theorem foldlM_error_of {α β : Type} (P : Err → Prop)
    (f : β → α → Except Err β)
    (hf : ∀ b a e, f b a = .error e → P e) :
    ∀ (l : List α) (b : β) (e : Err), l.foldlM f b = .error e → P e := by
  intro l
  induction l with
  | nil => intro b e h; simp [List.foldlM, pure, Except.pure] at h
  | cons a l ih =>
    intro b e h
    simp only [List.foldlM_cons, bind, Except.bind] at h
    cases hfa : f b a with
    | error e2 =>
      rw [hfa] at h
      cases h
      exact hf b a _ hfa
    | ok b2 =>
      rw [hfa] at h
      exact ih b2 e h

theorem mapM_error_of {α β : Type} (P : Err → Prop)
    (f : α → Except Err β)
    (hf : ∀ a e, f a = .error e → P e) :
    ∀ (l : List α) (e : Err), l.mapM f = .error e → P e := by
  intro l
  induction l with
  | nil => intro e h; simp [List.mapM, List.mapM.loop, pure, Except.pure] at h
  | cons a l ih =>
    intro e h
    simp only [List.mapM_cons, bind, Except.bind] at h
    cases hfa : f a with
    | error e2 =>
      rw [hfa] at h
      cases h
      exact hf a _ hfa
    | ok b2 =>
      rw [hfa] at h
      cases hl : l.mapM f with
      | error e3 =>
        rw [hl] at h
        cases h
        exact ih _ hl
      | ok bs =>
        rw [hl] at h
        simp [pure, Except.pure] at h

theorem map_error_of {α β : Type} (P : Err → Prop) (x : Except Err α)
    (g : α → β) (e : Err) (hx : ∀ e, x = .error e → P e)
    (h : x.map g = .error e) : P e := by
  cases x with
  | error e2 => simp [Except.map] at h; exact hx _ (by rw [h])
  | ok a => simp [Except.map] at h

theorem decodeString_error (t cur : String) (v : Json) (e : Err)
    (h : decodeString t cur v = .error e) : isTypeError e = true := by
  cases v <;> simp [decodeString] at h <;> (subst h; rfl)

theorem decodeInt64_error (cur : Int) (v : Json) (e : Err)
    (h : decodeInt64 cur v = .error e) : isTypeError e = true := by
  cases v <;> simp [decodeInt64] at h
  case number lit =>
    split at h
    · cases h
    · (cases h; rfl)
  all_goals (subst h; rfl)

theorem decodeStrings_error (v : Json) (e : Err)
    (h : decodeStrings v = .error e) : isTypeError e = true := by
  cases v <;> simp only [decodeStrings] at h
  case array elems =>
    exact mapM_error_of (fun e => isTypeError e = true) _ (fun a e => decodeString_error _ _ a e) _ _ h
  case null => cases h
  all_goals (cases h; rfl)

theorem decodeAnnotations_error (cur : List (String × String)) (v : Json)
    (e : Err) (h : decodeAnnotations cur v = .error e) : isTypeError e = true := by
  cases v <;> simp only [decodeAnnotations] at h
  case object members =>
    refine foldlM_error_of (fun e => isTypeError e = true) _ ?_ _ _ _ h
    intro m kv e2 h2
    exact map_error_of (fun e => isTypeError e = true) _ _ _ (fun e => decodeString_error _ _ _ e) h2
  case null => cases h
  all_goals (cases h; rfl)

theorem decodeDescriptorField_error (d : V1Descriptor) (kv : String × Json)
    (e : Err) (h : decodeDescriptorField d kv = .error e) : isTypeError e = true := by
  unfold decodeDescriptorField at h
  simp only at h
  split_ifs at h
  · exact map_error_of (fun e => isTypeError e = true) _ _ _ (fun e => decodeString_error _ _ _ e) h
  · exact map_error_of (fun e => isTypeError e = true) _ _ _ (fun e => decodeString_error _ _ _ e) h
  · exact map_error_of (fun e => isTypeError e = true) _ _ _ (fun e => decodeString_error _ _ _ e) h
  · exact map_error_of (fun e => isTypeError e = true) _ _ _ (fun e => decodeInt64_error _ _ e) h
  · exact map_error_of (fun e => isTypeError e = true) _ _ _ (fun e => decodeStrings_error _ e) h
  · exact map_error_of (fun e => isTypeError e = true) _ _ _ (fun e => decodeAnnotations_error _ _ e) h

theorem decodeDescriptor_error (cur : V1Descriptor) (v : Json) (e : Err)
    (h : decodeDescriptor cur v = .error e) : isTypeError e = true := by
  cases v <;> simp only [decodeDescriptor] at h
  case object members =>
    exact foldlM_error_of (fun e => isTypeError e = true) _ decodeDescriptorField_error _ _ _ h
  case null => cases h
  all_goals (cases h; rfl)

theorem decodeDescriptors_error (v : Json) (e : Err)
    (h : decodeDescriptors v = .error e) : isTypeError e = true := by
  cases v <;> simp only [decodeDescriptors] at h
  case array elems =>
    exact mapM_error_of (fun e => isTypeError e = true) _ (fun a e => decodeDescriptor_error _ a e) _ _ h
  case null => cases h
  all_goals (cases h; rfl)

theorem decodeManifestField_error (m : V1Manifest) (kv : String × Json)
    (e : Err) (h : decodeManifestField m kv = .error e) : isTypeError e = true := by
  unfold decodeManifestField at h
  simp only at h
  split_ifs at h
  · exact map_error_of (fun e => isTypeError e = true) _ _ _ (fun e => decodeString_error _ _ _ e) h
  · exact map_error_of (fun e => isTypeError e = true) _ _ _ (fun e => decodeString_error _ _ _ e) h
  · exact map_error_of (fun e => isTypeError e = true) _ _ _ (fun e => decodeDescriptors_error _ e) h
  · exact map_error_of (fun e => isTypeError e = true) _ _ _ (fun e => decodeDescriptor_error _ _ e) h
  · exact map_error_of (fun e => isTypeError e = true) _ _ _ (fun e => decodeAnnotations_error _ _ e) h

theorem decodeManifest_error (cur : V1Manifest) (v : Json) (e : Err)
    (h : decodeManifest cur v = .error e) : isTypeError e = true := by
  cases v <;> simp only [decodeManifest] at h
  case object members =>
    exact foldlM_error_of (fun e => isTypeError e = true) _ decodeManifestField_error _ _ _ h
  case null => cases h
  all_goals (cases h; rfl)

theorem jsonUnmarshal_error (b : Bytes) (cur : V1Manifest) (e : Err)
    (h : jsonUnmarshal b cur = .error e) :
    e = Err.SyntaxError ∨ isTypeError e = true := by
  unfold jsonUnmarshal at h
  split at h
  · exact Or.inl (Except.error.inj h).symm
  · exact Or.inr (decodeManifest_error _ _ _ h)

theorem jsonUnmarshal_valid (b : Bytes) (cur : V1Manifest) (e : Err)
    (hv : jsonValid b = true) (h : jsonUnmarshal b cur = .error e) :
    isTypeError e = true := by
  unfold jsonUnmarshal at h
  unfold jsonValid at hv
  split at h
  · rename_i hp; rw [hp] at hv; cases hv
  · exact decodeManifest_error _ _ _ h

theorem jsonValid_of_ok (b : Bytes) (cur man : V1Manifest)
    (h : jsonUnmarshal b cur = .ok man) : jsonValid b = true := by
  unfold jsonUnmarshal at h
  unfold jsonValid
  split at h
  · cases h
  · rename_i hp; rw [hp]; rfl

theorem UnmarshalJSON_ok (d : DeserializedManifest) (b : Bytes)
    (h : (d.UnmarshalJSON b).2 = none) :
    ∃ man, jsonUnmarshal b V1Manifest.zero = .ok man ∧ man.ArtifactType ≠ "" ∧
      d.UnmarshalJSON b = (⟨⟨man⟩, b⟩, none) := by
  unfold DeserializedManifest.UnmarshalJSON at h ⊢
  simp only at h ⊢
  cases hj : jsonUnmarshal b V1Manifest.zero with
  | error e => rw [hj] at h; cases h
  | ok man =>
    rw [hj] at h
    simp only at h ⊢
    by_cases ht : man.ArtifactType = ""
    · simp [ht] at h
    · exact ⟨man, rfl, ht, by simp [ht]⟩

theorem Unmarshal_eq (dgst : Digest) (b : Bytes) :
    Unmarshal dgst b =
      if jsonValid b = false then
        (none, some Err.ErrManifestFormatNotSupported)
      else
        match jsonUnmarshal b V1Manifest.zero with
        | .error e => (none, some e)
        | .ok man =>
          if man.ArtifactType = "" then
            (none, some (Err.errorsNew "artifactType cannot be empty"))
          else (some (.artifact ⟨⟨man⟩, b⟩), none) := by
  unfold Unmarshal CanUnmarshal DeserializedManifest.UnmarshalJSON
  cases hv : jsonValid b with
  | false => simp
  | true =>
    simp only [Bool.not_true, Bool.false_eq_true, if_false, Bool.true_eq_false]
    cases hj : jsonUnmarshal b V1Manifest.zero with
    | error e => simp
    | ok man =>
      simp only
      by_cases ht : man.ArtifactType = "" <;> simp [ht, DeserializedManifest.zero]

/-- C9. Empty artifactType is rejected at unmarshal.  For every byte
sequence `b` that `encoding/json` decodes into a manifest whose artifact
type is empty, `UnmarshalJSON` returns an error and leaves the parsed
manifest of its receiver as it was, and `Unmarshal` of the handler, which
takes no store, returns that error and no manifest; and every manifest that
`Unmarshal` returns without error is an artifact manifest with a non-empty
`ArtifactType`. -/
theorem unmarshal_rejects_empty_artifactType (b : Bytes) (dgst : Digest) :
    (∀ (man : V1Manifest) (d : DeserializedManifest),
      jsonUnmarshal b V1Manifest.zero = .ok man →
      man.ArtifactType = "" →
      (d.UnmarshalJSON b).2 =
        some (Err.errorsNew "artifactType cannot be empty") ∧
      (d.UnmarshalJSON b).1.inner = d.inner ∧
      Unmarshal dgst b =
        (none, some (Err.errorsNew "artifactType cannot be empty"))) ∧
    (∀ m, Unmarshal dgst b = (some m, none) →
      ∃ dm, m = .artifact dm ∧ dm.ArtifactType ≠ "") := by
  constructor
  · intro man d hdec hempty
    have hvalid := jsonValid_of_ok b _ _ hdec
    simp [DeserializedManifest.UnmarshalJSON, hdec, hempty, Unmarshal,
      CanUnmarshal, hvalid]
  · intro m h
    unfold Unmarshal at h
    split at h
    · cases h
    · simp only at h
      cases hr : (DeserializedManifest.zero.UnmarshalJSON b).2 with
      | some err => rw [hr] at h; cases h
      | none =>
        obtain ⟨man, -, hne, heq⟩ := UnmarshalJSON_ok _ b hr
        rw [hr] at h
        simp only [Prod.mk.injEq, Option.some.injEq, and_true] at h
        refine ⟨_, h.symm, ?_⟩
        rw [heq]
        exact hne

/-- The documents `{}`, rejected for its empty artifact type, and `docA`,
unmarshalled into a manifest of type `a`. -/
theorem unmarshal_rejects_empty_artifactType_witness :
    Unmarshal "" [123, 125] =
      (none, some (Err.errorsNew "artifactType cannot be empty")) ∧
    ∃ dm, AnyManifest.artifact (sampleManifest "a" "sha256:s" [] docA) =
      .artifact dm ∧ dm.ArtifactType ≠ "" :=
  ⟨((unmarshal_rejects_empty_artifactType [123, 125] "").1 V1Manifest.zero
      DeserializedManifest.zero rfl rfl).2.2,
   (unmarshal_rejects_empty_artifactType docA "").2
      (.artifact (sampleManifest "a" "sha256:s" [] docA)) (by decide)⟩

/-- C10, as stated, fails: the document `[]` is valid JSON but not an
object; `Unmarshal` returns the type error of the decoder, not
`ErrManifestFormatNotSupported`. -/
theorem unmarshal_array_not_format_error :
    jsonValid [91, 93] = true ∧
    Unmarshal "" [91, 93] =
      (none, some (Err.UnmarshalTypeError "array" "v1.Manifest")) ∧
    (Unmarshal "" [91, 93]).2 ≠ some Err.ErrManifestFormatNotSupported := by
  decide

theorem Unmarshal_of_parse (dgst : Digest) (b : Bytes) (v : Json)
    (hp : parseJson b = some v) :
    Unmarshal dgst b =
      match decodeManifest V1Manifest.zero v with
      | .error e => (none, some e)
      | .ok man =>
        if man.ArtifactType = "" then
          (none, some (Err.errorsNew "artifactType cannot be empty"))
        else (some (.artifact ⟨⟨man⟩, b⟩), none) := by
  have hv : jsonValid b = true := by simp [jsonValid, hp]
  rw [Unmarshal_eq, hv]
  simp only [Bool.true_eq_false, if_false, jsonUnmarshal, hp]

/-- C10, amended.  `Unmarshal` fails with `ErrManifestFormatNotSupported`
exactly when the bytes are not valid JSON, and then returns no manifest.
For valid JSON with the value `v`, the error of `UnmarshalJSON` is returned
as it is: when `v` is an array, a number, a string or a boolean, the
`json.UnmarshalTypeError` of the decoder for the kind of `v` and the type
`v1.Manifest`; when `v` is `null`, the error `artifactType cannot be empty`;
when `v` is an object, the type error of the decoder for the first member
whose value does not fit its field (so for a first member `artifactType`
whose value is neither a string nor `null`), otherwise the error
`artifactType cannot be empty` when the artifact type decoded is empty, and
no error when it is not. -/
theorem unmarshal_error_kind (b : Bytes) (dgst : Digest) :
    ((Unmarshal dgst b).2 = some Err.ErrManifestFormatNotSupported ↔
      jsonValid b = false) ∧
    (jsonValid b = false → (Unmarshal dgst b).1 = none) ∧
    (jsonValid b = true → ∃ v, parseJson b = some v) ∧
    (∀ v, parseJson b = some v →
      (v ≠ .null → (∀ ms, v ≠ .object ms) →
        Unmarshal dgst b =
          (none, some (Err.UnmarshalTypeError v.kind "v1.Manifest"))) ∧
      (v = .null →
        Unmarshal dgst b =
          (none, some (Err.errorsNew "artifactType cannot be empty"))) ∧
      (∀ ms, v = .object ms →
        (∀ e, ms.foldlM decodeManifestField V1Manifest.zero = .error e →
          isTypeError e = true ∧ Unmarshal dgst b = (none, some e)) ∧
        (∀ man, ms.foldlM decodeManifestField V1Manifest.zero = .ok man →
          man.ArtifactType = "" →
          Unmarshal dgst b =
            (none, some (Err.errorsNew "artifactType cannot be empty"))) ∧
        (∀ man, ms.foldlM decodeManifestField V1Manifest.zero = .ok man →
          man.ArtifactType ≠ "" → (Unmarshal dgst b).2 = none) ∧
        (∀ k x rest, ms = (k, x) :: rest → foldKey k = "artifacttype" →
          x ≠ .null → (∀ s, x ≠ .string s) →
          Unmarshal dgst b =
            (none, some (Err.UnmarshalTypeError x.kind "string"))))) := by
  refine ⟨?_, ?_, ?_, ?_⟩
  · rw [Unmarshal_eq]
    cases hv : jsonValid b with
    | false => simp
    | true =>
      simp only [Bool.true_eq_false, if_false, iff_false]
      cases hj : jsonUnmarshal b V1Manifest.zero with
      | error e =>
        have ht := jsonUnmarshal_valid b _ e hv hj
        intro h
        simp only [Option.some.injEq] at h
        subst h
        simp [isTypeError] at ht
      | ok man =>
        simp only
        split <;> simp
  · intro hv
    rw [Unmarshal_eq, hv]
    simp
  · intro hv
    unfold jsonValid at hv
    cases hp : parseJson b with
    | none => rw [hp] at hv; cases hv
    | some v => exact ⟨v, rfl⟩
  · intro v hp
    have hU := Unmarshal_of_parse dgst b v hp
    refine ⟨?_, ?_, ?_⟩
    · intro hn ho
      rw [hU]
      cases v with
      | null => exact absurd rfl hn
      | object ms => exact absurd rfl (ho ms)
      | bool x => rfl
      | number x => rfl
      | string x => rfl
      | array x => rfl
    · intro hn
      subst hn
      rw [hU]
      rfl
    · intro ms hms
      subst hms
      simp only [decodeManifest] at hU
      refine ⟨?_, ?_, ?_, ?_⟩
      · intro e he
        rw [he] at hU
        exact ⟨foldlM_error_of (fun e => isTypeError e = true) _
          decodeManifestField_error _ _ _ he, hU⟩
      · intro man hman hempty
        rw [hman] at hU
        simpa [hempty] using hU
      · intro man hman hne
        rw [hman] at hU
        rw [hU]
        simp [hne]
      · intro k x rest hms hk hnull hstr
        subst hms
        have hd : decodeManifestField V1Manifest.zero (k, x) =
            .error (Err.UnmarshalTypeError x.kind "string") := by
          simp only [decodeManifestField, hk]
          cases x with
          | null => exact absurd rfl hnull
          | string s => exact absurd rfl (hstr s)
          | bool x => rfl
          | number x => rfl
          | array x => rfl
          | object x => rfl
        have hf : List.foldlM decodeManifestField V1Manifest.zero
            ((k, x) :: rest) = .error (Err.UnmarshalTypeError x.kind "string") := by
          simp only [List.foldlM, bind, Except.bind, hd]
        rw [hf] at hU
        exact hU

/-- The bytes `{`, which are not valid JSON, are rejected with
`ErrManifestFormatNotSupported`; the number `1` and the document
`{"artifactType":1}` are rejected with a type error, and `null` with the
error of the empty artifact type. -/
theorem unmarshal_error_kind_witness :
    (Unmarshal "" [123]).2 = some Err.ErrManifestFormatNotSupported ∧
    Unmarshal "" [49] =
      (none, some (Err.UnmarshalTypeError "number" "v1.Manifest")) ∧
    Unmarshal "" [110, 117, 108, 108] =
      (none, some (Err.errorsNew "artifactType cannot be empty")) ∧
    Unmarshal ""
      [123, 34, 97, 114, 116, 105, 102, 97, 99, 116, 84, 121, 112, 101, 34, 58,
       49, 125] =
      (none, some (Err.UnmarshalTypeError "number" "string")) :=
  ⟨(unmarshal_error_kind [123] "").1.2 (by decide),
   ((unmarshal_error_kind [49] "").2.2.2 (.number "1") rfl).1
      (fun h => Json.noConfusion h) (fun _ h => Json.noConfusion h),
   ((unmarshal_error_kind [110, 117, 108, 108] "").2.2.2 .null rfl).2.1
      rfl,
   (((unmarshal_error_kind
      [123, 34, 97, 114, 116, 105, 102, 97, 99, 116, 84, 121, 112, 101, 34, 58,
       49, 125] "").2.2.2 (.object [("artifactType", .number "1")])
      rfl).2.2 _ rfl).2.2.2 _ _ _ rfl (by decide)
      (fun h => Json.noConfusion h) (fun _ h => Json.noConfusion h)⟩

theorem parseJson_nil : parseJson [] = none := rfl

theorem jsonUnmarshal_ok_ne_nil (b : Bytes) (cur man : V1Manifest)
    (h : jsonUnmarshal b cur = .ok man) : b ≠ [] := by
  intro hb
  subst hb
  simp [jsonUnmarshal, parseJson_nil] at h

/-- C11. Raw bytes round trip.  For every byte sequence `b` on which
`UnmarshalJSON` succeeds, the manifest it leaves has `b` as its raw bytes:
`Payload` returns the artifact manifest media type, `b` and no error, and
`MarshalJSON` returns `b` and no error.  `MarshalJSON` on a manifest whose
raw bytes are empty returns an error and no bytes. -/
theorem raw_bytes_round_trip (d : DeserializedManifest) (b : Bytes) :
    ((d.UnmarshalJSON b).2 = none →
      (d.UnmarshalJSON b).1.Payload = (MediaTypeArtifactManifest, b, none) ∧
      (d.UnmarshalJSON b).1.MarshalJSON = (some b, none)) ∧
    (d.raw = [] →
      d.MarshalJSON = (none, some (Err.errorsNew
        "JSON representation not initialized in DeserializedManifest"))) := by
  constructor
  · intro h
    obtain ⟨man, hdec, -, heq⟩ := UnmarshalJSON_ok d b h
    have hb := jsonUnmarshal_ok_ne_nil b _ _ hdec
    rw [heq]
    refine ⟨rfl, ?_⟩
    have hlen : b.length > 0 := List.length_pos.mpr hb
    simp [DeserializedManifest.MarshalJSON, hlen]
  · intro h
    simp [DeserializedManifest.MarshalJSON, h]

/-- The document `docA` is kept byte for byte, and the zero manifest cannot
be marshalled. -/
theorem raw_bytes_round_trip_witness :
    ((DeserializedManifest.zero.UnmarshalJSON docA).1.Payload =
        (MediaTypeArtifactManifest, docA, none) ∧
      (DeserializedManifest.zero.UnmarshalJSON docA).1.MarshalJSON =
        (some docA, none)) ∧
    DeserializedManifest.zero.MarshalJSON =
      (none, some (Err.errorsNew
        "JSON representation not initialized in DeserializedManifest")) :=
  ⟨(raw_bytes_round_trip DeserializedManifest.zero docA).1 (by decide),
   (raw_bytes_round_trip DeserializedManifest.zero docA).2 rfl⟩

/-- C12. Digest required.  For every request handled by `Get` of the
package `orasv2` or by `getReferrers` of the package `oci` with an empty
digest, exactly one error is appended to the errors of the context,
`ErrorCodeManifestUnknown` with the detail `digest not specified`, and the
world is left as it is: no call is logged, so nothing is written to the
response and `Referrers` is not called. -/
theorem get_digest_required (env : Env σ) (oci : OciEnv σ)
    (h : referrersHandler) (artifactType : String) (errors : List ApiError)
    (w : World σ) (hd : h.Digest = "") :
    referrersHandler.Get env h artifactType errors w =
      (.returned (errors ++
        [⟨.ErrorCodeManifestUnknown, .text "digest not specified"⟩]), w) ∧
    getReferrers oci h artifactType errors w =
      (errors ++
        [⟨.ErrorCodeManifestUnknown, .text "digest not specified"⟩], w) := by
  simp [referrersHandler.Get, getReferrers, hd]

/-- A request without digest on the registry held in memory. -/
theorem get_digest_required_witness :
    referrersHandler.Get Registry.env ⟨""⟩ "a" [] twoReferrers =
      (.returned ([] ++
        [⟨.ErrorCodeManifestUnknown, .text "digest not specified"⟩]),
        twoReferrers) ∧
    getReferrers Registry.ociEnv ⟨""⟩ "a" [] twoReferrers =
      ([] ++ [⟨.ErrorCodeManifestUnknown, .text "digest not specified"⟩],
        twoReferrers) :=
  get_digest_required Registry.env Registry.ociEnv ⟨""⟩ "a" [] twoReferrers rfl

/-- C16. `CanPut` is a type-identity gate: it is true exactly for a
`*DeserializedManifest`; for every manifest on which it is false, `Put`
returns the empty digest and `ErrManifestFormatNotSupported` whatever the
flag `skip`, and leaves the world as it is: no call is made on the blob
store, the manifest service or `linkFunc`. -/
theorem canPut_type_gate (env : Env σ) (man : AnyManifest) (skip : Bool)
    (w : World σ) :
    (CanPut man = true ↔ ∃ dm, man = .artifact dm) ∧
    (CanPut man = false →
      Put env man skip w =
        (.returned ("", some Err.ErrManifestFormatNotSupported), w)) := by
  cases man with
  | artifact dm => simp [CanPut]
  | foreign mt payload => simp [CanPut, Put]

/-- A manifest of another kind is refused without a call. -/
theorem canPut_type_gate_witness :
    Put Registry.env (.foreign "application/vnd.oci.image.manifest.v1+json"
        [123, 125]) false withSubject =
      (.returned ("", some Err.ErrManifestFormatNotSupported), withSubject) :=
  (canPut_type_gate Registry.env
    (.foreign "application/vnd.oci.image.manifest.v1+json" [123, 125]) false
    withSubject).2 rfl

theorem verifyResult_eq_none (errs : List Err) :
    verifyResult errs = none ↔ errs = [] := by
  cases errs with
  | nil => simp [verifyResult]
  | cons a l => simp [verifyResult]

theorem artifactTypeEntries_eq_nil (dm : DeserializedManifest) :
    artifactTypeEntries dm = [] ↔ dm.ArtifactType ≠ "" := by
  by_cases h : dm.ArtifactType = "" <;> simp [artifactTypeEntries, h]

theorem blobEntries_eq_nil (b : Descriptor) (r : Descriptor × Option Err) :
    blobEntries b r = [] ↔ r.2 = none ∧ r.1.Digest ≠ "" := by
  rcases r with ⟨desc, err⟩
  cases err with
  | none => by_cases hd : desc.Digest = "" <;> simp [blobEntries, hd]
  | some e => by_cases he : e = Err.ErrBlobUnknown <;> simp [blobEntries, he]

theorem referenceEntries_eq_nil (env : Env σ) (refs : List Descriptor) (s : σ) :
    referenceEntries env refs s = [] ↔
      ∀ r ∈ statResults env refs s, r.2 = none ∧ r.1.Digest ≠ "" := by
  induction refs generalizing s with
  | nil => simp [referenceEntries, statResults]
  | cons b rest ih =>
    simp only [referenceEntries, statResults, List.append_eq_nil,
      List.mem_cons, forall_eq_or_imp, blobEntries_eq_nil, ih]

theorem subjectEntries_eq_nil (d : Digest) (r : Bool × Option Err) :
    subjectEntries d r = [] ↔ r = (true, none) := by
  rcases r with ⟨ex, err⟩
  cases ex <;> cases err <;> simp [subjectEntries]
  rename_i e
  by_cases he : e = Err.ErrBlobUnknown <;> simp [he]

/-- C20. Exact acceptance condition of verification: `verifyManifest`
returns nil if and only if the artifact type is not empty and either `skip`
is true, or every descriptor of `References` stats without error to a
descriptor with a non-empty digest, `repository.Manifests` succeeds and
`Exists` of the subject digest returns `(true, nil)`. -/
theorem verify_accepts_iff (env : Env σ) (dm : DeserializedManifest)
    (skip : Bool) (w : World σ) :
    (verifyManifest env dm skip w).1 = none ↔
      dm.ArtifactType ≠ "" ∧
      (skip = true ∨
        ((∀ r ∈ statResults env dm.References w.st,
            r.2 = none ∧ r.1.Digest ≠ "") ∧
          (env.Manifests (statState env dm.References w.st)).1 = none ∧
          (env.Exists dm.Subject.Digest
            (env.Manifests (statState env dm.References w.st)).2).1 =
              (true, none))) := by
  cases skip with
  | true =>
    rw [verifyManifest_skip]
    simp [verifyResult_eq_none, artifactTypeEntries_eq_nil]
  | false =>
    rw [verifyManifest_eq]
    cases hm : (env.Manifests (statState env dm.References w.st)).1 with
    | some err => simp
    | none =>
      simp only [verifyResult_eq_none, List.append_eq_nil,
        artifactTypeEntries_eq_nil, referenceEntries_eq_nil,
        subjectEntries_eq_nil, Bool.false_eq_true, false_or, true_and, and_assoc]

/-- With `skip`, a manifest with an artifact type passes whatever the
stores hold, and one without an artifact type does not. -/
theorem verify_accepts_iff_witness :
    (verifyManifest Registry.env (sampleManifest "a" "sha256:s" ["sha256:q"]
      [123, 125]) true ⟨⟨[], []⟩, []⟩).1 = none ∧
    (verifyManifest Registry.env (sampleManifest "" "sha256:s" []
      [123, 125]) true ⟨⟨[], []⟩, []⟩).1 ≠ none :=
  ⟨(verify_accepts_iff Registry.env _ true _).2 ⟨by decide, Or.inl rfl⟩,
   fun h => ((verify_accepts_iff Registry.env _ true _).1 h).1 (by decide)⟩

/-! ## Properties of the referrers query -/

theorem appendAll_appendSlice {α : Type} (s : Option (List α)) (a : α)
    (l : List α) : appendAll (appendSlice s a) l = appendAll s (a :: l) := by
  cases s <;> cases l <;> simp [appendAll, appendSlice]

theorem enumerate_ok (env : Env σ) (ds : List Digest) (final : Option Err)
    (acc : Option (List ReferrerDescriptor)) (w : World σ)
    (h : visitsSucceed env ds w.st = true) :
    enumerate (referrersVisit env) ds final acc w =
      (final, appendAll acc (referrerEntries env ds w.st),
        ⟨visitState env ds w.st, w.log ++ visitCalls env ds w.st⟩) := by
  induction ds generalizing acc w with
  | nil => simp [enumerate, appendAll, referrerEntries, visitState, visitCalls]
  | cons d ds ih =>
    simp only [visitsSucceed] at h
    simp only [enumerate, referrersVisit, referrerEntries, visitState,
      visitCalls, World.step]
    cases hg : (env.Get d w.st).1 with
    | error e => rw [hg] at h; cases h
    | ok man =>
      rw [hg] at h
      cases man with
      | foreign mt p =>
        simp only at h ⊢
        rw [ih _ _ h]
        simp
      | artifact dm =>
        simp only [Bool.and_eq_true, decide_eq_true_eq] at h ⊢
        rw [h.1]
        simp only
        rw [ih _ _ h.2, appendAll_appendSlice]
        simp

theorem enumerate_fail (env : Env σ) (pre post : List Digest) (d : Digest)
    (final : Option Err) (acc : Option (List ReferrerDescriptor))
    (w : World σ) (e : Err)
    (hpre : visitsSucceed env pre w.st = true)
    (hd : visitError env d (visitState env pre w.st) = some e) :
    (enumerate (referrersVisit env) (pre ++ d :: post) final acc w).1 =
      some e := by
  induction pre generalizing acc w with
  | nil =>
    simp only [visitState, visitError] at hd
    simp only [List.nil_append, enumerate, referrersVisit, World.step]
    cases hg : (env.Get d w.st).1 with
    | error e2 =>
      rw [hg] at hd
      simp only [Option.some.injEq] at hd
      simp [hd]
    | ok man =>
      rw [hg] at hd
      cases man with
      | foreign mt p => cases hd
      | artifact dm =>
        simp only at hd ⊢
        rw [hd]
  | cons a pre ih =>
    simp only [visitsSucceed] at hpre
    simp only [visitState] at hd
    simp only [List.cons_append, enumerate, referrersVisit, World.step]
    cases hg : (env.Get a w.st).1 with
    | error e2 => rw [hg] at hpre; cases hpre
    | ok man =>
      rw [hg] at hpre hd
      cases man with
      | foreign mt p =>
        simp only at hpre hd ⊢
        exact ih _ _ hpre hd
      | artifact dm =>
        simp only [Bool.and_eq_true, decide_eq_true_eq] at hpre hd ⊢
        rw [hpre.1]
        simp only
        exact ih _ _ hpre.2 hd

/-- C17. Foreign entries are skipped silently.  When the manifest service
is obtained, the link enumerator hands the digests `digests` to the visitor
and returns no error of its own, and every `Get` and every `Stat` of the
visits succeeds, then `Referrers` returns no error, and its result is the
sub-sequence `referrerEntries` of the digests whose manifest is an artifact
manifest, in the order of the enumeration, each entry with the digest and
size of `Stat`, the media type of the payload and the artifact type of the
manifest; the calls made are those of `visitCalls`: a digest whose manifest
is of another kind is not stat-ed. -/
theorem referrers_skips_foreign (env : Env σ) (revision : Digest)
    (t : String) (w : World σ) (root : String) (digests : List Digest)
    (hm : (env.Manifests w.st).1 = none)
    (hroot : referrersRootPath env.Name revision = .returned root)
    (he : (env.linkBlobEnumerator root (env.Manifests w.st).2).1 =
      ⟨digests, none⟩)
    (hv : visitsSucceed env digests
      (env.linkBlobEnumerator root (env.Manifests w.st).2).2 = true) :
    (Referrers env revision t w).1 =
      .returned (appendAll none (referrerEntries env digests
        (env.linkBlobEnumerator root (env.Manifests w.st).2).2), none) ∧
    (Referrers env revision t w).2.log =
      w.log ++ [.Manifests, .linkBlobEnumerator root] ++
        visitCalls env digests
          (env.linkBlobEnumerator root (env.Manifests w.st).2).2 := by
  simp only [Referrers, hm, hroot, World.step, he]
  rw [enumerate_ok env digests none none _ hv]
  simp

/-- The registry holds the subject itself linked among its referrers, next
to an artifact manifest: only the artifact manifest is returned, and only it
is stat-ed. -/
theorem referrers_skips_foreign_witness :
    (Referrers Registry.env "sha256:s" ""
      ⟨⟨[("sha256:s", "application/vnd.oci.image.manifest.v1+json", [123, 125]),
         ("mem:a", MediaTypeArtifactManifest, docA)],
        [("/docker/registry/v2/repositories/repo/_refs/subjects/sha256/s/sha256/s/link",
          "sha256:s"),
         ("/docker/registry/v2/repositories/repo/_refs/subjects/sha256/s/mem/a/link",
          "mem:a")]⟩, []⟩).1 =
      .returned (some [⟨MediaTypeArtifactManifest, "a", "mem:a", 52⟩], none) ∧
    (Referrers Registry.env "sha256:s" ""
      ⟨⟨[("sha256:s", "application/vnd.oci.image.manifest.v1+json", [123, 125]),
         ("mem:a", MediaTypeArtifactManifest, docA)],
        [("/docker/registry/v2/repositories/repo/_refs/subjects/sha256/s/sha256/s/link",
          "sha256:s"),
         ("/docker/registry/v2/repositories/repo/_refs/subjects/sha256/s/mem/a/link",
          "mem:a")]⟩, []⟩).2.log =
      [] ++ [.Manifests, .linkBlobEnumerator
        "/docker/registry/v2/repositories/repo/_refs/subjects/sha256/s"] ++
        [.Get "sha256:s", .Get "mem:a", .StatterStat "mem:a"] :=
  referrers_skips_foreign Registry.env "sha256:s" "" _
    "/docker/registry/v2/repositories/repo/_refs/subjects/sha256/s"
    ["sha256:s", "mem:a"] (by decide) (by decide) (by decide) (by decide)

/-- C19. Errors inside the enumeration.  When the manifest service is
obtained and the link enumerator hands the digests `pre`, `d` and `post` to
the visitor, the visits of `pre` succeed and the visit of `d` fails with the
error `e` (the error of `Get`, or of `Stat` for an artifact manifest), then
`Referrers` returns a nil list with the error `e` when `e` is not a
`driver.PathNotFoundError`, and a nil list with no error when it is one:
the referrers collected from `pre` are dropped in both cases. -/
theorem referrers_visit_error (env : Env σ) (revision : Digest)
    (t : String) (w : World σ) (root : String) (pre post : List Digest)
    (d : Digest) (final : Option Err) (e : Err)
    (hm : (env.Manifests w.st).1 = none)
    (hroot : referrersRootPath env.Name revision = .returned root)
    (he : (env.linkBlobEnumerator root (env.Manifests w.st).2).1 =
      ⟨pre ++ d :: post, final⟩)
    (hpre : visitsSucceed env pre
      (env.linkBlobEnumerator root (env.Manifests w.st).2).2 = true)
    (hd : visitError env d (visitState env pre
      (env.linkBlobEnumerator root (env.Manifests w.st).2).2) = some e) :
    (isPathNotFoundError e = false →
      (Referrers env revision t w).1 = .returned (none, some e)) ∧
    (isPathNotFoundError e = true →
      (Referrers env revision t w).1 = .returned (none, none)) := by
  have hen := enumerate_fail env pre post d final none
    ⟨(env.linkBlobEnumerator root (env.Manifests w.st).2).2,
      w.log ++ [.Manifests, .linkBlobEnumerator root]⟩ e hpre hd
  simp only [Referrers, hm, hroot, World.step, he]
  simp only [List.append_assoc, List.cons_append, List.nil_append] at hen ⊢
  rw [hen]
  constructor <;> intro hp <;> simp [hp]

/-- Two artifact manifests refer to the subject.  With a blob statter that
fails with an error of the driver the query returns that error; with a blob
statter that reports a path not found for the second referrer it returns a
nil list and no error, without the first referrer. -/
theorem referrers_visit_error_witness :
    (Referrers Registry.envStatterFails "sha256:s" "" ⟨twoReferrers.st, []⟩).1 =
      .returned (none, some (Err.other 6)) ∧
    (Referrers Registry.envStatterGone "sha256:s" "" ⟨twoReferrers.st, []⟩).1 =
      .returned (none, none) :=
  ⟨(referrers_visit_error Registry.envStatterFails "sha256:s" ""
      ⟨twoReferrers.st, []⟩
      "/docker/registry/v2/repositories/repo/_refs/subjects/sha256/s"
      [] [Registry.digestOf docB] (Registry.digestOf docA) none (Err.other 6)
      (by decide) (by decide) (by decide) (by decide) (by decide)).1
      (by decide),
   (referrers_visit_error Registry.envStatterGone "sha256:s" ""
      ⟨twoReferrers.st, []⟩
      "/docker/registry/v2/repositories/repo/_refs/subjects/sha256/s"
      [Registry.digestOf docA] [] (Registry.digestOf docB) none
      (Err.PathNotFoundError (Registry.digestOf docB))
      (by decide) (by decide) (by decide) (by decide) (by decide)).2
      (by decide)⟩

/-! ## Properties of paths -/

theorem intercalate_eq_joinSlash (es : List (List Char)) :
    List.intercalate ['/'] es = joinSlash es := by
  induction es with
  | nil => rfl
  | cons x rest ih =>
    cases rest with
    | nil => simp [List.intercalate, joinSlash, List.intersperse]
    | cons y rest2 =>
      simp only [joinSlash, ← ih]
      simp [List.intercalate, List.intersperse]

theorem splitSlash_ne_nil (p : List Char) : splitSlash p ≠ [] := by
  cases p with
  | nil => simp [splitSlash]
  | cons c cs =>
    simp only [splitSlash]
    split
    · simp
    · split <;> simp

theorem splitSlash_append (a b : List Char) :
    splitSlash (a ++ '/' :: b) = splitSlash a ++ splitSlash b := by
  induction a with
  | nil => simp [splitSlash]
  | cons c a ih =>
    simp only [List.cons_append, splitSlash]
    by_cases hc : c = '/'
    · simp [hc, ih]
    · simp only [hc, if_false, List.append_eq]
      rw [ih]
      cases hs : splitSlash a with
      | nil => exact absurd hs (splitSlash_ne_nil a)
      | cons e es => simp

theorem splitSlash_noslash (e : List Char) (h : '/' ∉ e) :
    splitSlash e = [e] := by
  induction e with
  | nil => rfl
  | cons c cs ih =>
    have hc : c ≠ '/' := fun hc => h (by simp [hc])
    have hcs : '/' ∉ cs := fun hm => h (List.mem_cons_of_mem _ hm)
    simp [splitSlash, hc, ih hcs]

theorem mem_splitSlash_noslash (p e : List Char) (h : e ∈ splitSlash p) :
    '/' ∉ e := by
  induction p generalizing e with
  | nil => simp [splitSlash] at h; simp [h]
  | cons c cs ih =>
    simp only [splitSlash] at h
    by_cases hc : c = '/'
    · simp only [hc, if_true, List.mem_cons] at h
      rcases h with rfl | h
      · simp
      · exact ih e h
    · simp only [hc, if_false] at h
      cases hs : splitSlash cs with
      | nil => exact absurd hs (splitSlash_ne_nil cs)
      | cons e0 es =>
        rw [hs] at h
        simp only [List.mem_cons] at h
        rcases h with rfl | h
        · have := ih e0 (by rw [hs]; simp)
          simp [hc, this]
          exact fun h => hc h.symm
        · exact ih e (by rw [hs]; simp [h])

theorem joinSlash_splitSlash (p : List Char) : joinSlash (splitSlash p) = p := by
  induction p with
  | nil => rfl
  | cons c cs ih =>
    simp only [splitSlash]
    by_cases hc : c = '/'
    · simp only [hc, if_true]
      cases hs : splitSlash cs with
      | nil => exact absurd hs (splitSlash_ne_nil cs)
      | cons e es =>
        rw [hs] at ih
        simp [joinSlash, ih]
    · simp only [hc, if_false]
      cases hs : splitSlash cs with
      | nil => exact absurd hs (splitSlash_ne_nil cs)
      | cons e es =>
        rw [hs] at ih
        cases es with
        | nil => simp [joinSlash] at ih ⊢; exact ih
        | cons e2 es2 =>
          simp only [joinSlash] at ih ⊢
          simp [← ih]

theorem splitSlash_joinSlash (es : List (List Char)) (hne : es ≠ [])
    (h : ∀ e ∈ es, '/' ∉ e) : splitSlash (joinSlash es) = es := by
  induction es with
  | nil => exact absurd rfl hne
  | cons x rest ih =>
    cases rest with
    | nil => simpa [joinSlash] using splitSlash_noslash x (h x (by simp))
    | cons y rest2 =>
      simp only [joinSlash]
      rw [splitSlash_append, splitSlash_noslash x (h x (by simp)),
        ih (by simp) (fun e he => h e (List.mem_cons_of_mem _ he))]
      rfl

theorem cleanStep_good (r : Bool) (acc : Nat × List (List Char))
    (e : List Char) (h : goodSeg e) :
    cleanStep r acc e = (acc.1, e :: acc.2) := by
  obtain ⟨h1, -, h3, h4⟩ := h
  simp [cleanStep, h1, h3, h4]

theorem cleanStep_nil (r : Bool) (acc : Nat × List (List Char)) :
    cleanStep r acc [] = acc := by
  simp [cleanStep]

theorem foldl_cleanStep_good (r : Bool) (es : List (List Char)) (n : Nat)
    (st : List (List Char)) (h : ∀ e ∈ es, e = [] ∨ goodSeg e) :
    es.foldl (cleanStep r) (n, st) =
      (n, (es.filter fun e => e ≠ []).reverse ++ st) := by
  induction es generalizing st with
  | nil => rfl
  | cons e es ih =>
    have he := h e (by simp)
    have hes : ∀ x ∈ es, x = [] ∨ goodSeg x :=
      fun x hx => h x (List.mem_cons_of_mem _ hx)
    simp only [List.foldl_cons]
    rcases he with rfl | hg
    · rw [cleanStep_nil, ih st hes]
      simp
    · rw [cleanStep_good r _ e hg, ih _ hes]
      have hne : e ≠ [] := hg.1
      simp [List.filter_cons, hne]

theorem foldl_cleanStep_rooted (es : List (List Char)) (st : List (List Char))
    (hes : ∀ e ∈ es, '/' ∉ e) (hst : ∀ e ∈ st, goodSeg e) :
    (es.foldl (cleanStep true) (0, st)).1 = 0 ∧
      ∀ e ∈ (es.foldl (cleanStep true) (0, st)).2, goodSeg e := by
  induction es generalizing st with
  | nil => exact ⟨rfl, hst⟩
  | cons e es ih =>
    have hes2 : ∀ x ∈ es, '/' ∉ x :=
      fun x hx => hes x (List.mem_cons_of_mem _ hx)
    simp only [List.foldl_cons]
    by_cases h1 : e = [] ∨ e = ['.']
    · have : cleanStep true (0, st) e = (0, st) := by simp [cleanStep, h1]
      rw [this]
      exact ih st hes2 hst
    · by_cases h2 : e = ['.', '.']
      · cases st with
        | nil =>
          have : cleanStep true (0, []) e = (0, []) := by
            simp [cleanStep, h2]
          rw [this]
          exact ih [] hes2 hst
        | cons x rest =>
          have : cleanStep true (0, x :: rest) e = (0, rest) := by
            simp [cleanStep, h2]
          rw [this]
          exact ih rest hes2 (fun y hy => hst y (List.mem_cons_of_mem _ hy))
      · have : cleanStep true (0, st) e = (0, e :: st) := by
          simp [cleanStep, h1, h2]
        rw [this]
        refine ih (e :: st) hes2 ?_
        intro y hy
        simp only [List.mem_cons] at hy
        rcases hy with rfl | hy
        · simp only [not_or] at h1
          exact ⟨h1.1, hes y (by simp), h1.2, h2⟩
        · exact hst y hy

theorem cleanChars_rooted (q : List Char) :
    cleanChars ('/' :: q) =
      rootedPath ((splitSlash ('/' :: q)).foldl (cleanStep true) (0, [])).2.reverse
      := by
  have h := foldl_cleanStep_rooted (splitSlash ('/' :: q)) []
    (fun e he => mem_splitSlash_noslash _ e he) (by simp)
  simp only [cleanChars, List.head?_cons, decide_True, if_true, h.1,
    List.replicate_zero, List.nil_append, rootedPath, intercalate_eq_joinSlash]
  simp

theorem cleanChars_rooted_normal (q : List Char) :
    ∃ R, (∀ e ∈ R, goodSeg e) ∧ cleanChars ('/' :: q) = rootedPath R := by
  have h := foldl_cleanStep_rooted (splitSlash ('/' :: q)) []
    (fun e he => mem_splitSlash_noslash _ e he) (by simp)
  exact ⟨_, fun e he => h.2 e (List.mem_reverse.mp he), cleanChars_rooted q⟩

theorem splitSlash_consSlashAll (P : List Char) (xs : List (List Char)) :
    splitSlash (P ++ consSlashAll xs) = splitSlash P ++ splitAll xs := by
  induction xs generalizing P with
  | nil => simp [consSlashAll, splitAll]
  | cons x xs ih =>
    have : P ++ consSlashAll (x :: xs) = (P ++ '/' :: x) ++ consSlashAll xs := by
      simp [consSlashAll]
    rw [this, ih, splitSlash_append]
    simp [splitAll]

theorem splitAll_good (xs : List (List Char)) (h : ∀ e ∈ xs, goodSeg e) :
    splitAll xs = xs := by
  induction xs with
  | nil => rfl
  | cons x xs ih =>
    simp only [splitAll]
    rw [splitSlash_noslash x (h x (by simp)).2.1,
      ih (fun e he => h e (List.mem_cons_of_mem _ he))]
    rfl

theorem filter_nonempty_good (xs : List (List Char)) (h : ∀ e ∈ xs, goodSeg e) :
    (xs.filter fun e => e ≠ []) = xs := by
  rw [List.filter_eq_self]
  intro e he
  simpa using (h e he).1

theorem filter_splitSlash_rootedPath (es : List (List Char))
    (h : ∀ e ∈ es, goodSeg e) :
    ((splitSlash (rootedPath es)).filter fun e => e ≠ []) = es := by
  cases es with
  | nil => simp [rootedPath, joinSlash, splitSlash]
  | cons x rest =>
    have hs : splitSlash (joinSlash (x :: rest)) = x :: rest :=
      splitSlash_joinSlash _ (by simp) (fun e he => (h e he).2.1)
    simp only [rootedPath, splitSlash, if_true, hs]
    simpa using filter_nonempty_good (x :: rest) h

theorem cleanChars_rootedPath_append (es xs : List (List Char))
    (hes : ∀ e ∈ es, goodSeg e) (hxs : ∀ e ∈ xs, goodSeg e) :
    cleanChars (rootedPath es ++ consSlashAll xs) = rootedPath (es ++ xs) := by
  have hform : rootedPath es ++ consSlashAll xs =
      '/' :: (joinSlash es ++ consSlashAll xs) := rfl
  rw [hform, cleanChars_rooted, ← hform, splitSlash_consSlashAll,
    splitAll_good xs hxs, foldl_cleanStep_good]
  · simp only [List.filter_append, filter_splitSlash_rootedPath es hes,
      filter_nonempty_good xs hxs, List.append_nil, List.reverse_reverse]
  · intro e he
    simp only [List.mem_append] at he
    rcases he with he | he
    · by_cases hne : e = []
      · exact Or.inl hne
      · right
        have : e ∈ (splitSlash (rootedPath es)).filter fun e => e ≠ [] := by
          simp [List.mem_filter, he, hne]
        rw [filter_splitSlash_rootedPath es hes] at this
        exact hes e this
    · exact Or.inr (hxs e he)

theorem joinBuf_nonempty (buf : List Char) (xs : List (List Char))
    (h : buf ≠ []) : joinBuf buf xs = buf ++ consSlashAll xs := by
  induction xs generalizing buf with
  | nil => simp [joinBuf, consSlashAll]
  | cons x xs ih =>
    simp only [joinBuf, h, ne_eq, not_false_eq_true, true_or, if_true]
    rw [ih _ (by simp)]
    simp [consSlashAll]

theorem joinBuf_nil_cons (P : List Char) (xs : List (List Char))
    (h : P ≠ []) : joinBuf [] (P :: xs) = P ++ consSlashAll xs := by
  have : joinBuf [] (P :: xs) = joinBuf P xs := by
    simp [joinBuf, h]
  rw [this, joinBuf_nonempty _ _ h]

theorem pathJoin_rooted (P : String) (q : List Char) (xs : List String)
    (hP : P.data = '/' :: q) :
    pathJoin (P :: xs) =
      String.mk (cleanChars (P.data ++ consSlashAll (xs.map fun e => e.data)))
      := by
  have hne : P.data ≠ [] := by rw [hP]; simp
  have hlen : ((P :: xs).map fun e => e.data.length).sum ≠ 0 := by
    simp only [List.map_cons, List.sum_cons, hP, List.length_cons]
    omega
  unfold pathJoin
  rw [if_neg hlen, List.map_cons, joinBuf_nil_cons _ _ hne]

theorem pathJoin_normal_good (P : String) (es : List (List Char))
    (xs : List String) (hP : P.data = rootedPath es)
    (hes : ∀ e ∈ es, goodSeg e) (hxs : ∀ x ∈ xs, goodSeg x.data) :
    pathJoin (P :: xs) = String.mk (rootedPath (es ++ xs.map fun e => e.data))
    := by
  rw [pathJoin_rooted P (joinSlash es) xs hP, hP,
    cleanChars_rootedPath_append es _ hes]
  intro e he
  simp only [List.mem_map] at he
  obtain ⟨x, hx, rfl⟩ := he
  exact hxs x hx

theorem pathJoin_normal (P : String) (q : List Char) (xs : List String)
    (hP : P.data = '/' :: q) :
    ∃ R, (∀ e ∈ R, goodSeg e) ∧ (pathJoin (P :: xs)).data = rootedPath R := by
  rw [pathJoin_rooted P q xs hP, hP]
  exact cleanChars_rooted_normal _

theorem joinSlash_append (xs ys : List (List Char)) (hx : xs ≠ [])
    (hy : ys ≠ []) :
    joinSlash (xs ++ ys) = joinSlash xs ++ '/' :: joinSlash ys := by
  induction xs with
  | nil => exact absurd rfl hx
  | cons x rest ih =>
    cases rest with
    | nil =>
      cases ys with
      | nil => exact absurd rfl hy
      | cons y ys => simp [joinSlash]
    | cons x2 rest2 =>
      have := ih (by simp)
      simp only [List.cons_append] at this ⊢
      simp [joinSlash, this]

theorem repositoryPath_valid (name a b : String) (hn : validName name)
    (ha : goodSeg a.data) (hb : goodSeg b.data) :
    pathJoin ["/docker/registry/", "v2", "repositories", name, a, b] =
      String.mk (rootedPath
        (["docker".data, "registry".data, "v2".data, "repositories".data] ++
          splitSlash name.data ++ [a.data, b.data])) := by
  rw [pathJoin_rooted "/docker/registry/" "docker/registry/".data _ rfl]
  have hsplit : splitSlash ("/docker/registry/".data ++ consSlashAll
      (["v2", "repositories", name, a, b].map fun e => e.data)) =
      [[], "docker".data, "registry".data, [], "v2".data,
        "repositories".data] ++ splitSlash name.data ++ [a.data, b.data] := by
    rw [splitSlash_consSlashAll]
    simp only [List.map_cons, List.map_nil, splitAll,
      splitSlash_noslash a.data ha.2.1, splitSlash_noslash b.data hb.2.1]
    have h1 : splitSlash "/docker/registry/".data =
        [[], "docker".data, "registry".data, []] := by decide
    have h2 : splitSlash "v2".data = ["v2".data] := by decide
    have h3 : splitSlash "repositories".data = ["repositories".data] := by
      decide
    rw [h1, h2, h3]
    simp
  have hform : ("/docker/registry/" : String).data ++ consSlashAll
      (["v2", "repositories", name, a, b].map fun e => e.data) =
      '/' :: ("docker/registry/".data ++ consSlashAll
        (["v2", "repositories", name, a, b].map fun e => e.data)) := rfl
  rw [hform, cleanChars_rooted, ← hform, hsplit, foldl_cleanStep_good]
  · congr 2
    simp only [List.filter_append, List.reverse_append, List.append_nil,
      List.reverse_reverse]
    rw [filter_nonempty_good (splitSlash name.data) hn,
      filter_nonempty_good [a.data, b.data] (by
        intro e he
        simp only [List.mem_cons, List.mem_singleton, List.not_mem_nil,
          or_false] at he
        rcases he with rfl | rfl
        · exact ha
        · exact hb)]
    have h4 : ([[], "docker".data, "registry".data, [], "v2".data,
        "repositories".data].filter fun e => e ≠ []) =
        ["docker".data, "registry".data, "v2".data, "repositories".data] := by
      decide
    rw [h4]
  · intro e he
    simp only [List.mem_append] at he
    rcases he with (he | he) | he
    · have : ∀ x ∈ [[], "docker".data, "registry".data, [], "v2".data,
          "repositories".data], x = [] ∨ goodSeg x := by decide
      exact this e he
    · exact Or.inr (hn e he)
    · simp only [List.mem_cons, List.mem_singleton, List.not_mem_nil,
        or_false] at he
      rcases he with rfl | rfl
      · exact Or.inr ha
      · exact Or.inr hb

theorem sepSplit_data (l a h : List Char) (hs : sepSplit l = some (a, h)) :
    l = a ++ ':' :: h := by
  induction l generalizing a with
  | nil => simp [sepSplit] at hs
  | cons c cs ih =>
    simp only [sepSplit] at hs
    by_cases hc : c = ':'
    · simp only [hc, if_true, Option.some.injEq, Prod.mk.injEq] at hs
      simp [hc, ← hs.1, ← hs.2]
    · simp only [hc, if_false] at hs
      cases hr : sepSplit cs with
      | none => rw [hr] at hs; cases hs
      | some p =>
        rw [hr] at hs
        simp only [Option.some.injEq, Prod.mk.injEq] at hs
        have := ih p.1 (by rw [hr, ← hs.2])
        simp [← hs.1, this]

theorem digest_parts (d : Digest) (alg hex : String)
    (ha : d.Algorithm = .returned alg) (hh : d.Hex = .returned hex) :
    sepSplit d.data = some (alg.data, hex.data) := by
  unfold Digest.Algorithm at ha
  unfold Digest.Hex at hh
  cases hs : sepSplit d.data with
  | none => rw [hs] at ha; cases ha
  | some p =>
    rw [hs] at ha hh
    simp only [Outcome.returned.injEq] at ha hh
    rw [← ha, ← hh]

theorem digest_eq_of_parts (d1 d2 : Digest) (a h : List Char)
    (h1 : sepSplit d1.data = some (a, h)) (h2 : sepSplit d2.data = some (a, h)) :
    d1 = d2 := by
  apply String.ext
  rw [sepSplit_data _ _ _ h1, sepSplit_data _ _ _ h2]

theorem wellFormed_parts (d : Digest) (h : wellFormed d) :
    ∃ alg hex, d.Algorithm = .returned alg ∧ d.Hex = .returned hex ∧
      goodSeg alg.data ∧ goodSeg hex.data := by
  unfold wellFormed at h
  cases hs : sepSplit d.data with
  | none => rw [hs] at h; exact absurd h id
  | some p =>
    rw [hs] at h
    exact ⟨String.mk p.1, String.mk p.2, by simp [Digest.Algorithm, hs],
      by simp [Digest.Hex, hs], h.1, h.2⟩

theorem rootedPath_layout (nd : List Char) (tail : List (List Char))
    (ht : tail ≠ []) :
    rootedPath (["docker".data, "registry".data, "v2".data,
        "repositories".data] ++ splitSlash nd ++ tail) =
      "/docker/registry/v2/repositories/".data ++ nd ++ '/' :: joinSlash tail
    := by
  have hsn := splitSlash_ne_nil nd
  rw [rootedPath, List.append_assoc, joinSlash_append _ _ (by simp) (by simp [hsn]),
    joinSlash_append _ _ hsn ht, joinSlash_splitSlash]
  have : joinSlash ["docker".data, "registry".data, "v2".data,
      "repositories".data] = "docker/registry/v2/repositories".data := by
    decide
  rw [this]
  have h2 : ("/docker/registry/v2/repositories/" : String).data =
      '/' :: "docker/registry/v2/repositories".data ++ ['/'] := by decide
  rw [h2]
  simp

theorem good_pair (a b : String) (ha : goodSeg a.data) (hb : goodSeg b.data) :
    ∀ x ∈ [a, b], goodSeg x.data := by
  intro x hx
  simp only [List.mem_cons, List.mem_singleton, List.not_mem_nil, or_false] at hx
  rcases hx with rfl | rfl
  · exact ha
  · exact hb

theorem good_link : goodSeg "link".data := by decide

theorem good_triple (a b : String) (ha : goodSeg a.data) (hb : goodSeg b.data) :
    ∀ x ∈ [a, b, "link"], goodSeg x.data := by
  intro x hx
  simp only [List.mem_cons, List.mem_singleton, List.not_mem_nil, or_false] at hx
  rcases hx with rfl | rfl | rfl
  · exact ha
  · exact hb
  · exact good_link

theorem referenceLinkPath_valid (name : String) (s r : Digest)
    (salg shex ralg rhex : String) (hn : validName name)
    (hsa : s.Algorithm = .returned salg) (hsh : s.Hex = .returned shex)
    (hra : r.Algorithm = .returned ralg) (hrh : r.Hex = .returned rhex)
    (gsa : goodSeg salg.data) (gsh : goodSeg shex.data)
    (gra : goodSeg ralg.data) (grh : goodSeg rhex.data) :
    referenceLinkPath name s r =
      .returned (String.mk (rootedPath
        (["docker".data, "registry".data, "v2".data, "repositories".data] ++
          splitSlash name.data ++
          ["_refs".data, "subjects".data, salg.data, shex.data, ralg.data,
            rhex.data, "link".data]))) := by
  have hbase := repositoryPath_valid name "_refs" "subjects" hn (by decide)
    (by decide)
  have hgood : ∀ e ∈ ["docker".data, "registry".data, "v2".data,
      "repositories".data] ++ splitSlash name.data ++
      ["_refs".data, "subjects".data], goodSeg e := by
    intro e he
    simp only [List.mem_append] at he
    rcases he with (he | he) | he
    · have : ∀ x ∈ ["docker".data, "registry".data, "v2".data,
          "repositories".data], goodSeg x := by decide
      exact this e he
    · exact hn e he
    · have : ∀ x ∈ ["_refs".data, "subjects".data], goodSeg x := by decide
      exact this e he
  have hroot := pathJoin_normal_good (referrersLinkPath name) _ [salg, shex]
    (by rw [referrersLinkPath, hbase]) hgood (good_pair _ _ gsa gsh)
  have hgood2 : ∀ e ∈ (["docker".data, "registry".data, "v2".data,
      "repositories".data] ++ splitSlash name.data ++
      ["_refs".data, "subjects".data]) ++ [salg, shex].map (fun e => e.data),
      goodSeg e := by
    intro e he
    rw [List.mem_append] at he
    rcases he with he | he
    · exact hgood e he
    · simp only [List.map_cons, List.map_nil, List.mem_cons, List.mem_singleton,
        List.not_mem_nil, or_false] at he
      rcases he with rfl | rfl
      · exact gsa
      · exact gsh
  have hlink := pathJoin_normal_good
    (pathJoin [referrersLinkPath name, salg, shex]) _ [ralg, rhex, "link"]
    (by rw [hroot]) hgood2 (good_triple _ _ gra grh)
  simp only [referenceLinkPath, referrersRootPath, hsa, hsh, hra, hrh, hlink]
  simp

/-- C14, as stated, fails: for a subject digest whose algorithm is `.` the
path of `indexReferrers` is not the concatenation, since `path.Join` drops
the element; and the referrers store of the storage variant resolves a
referrer link under `_manifests/revisions/.../ref`, not under
`_refs/subjects`. -/
theorem link_layout_differs :
    referenceLinkPath "repo" ".:x" "sha256:r" =
      .returned
        "/docker/registry/v2/repositories/repo/_refs/subjects/x/sha256/r/link" ∧
    referenceLinkPath "repo" ".:x" "sha256:r" ≠
      .returned ("/docker/registry/v2/repositories/" ++ "repo" ++
        "/_refs/subjects/" ++ "." ++ "/" ++ "x" ++ "/" ++ "sha256" ++ "/" ++
        "r" ++ "/link") ∧
    referrersStoreResolvePath "repo" "sha256:s" "sha256:r" =
      .returned
        "/docker/registry/v2/repositories/repo/_manifests/revisions/sha256/s/ref/sha256/r/link" ∧
    referrersStoreResolvePath "repo" "sha256:s" "sha256:r" ≠
      .returned ("/docker/registry/v2/repositories/" ++ "repo" ++
        "/_refs/subjects/" ++ "sha256" ++ "/" ++ "s" ++ "/" ++ "sha256" ++ "/" ++
        "r" ++ "/link") := by
  decide

theorem referrersStoreResolvePath_valid (name : String) (s r : Digest)
    (salg shex ralg rhex : String) (hn : validName name)
    (hsa : s.Algorithm = .returned salg) (hsh : s.Hex = .returned shex)
    (hra : r.Algorithm = .returned ralg) (hrh : r.Hex = .returned rhex)
    (gsa : goodSeg salg.data) (gsh : goodSeg shex.data)
    (gra : goodSeg ralg.data) (grh : goodSeg rhex.data) :
    referrersStoreResolvePath name s r =
      .returned (String.mk (rootedPath
        (["docker".data, "registry".data, "v2".data, "repositories".data] ++
          splitSlash name.data ++
          ["_manifests".data, "revisions".data, salg.data, shex.data,
            "ref".data, ralg.data, rhex.data, "link".data]))) := by
  have hbase := repositoryPath_valid name "_manifests" "revisions" hn
    (by decide) (by decide)
  have hgood : ∀ e ∈ ["docker".data, "registry".data, "v2".data,
      "repositories".data] ++ splitSlash name.data ++
      ["_manifests".data, "revisions".data], goodSeg e := by
    intro e he
    simp only [List.mem_append] at he
    rcases he with (he | he) | he
    · have : ∀ x ∈ ["docker".data, "registry".data, "v2".data,
          "repositories".data], goodSeg x := by decide
      exact this e he
    · exact hn e he
    · have : ∀ x ∈ ["_manifests".data, "revisions".data], goodSeg x := by
        decide
      exact this e he
  have gref : goodSeg "ref".data := by decide
  have hroot := pathJoin_normal_good (manifestLinkPath name) _
    [salg, shex, "ref"] (by rw [manifestLinkPath, hbase]) hgood (by
      intro x hx
      simp only [List.mem_cons, List.mem_singleton, List.not_mem_nil,
        or_false] at hx
      rcases hx with rfl | rfl | rfl
      · exact gsa
      · exact gsh
      · exact gref)
  have hgood2 : ∀ e ∈ (["docker".data, "registry".data, "v2".data,
      "repositories".data] ++ splitSlash name.data ++
      ["_manifests".data, "revisions".data]) ++
      [salg, shex, "ref"].map (fun e => e.data), goodSeg e := by
    intro e he
    rw [List.mem_append] at he
    rcases he with he | he
    · exact hgood e he
    · simp only [List.map_cons, List.map_nil, List.mem_cons, List.mem_singleton,
        List.not_mem_nil, or_false] at he
      rcases he with rfl | rfl | rfl
      · exact gsa
      · exact gsh
      · exact gref
  have hlink := pathJoin_normal_good
    (pathJoin [manifestLinkPath name, salg, shex, "ref"]) _
    [ralg, rhex, "link"] (by rw [hroot]) hgood2 (good_triple _ _ gra grh)
  simp only [referrersStoreResolvePath, referrersStoreRootPath, hsa, hsh, hra,
    hrh, hlink]
  simp

/-- C14, amended.  For a valid repository name (elements between slashes
not empty and neither `.` nor `..`), a subject digest and a referrer digest
whose algorithm and hex are not empty, hold no `/` and are neither `.` nor
`..`, the call that `indexReferrers` makes is `linkFunc` with exactly the
path `/docker/registry/v2/repositories/{name}/_refs/subjects/{subjectAlg}/
{subjectHex}/{alg}/{hex}/link`; the referrers store of the storage variant
resolves the link to another scheme, `/docker/registry/v2/repositories/
{name}/_manifests/revisions/{subjectAlg}/{subjectHex}/ref/{alg}/{hex}/link`. -/
theorem referrer_link_layout (env : Env σ) (dm : DeserializedManifest)
    (revision : Digest) (w : World σ) (salg shex ralg rhex : String)
    (hn : validName env.Name)
    (hsa : dm.Subject.Digest.Algorithm = .returned salg)
    (hsh : dm.Subject.Digest.Hex = .returned shex)
    (hra : revision.Algorithm = .returned ralg)
    (hrh : revision.Hex = .returned rhex)
    (gsa : goodSeg salg.data) (gsh : goodSeg shex.data)
    (gra : goodSeg ralg.data) (grh : goodSeg rhex.data) :
    (indexReferrers env dm revision w).2.log =
      w.log ++ [.linkFunc ("/docker/registry/v2/repositories/" ++ env.Name ++
        "/_refs/subjects/" ++ salg ++ "/" ++ shex ++ "/" ++ ralg ++ "/" ++
        rhex ++ "/link") revision] ∧
    referrersStoreResolvePath env.Name dm.Subject.Digest revision =
      .returned ("/docker/registry/v2/repositories/" ++ env.Name ++
        "/_manifests/revisions/" ++ salg ++ "/" ++ shex ++ "/ref/" ++ ralg ++
        "/" ++ rhex ++ "/link") := by
  have h1 := referenceLinkPath_valid env.Name dm.Subject.Digest revision
    salg shex ralg rhex hn hsa hsh hra hrh gsa gsh gra grh
  have h2 := referrersStoreResolvePath_valid env.Name dm.Subject.Digest
    revision salg shex ralg rhex hn hsa hsh hra hrh gsa gsh gra grh
  have e1 : String.mk (rootedPath
      (["docker".data, "registry".data, "v2".data, "repositories".data] ++
        splitSlash env.Name.data ++
        ["_refs".data, "subjects".data, salg.data, shex.data, ralg.data,
          rhex.data, "link".data])) =
      "/docker/registry/v2/repositories/" ++ env.Name ++
        "/_refs/subjects/" ++ salg ++ "/" ++ shex ++ "/" ++ ralg ++ "/" ++
        rhex ++ "/link" := by
    apply String.ext
    rw [rootedPath_layout _ _ (by simp)]
    have ha : ("/_refs/subjects/" : String).data =
        '/' :: "_refs".data ++ '/' :: "subjects".data ++ ['/'] := by decide
    have hb : ("/link" : String).data = '/' :: "link".data := by decide
    have hc : ("/" : String).data = ['/'] := by decide
    simp only [String.data_append, joinSlash, ha, hb, hc]
    simp
  have e2 : String.mk (rootedPath
      (["docker".data, "registry".data, "v2".data, "repositories".data] ++
        splitSlash env.Name.data ++
        ["_manifests".data, "revisions".data, salg.data, shex.data,
          "ref".data, ralg.data, rhex.data, "link".data])) =
      "/docker/registry/v2/repositories/" ++ env.Name ++
        "/_manifests/revisions/" ++ salg ++ "/" ++ shex ++ "/ref/" ++ ralg ++
        "/" ++ rhex ++ "/link" := by
    apply String.ext
    rw [rootedPath_layout _ _ (by simp)]
    have ha : ("/_manifests/revisions/" : String).data =
        '/' :: "_manifests".data ++ '/' :: "revisions".data ++ ['/'] := by
      decide
    have hb : ("/link" : String).data = '/' :: "link".data := by decide
    have hc : ("/" : String).data = ['/'] := by decide
    have hd : ("/ref/" : String).data = '/' :: "ref".data ++ ['/'] := by decide
    simp only [String.data_append, joinSlash, ha, hb, hc, hd]
    simp
  constructor
  · simp only [indexReferrers, h1, e1, World.step]
  · rw [h2, e2]

/-- The repository `repo`, the subject `sha256:s` and the referrer
`sha256:r`. -/
theorem referrer_link_layout_witness :
    (indexReferrers Registry.env (sampleManifest "a" "sha256:s" [] [123, 125])
      "sha256:r" ⟨⟨[], []⟩, []⟩).2.log =
      [] ++ [.linkFunc ("/docker/registry/v2/repositories/" ++ "repo" ++
        "/_refs/subjects/" ++ "sha256" ++ "/" ++ "s" ++ "/" ++ "sha256" ++ "/" ++
        "r" ++ "/link") "sha256:r"] ∧
    referrersStoreResolvePath "repo" "sha256:s" "sha256:r" =
      .returned ("/docker/registry/v2/repositories/" ++ "repo" ++
        "/_manifests/revisions/" ++ "sha256" ++ "/" ++ "s" ++ "/ref/" ++
        "sha256" ++ "/" ++ "r" ++ "/link") :=
  referrer_link_layout Registry.env (sampleManifest "a" "sha256:s" [] [123, 125])
    "sha256:r" ⟨⟨[], []⟩, []⟩ "sha256" "s" "sha256" "r" (by decide) (by decide)
    (by decide) (by decide) (by decide) (by decide) (by decide) (by decide)
    (by decide)

theorem referrersLinkPath_normal (name : String) :
    ∃ B, (∀ e ∈ B, goodSeg e) ∧ (referrersLinkPath name).data = rootedPath B :=
  pathJoin_normal "/docker/registry/" "docker/registry/".data _ rfl

theorem referrersRootPath_normal (name : String) (s : Digest) (root : String)
    (h : referrersRootPath name s = .returned root) :
    ∃ R, (∀ e ∈ R, goodSeg e) ∧ root.data = rootedPath R := by
  obtain ⟨B, -, hB⟩ := referrersLinkPath_normal name
  unfold referrersRootPath at h
  cases ha : s.Algorithm with
  | panicked d => rw [ha] at h; cases h
  | returned alg =>
    rw [ha] at h
    cases hh : s.Hex with
    | panicked d => rw [hh] at h; cases h
    | returned hex =>
      rw [hh] at h
      simp only [Outcome.returned.injEq] at h
      rw [← h]
      exact pathJoin_normal _ _ _ hB

theorem referrersRootPath_good (name : String) (s : Digest)
    (B : List (List Char)) (salg shex : String)
    (hB : (referrersLinkPath name).data = rootedPath B)
    (gB : ∀ e ∈ B, goodSeg e)
    (hsa : s.Algorithm = .returned salg) (hsh : s.Hex = .returned shex)
    (gsa : goodSeg salg.data) (gsh : goodSeg shex.data) :
    referrersRootPath name s =
      .returned (String.mk (rootedPath (B ++ [salg.data, shex.data]))) := by
  have hroot := pathJoin_normal_good (referrersLinkPath name) B [salg, shex]
    hB gB (good_pair _ _ gsa gsh)
  simp only [referrersRootPath, hsa, hsh, hroot]
  simp

theorem referenceLinkPath_of_root (name : String) (s r : Digest)
    (R : List (List Char)) (root ralg rhex : String)
    (hroot : referrersRootPath name s = .returned root)
    (hR : root.data = rootedPath R) (gR : ∀ e ∈ R, goodSeg e)
    (hra : r.Algorithm = .returned ralg) (hrh : r.Hex = .returned rhex)
    (gra : goodSeg ralg.data) (grh : goodSeg rhex.data) :
    referenceLinkPath name s r =
      .returned (String.mk (rootedPath
        (R ++ [ralg.data, rhex.data, "link".data]))) := by
  have hlink := pathJoin_normal_good root R [ralg, rhex, "link"] hR gR
    (good_triple _ _ gra grh)
  simp only [referenceLinkPath, hroot, hra, hrh, hlink]
  simp

theorem rootedPath_injective (X Y : List (List Char)) (hX : X ≠ [])
    (hY : Y ≠ []) (gX : ∀ e ∈ X, goodSeg e) (gY : ∀ e ∈ Y, goodSeg e)
    (h : rootedPath X = rootedPath Y) : X = Y := by
  have hj : joinSlash X = joinSlash Y := by
    simpa [rootedPath] using h
  rw [← splitSlash_joinSlash X hX (fun e he => (gX e he).2.1),
    ← splitSlash_joinSlash Y hY (fun e he => (gY e he).2.1), hj]

theorem good_append (B X : List (List Char)) (gB : ∀ e ∈ B, goodSeg e)
    (gX : ∀ e ∈ X, goodSeg e) : ∀ e ∈ B ++ X, goodSeg e := by
  intro e he
  rw [List.mem_append] at he
  rcases he with he | he
  · exact gB e he
  · exact gX e he

/-- C15. Link paths do not collide.  For a fixed repository name, over
well-formed digests (algorithm and hex not empty, without `/`, neither `.`
nor `..`) the referrer link path of `indexReferrers` is defined, and two
pairs of a subject digest and a referrer digest that resolve to the same
path are the same pair. -/
theorem link_path_injective (name : String) (s1 r1 s2 r2 : Digest)
    (hs1 : wellFormed s1) (hr1 : wellFormed r1) (hs2 : wellFormed s2)
    (hr2 : wellFormed r2) :
    (∃ p, referenceLinkPath name s1 r1 = .returned p) ∧
    (referenceLinkPath name s1 r1 = referenceLinkPath name s2 r2 →
      s1 = s2 ∧ r1 = r2) := by
  obtain ⟨B, gB, hB⟩ := referrersLinkPath_normal name
  obtain ⟨sa1, sh1, hsa1, hsh1, gsa1, gsh1⟩ := wellFormed_parts s1 hs1
  obtain ⟨ra1, rh1, hra1, hrh1, gra1, grh1⟩ := wellFormed_parts r1 hr1
  obtain ⟨sa2, sh2, hsa2, hsh2, gsa2, gsh2⟩ := wellFormed_parts s2 hs2
  obtain ⟨ra2, rh2, hra2, hrh2, gra2, grh2⟩ := wellFormed_parts r2 hr2
  have g1 : ∀ e ∈ B ++ [sa1.data, sh1.data], goodSeg e :=
    good_append B _ gB (by
      intro e he
      simp only [List.mem_cons, List.mem_singleton, List.not_mem_nil,
        or_false] at he
      rcases he with rfl | rfl
      · exact gsa1
      · exact gsh1)
  have g2 : ∀ e ∈ B ++ [sa2.data, sh2.data], goodSeg e :=
    good_append B _ gB (by
      intro e he
      simp only [List.mem_cons, List.mem_singleton, List.not_mem_nil,
        or_false] at he
      rcases he with rfl | rfl
      · exact gsa2
      · exact gsh2)
  have e1 := referenceLinkPath_of_root name s1 r1 _ _ ra1 rh1
    (referrersRootPath_good name s1 B sa1 sh1 hB gB hsa1 hsh1 gsa1 gsh1)
    rfl g1 hra1 hrh1 gra1 grh1
  have e2 := referenceLinkPath_of_root name s2 r2 _ _ ra2 rh2
    (referrersRootPath_good name s2 B sa2 sh2 hB gB hsa2 hsh2 gsa2 gsh2)
    rfl g2 hra2 hrh2 gra2 grh2
  refine ⟨⟨_, e1⟩, ?_⟩
  intro h
  rw [e1, e2] at h
  have h' : rootedPath (B ++ [sa1.data, sh1.data] ++
      [ra1.data, rh1.data, "link".data]) =
      rootedPath (B ++ [sa2.data, sh2.data] ++
        [ra2.data, rh2.data, "link".data]) :=
    congrArg String.data (Outcome.returned.inj h)
  have hl := rootedPath_injective _ _ (by simp) (by simp)
    (good_append _ _ g1 (by
      intro e he
      simp only [List.mem_cons, List.mem_singleton, List.not_mem_nil,
        or_false] at he
      rcases he with rfl | rfl | rfl
      · exact gra1
      · exact grh1
      · exact good_link))
    (good_append _ _ g2 (by
      intro e he
      simp only [List.mem_cons, List.mem_singleton, List.not_mem_nil,
        or_false] at he
      rcases he with rfl | rfl | rfl
      · exact gra2
      · exact grh2
      · exact good_link)) h'
  simp only [List.append_assoc, List.append_cancel_left_eq, List.cons_append,
    List.nil_append, List.cons.injEq, and_true] at hl
  obtain ⟨hsa, hsh, hra, hrh⟩ := hl
  constructor
  · refine digest_eq_of_parts s1 s2 sa1.data sh1.data
      (digest_parts s1 _ _ hsa1 hsh1) ?_
    rw [hsa, hsh]
    exact digest_parts s2 _ _ hsa2 hsh2
  · refine digest_eq_of_parts r1 r2 ra1.data rh1.data
      (digest_parts r1 _ _ hra1 hrh1) ?_
    rw [hra, hrh]
    exact digest_parts r2 _ _ hra2 hrh2

/-- Two different referrers of the same subject have different link
paths. -/
theorem link_path_injective_witness :
    (∃ p, referenceLinkPath "repo" "sha256:s" "sha256:r" = .returned p) ∧
    referenceLinkPath "repo" "sha256:s" "sha256:r" ≠
      referenceLinkPath "repo" "sha256:s" "sha256:q" :=
  ⟨(link_path_injective "repo" "sha256:s" "sha256:r" "sha256:s" "sha256:q"
      (by decide) (by decide) (by decide) (by decide)).1,
   fun h => absurd
     ((link_path_injective "repo" "sha256:s" "sha256:r" "sha256:s" "sha256:q"
      (by decide) (by decide) (by decide) (by decide)).2 h).2 (by decide)⟩

theorem pathElems_rootedPath (R : List (List Char)) (gR : ∀ e ∈ R, goodSeg e) :
    pathElems (String.mk (rootedPath R)) = R :=
  filter_splitSlash_rootedPath R gR

theorem referrersVisit_log (env : Env σ) (d : Digest)
    (acc : Option (List ReferrerDescriptor)) (w : World σ) :
    ∃ calls, (referrersVisit env d acc w).2.2.log = w.log ++ calls := by
  unfold referrersVisit
  simp only [World.step]
  split
  · exact ⟨_, rfl⟩
  · split
    · exact ⟨_, rfl⟩
    · split
      · exact ⟨[.Get d, .StatterStat d], by simp⟩
      · exact ⟨[.Get d, .StatterStat d], by simp⟩

theorem enumerate_log (env : Env σ) (ds : List Digest) (final : Option Err)
    (acc : Option (List ReferrerDescriptor)) (w : World σ) :
    ∃ calls, (enumerate (referrersVisit env) ds final acc w).2.2.log =
      w.log ++ calls := by
  induction ds generalizing acc w with
  | nil => exact ⟨[], by simp [enumerate]⟩
  | cons d ds ih =>
    obtain ⟨c1, h1⟩ := referrersVisit_log env d acc w
    simp only [enumerate]
    split
    · exact ⟨c1, h1⟩
    · obtain ⟨c2, h2⟩ := ih (referrersVisit env d acc w).2.1
        (referrersVisit env d acc w).2.2
      exact ⟨c1 ++ c2, by rw [h2, h1, List.append_assoc]⟩

theorem Referrers_log (env : Env σ) (revision : Digest) (t : String)
    (w : World σ) (root : String) (hm : (env.Manifests w.st).1 = none)
    (hroot : referrersRootPath env.Name revision = .returned root) :
    ∃ calls, (Referrers env revision t w).2.log =
      w.log ++ [.Manifests, .linkBlobEnumerator root] ++ calls := by
  obtain ⟨calls, hc⟩ := enumerate_log env
    (env.linkBlobEnumerator root (env.Manifests w.st).2).1.digests
    (env.linkBlobEnumerator root (env.Manifests w.st).2).1.final none
    ⟨(env.linkBlobEnumerator root (env.Manifests w.st).2).2,
      w.log ++ [.Manifests, .linkBlobEnumerator root]⟩
  refine ⟨calls, ?_⟩
  simp only [Referrers, hm, hroot, World.step, List.append_assoc,
    List.cons_append, List.nil_append] at hc ⊢
  split
  · split <;> exact hc
  · exact hc

/-- C18, as stated, fails: for the referrer digest `..:..` the link path
written for the subject `sha256:s` is not under the root enumerated for that
subject, `path.Join` having climbed out of it. -/
theorem link_outside_root :
    referrersRootPath "repo" "sha256:s" =
      .returned "/docker/registry/v2/repositories/repo/_refs/subjects/sha256/s" ∧
    referenceLinkPath "repo" "sha256:s" "..:.." =
      .returned "/docker/registry/v2/repositories/repo/_refs/subjects/link" ∧
    ¬ isUnder "/docker/registry/v2/repositories/repo/_refs/subjects/sha256/s"
      "/docker/registry/v2/repositories/repo/_refs/subjects/link" := by
  decide

theorem write_read_root_agree_aux (env : Env σ) (dm : DeserializedManifest)
    (revision : Digest) (w : World σ) (p : String)
    (hp : referenceLinkPath env.Name dm.Subject.Digest revision = .returned p) :
    (indexReferrers env dm revision w).2.log = w.log ++ [.linkFunc p revision] ∧
    ∃ root alg hex,
      referrersRootPath env.Name dm.Subject.Digest = .returned root ∧
      revision.Algorithm = .returned alg ∧ revision.Hex = .returned hex ∧
      p = pathJoin [root, alg, hex, "link"] ∧
      (∀ t wq, (env.Manifests wq.st).1 = none →
        ∃ calls, (Referrers env dm.Subject.Digest t wq).2.log =
          wq.log ++ [.Manifests, .linkBlobEnumerator root] ++ calls) ∧
      (wellFormed revision → isUnder root p) ∧
      (wellFormed revision → wellFormed dm.Subject.Digest →
        ∀ s' root', wellFormed s' →
          referrersRootPath env.Name s' = .returned root' →
          isUnder root' p → s' = dm.Subject.Digest) := by
  refine ⟨by simp [indexReferrers, hp, World.step], ?_⟩
  have hp0 := hp
  unfold referenceLinkPath at hp
  cases hroot : referrersRootPath env.Name dm.Subject.Digest with
  | panicked d => rw [hroot] at hp; cases hp
  | returned root =>
    rw [hroot] at hp
    cases hra : revision.Algorithm with
    | panicked d => rw [hra] at hp; cases hp
    | returned alg =>
      rw [hra] at hp
      cases hrh : revision.Hex with
      | panicked d => rw [hrh] at hp; cases hp
      | returned hex =>
        rw [hrh] at hp
        simp only [Outcome.returned.injEq] at hp
        obtain ⟨R, gR, hR⟩ := referrersRootPath_normal _ _ _ hroot
        have hrootS : root = String.mk (rootedPath R) := String.ext hR
        refine ⟨root, alg, hex, rfl, rfl, rfl, hp.symm,
          fun t wq hm => Referrers_log env _ t wq root hm hroot, ?_, ?_⟩
        · intro hwf
          obtain ⟨ra, rh, hra2, hrh2, gra, grh⟩ := wellFormed_parts _ hwf
          have hlink := referenceLinkPath_of_root env.Name dm.Subject.Digest
            revision R root ra rh hroot hR gR hra2 hrh2 gra grh
          rw [hp0] at hlink
          have hpS := Outcome.returned.inj hlink
          unfold isUnder
          rw [hpS, hrootS, pathElems_rootedPath R gR,
            pathElems_rootedPath _ (good_append R _ gR (by
              intro e he
              simp only [List.mem_cons, List.mem_singleton, List.not_mem_nil,
                or_false] at he
              rcases he with rfl | rfl | rfl
              · exact gra
              · exact grh
              · exact good_link))]
          exact List.prefix_append _ _
        · intro hwf hwfs s' root' hwfs' hroot' hunder
          obtain ⟨B, gB, hB⟩ := referrersLinkPath_normal env.Name
          obtain ⟨ra, rh, hra2, hrh2, gra, grh⟩ := wellFormed_parts _ hwf
          obtain ⟨sa, sh, hsa, hsh, gsa, gsh⟩ := wellFormed_parts _ hwfs
          obtain ⟨sa', sh', hsa', hsh', gsa', gsh'⟩ := wellFormed_parts _ hwfs'
          have g1 : ∀ e ∈ B ++ [sa.data, sh.data], goodSeg e :=
            good_append B _ gB (by
              intro e he
              simp only [List.mem_cons, List.mem_singleton, List.not_mem_nil,
                or_false] at he
              rcases he with rfl | rfl
              · exact gsa
              · exact gsh)
          have g1' : ∀ e ∈ B ++ [sa'.data, sh'.data], goodSeg e :=
            good_append B _ gB (by
              intro e he
              simp only [List.mem_cons, List.mem_singleton, List.not_mem_nil,
                or_false] at he
              rcases he with rfl | rfl
              · exact gsa'
              · exact gsh')
          have er := referrersRootPath_good env.Name dm.Subject.Digest B sa sh
            hB gB hsa hsh gsa gsh
          have er' := referrersRootPath_good env.Name s' B sa' sh' hB gB hsa'
            hsh' gsa' gsh'
          have hlink := referenceLinkPath_of_root env.Name dm.Subject.Digest
            revision _ _ ra rh er rfl g1 hra2 hrh2 gra grh
          rw [hp0] at hlink
          have hpS := Outcome.returned.inj hlink
          rw [hroot'] at er'
          have hrS' := Outcome.returned.inj er'
          unfold isUnder at hunder
          rw [hpS, hrS', pathElems_rootedPath _ g1',
            pathElems_rootedPath _ (good_append _ _ g1 (by
              intro e he
              simp only [List.mem_cons, List.mem_singleton, List.not_mem_nil,
                or_false] at he
              rcases he with rfl | rfl | rfl
              · exact gra
              · exact grh
              · exact good_link)), List.append_assoc,
            List.prefix_append_right_inj] at hunder
          obtain ⟨t, ht⟩ := hunder
          simp only [List.cons_append, List.nil_append, List.cons.injEq] at ht
          refine digest_eq_of_parts s' _ sa'.data sh'.data
            (digest_parts s' _ _ hsa' hsh') ?_
          rw [ht.1, ht.2.1]
          exact digest_parts _ _ _ hsa hsh

/-- C18, amended.  Write path and read path agree on the index root: when
`indexReferrers` writes the link path `p` for the subject of `dm` and the
referrer `revision`, the subject has a root `root`, the path is
`path.Join(root, alg, hex, "link")` for the algorithm and hex of the
referrer, and `root` is the root that `Referrers` of that subject passes to
the link enumerator.  For a well-formed referrer digest the link is under
that root, and for well-formed digests it is under the root of no other
subject. -/
theorem write_read_root_agree (env : Env σ) (dm : DeserializedManifest)
    (revision : Digest) (w : World σ) (p : String)
    (hp : referenceLinkPath env.Name dm.Subject.Digest revision = .returned p) :
    (indexReferrers env dm revision w).2.log = w.log ++ [.linkFunc p revision] ∧
    ∃ root alg hex,
      referrersRootPath env.Name dm.Subject.Digest = .returned root ∧
      revision.Algorithm = .returned alg ∧ revision.Hex = .returned hex ∧
      p = pathJoin [root, alg, hex, "link"] ∧
      (∀ t wq, (env.Manifests wq.st).1 = none →
        ∃ calls, (Referrers env dm.Subject.Digest t wq).2.log =
          wq.log ++ [.Manifests, .linkBlobEnumerator root] ++ calls) ∧
      (wellFormed revision → isUnder root p) ∧
      (wellFormed revision → wellFormed dm.Subject.Digest →
        ∀ s' root', wellFormed s' →
          referrersRootPath env.Name s' = .returned root' →
          isUnder root' p → s' = dm.Subject.Digest) :=
  write_read_root_agree_aux env dm revision w p hp

/-- The link of the referrer `sha256:r` of the subject `sha256:s`. -/
theorem write_read_root_agree_witness :
    (indexReferrers Registry.env (sampleManifest "a" "sha256:s" [] [123, 125])
      "sha256:r" ⟨⟨[], []⟩, []⟩).2.log =
      [] ++ [.linkFunc
        "/docker/registry/v2/repositories/repo/_refs/subjects/sha256/s/sha256/r/link"
        "sha256:r"] :=
  (write_read_root_agree Registry.env
    (sampleManifest "a" "sha256:s" [] [123, 125]) "sha256:r" ⟨⟨[], []⟩, []⟩
    "/docker/registry/v2/repositories/repo/_refs/subjects/sha256/s/sha256/r/link"
    (by decide)).1

theorem referrersVisit_log_get (env : Env σ) (d : Digest)
    (acc : Option (List ReferrerDescriptor)) (w : World σ) :
    ∃ calls, (referrersVisit env d acc w).2.2.log =
      w.log ++ [.Get d] ++ calls := by
  unfold referrersVisit
  simp only [World.step]
  split
  · exact ⟨[], by simp⟩
  · split
    · exact ⟨[], by simp⟩
    · split
      · exact ⟨[.StatterStat d], by simp⟩
      · exact ⟨[.StatterStat d], by simp⟩

theorem enumerate_visits (env : Env σ) (pre post : List Digest) (d : Digest)
    (final : Option Err) (acc : Option (List ReferrerDescriptor))
    (w : World σ) (hpre : visitsSucceed env pre w.st = true) :
    ∃ calls, (enumerate (referrersVisit env) (pre ++ d :: post) final acc
      w).2.2.log = w.log ++ visitCalls env pre w.st ++ [.Get d] ++ calls := by
  induction pre generalizing acc w with
  | nil =>
    obtain ⟨c1, h1⟩ := referrersVisit_log_get env d acc w
    simp only [List.nil_append, enumerate, visitCalls, List.append_nil]
    split
    · exact ⟨c1, h1⟩
    · obtain ⟨c2, h2⟩ := enumerate_log env post final
        (referrersVisit env d acc w).2.1 (referrersVisit env d acc w).2.2
      exact ⟨c1 ++ c2, by rw [h2, h1]; simp⟩
  | cons a pre ih =>
    simp only [visitsSucceed] at hpre
    simp only [List.cons_append, enumerate, referrersVisit, World.step,
      visitCalls]
    cases hg : (env.Get a w.st).1 with
    | error e2 => rw [hg] at hpre; cases hpre
    | ok man =>
      rw [hg] at hpre
      cases man with
      | foreign mt p =>
        simp only at hpre ⊢
        obtain ⟨calls, hc⟩ := ih acc ⟨(env.Get a w.st).2, w.log ++ [.Get a]⟩ hpre
        exact ⟨calls, hc.trans (by simp)⟩
      | artifact dm =>
        simp only [Bool.and_eq_true, decide_eq_true_eq] at hpre ⊢
        rw [hpre.1]
        simp only
        obtain ⟨calls, hc⟩ := ih
          (appendSlice acc ⟨dm.Payload.1, dm.ArtifactType,
            (env.StatterStat a (env.Get a w.st).2).1.1.Digest,
            (env.StatterStat a (env.Get a w.st).2).1.1.Size⟩)
          ⟨(env.StatterStat a (env.Get a w.st).2).2,
            w.log ++ [.Get a] ++ [.StatterStat a]⟩ hpre.2
        exact ⟨calls, hc.trans (by simp)⟩

theorem Referrers_visits (env : Env σ) (revision : Digest) (t : String)
    (w : World σ) (root : String) (pre post : List Digest) (d : Digest)
    (final : Option Err)
    (hm : (env.Manifests w.st).1 = none)
    (hroot : referrersRootPath env.Name revision = .returned root)
    (he : (env.linkBlobEnumerator root (env.Manifests w.st).2).1 =
      ⟨pre ++ d :: post, final⟩)
    (hpre : visitsSucceed env pre
      (env.linkBlobEnumerator root (env.Manifests w.st).2).2 = true) :
    ∃ calls, (Referrers env revision t w).2.log =
      w.log ++ [.Manifests, .linkBlobEnumerator root] ++
        visitCalls env pre
          (env.linkBlobEnumerator root (env.Manifests w.st).2).2 ++
        [.Get d] ++ calls := by
  obtain ⟨calls, hc⟩ := enumerate_visits env pre post d final none
    ⟨(env.linkBlobEnumerator root (env.Manifests w.st).2).2,
      w.log ++ [.Manifests, .linkBlobEnumerator root]⟩ hpre
  refine ⟨calls, ?_⟩
  simp only [Referrers, hm, hroot, World.step, he, List.append_assoc,
    List.cons_append, List.nil_append] at hc ⊢
  split
  · split <;> exact hc
  · exact hc

theorem Put_skip_log (env : Env σ) (dm : DeserializedManifest) (w : World σ) :
    (Put env (.artifact dm) true w).2.log = w.log ∨
    (Put env (.artifact dm) true w).2.log =
      w.log ++ [.BlobStorePut MediaTypeArtifactManifest dm.raw] ∨
    ∃ p d, (Put env (.artifact dm) true w).2.log =
      w.log ++ [.BlobStorePut MediaTypeArtifactManifest dm.raw,
        .linkFunc p d] := by
  have hvs := verifyManifest_skip env dm w
  have hst : (verifyManifest env dm true w).2 = w := by rw [hvs]
  have haft : (afterStore env dm true w).log =
      w.log ++ [.BlobStorePut MediaTypeArtifactManifest dm.raw] := by
    simp [afterStore, hst, World.step]
  cases hv : (verifyManifest env dm true w).1 with
  | some err =>
    left
    rw [Put_verify_error env dm true w err hv, hst]
  | none =>
    right
    cases hp : (env.BlobStorePut MediaTypeArtifactManifest dm.raw
        (verifyManifest env dm true w).2.st).1.2 with
    | some err =>
      left
      rw [Put_store_error env dm true w err hv hp, haft]
    | none =>
      cases hpath : referenceLinkPath env.Name dm.Subject.Digest
          (env.BlobStorePut MediaTypeArtifactManifest dm.raw
            (verifyManifest env dm true w).2.st).1.1.Digest with
      | panicked d =>
        left
        rw [Put_panic env dm true w d hv hp hpath, haft]
      | returned path =>
        right
        refine ⟨path, (env.BlobStorePut MediaTypeArtifactManifest dm.raw
          (verifyManifest env dm true w).2.st).1.1.Digest, ?_⟩
        rw [Put_link env dm true w path hv hp hpath]
        simp [World.step, haft]

/-- C13, as stated, fails, in three ways.  First, the manifest of type `a`
about the subject `latest`, a digest without `:`, is put with `skip` in a
registry whose `linkFunc` never fails: `blobStore.Put` succeeds, yet `Put`
does not return its digest but panics, and writes no link.  Second, with a
blob store that returns the digest `..:..`, `Put` with `skip` of a manifest
about `sha256:s` succeeds, but the link it writes is not under the referrers
root of `sha256:s`, and the query for `sha256:s` that follows finds no
referrer and does not visit the digest.  Third, in a registry where an
earlier link under the root of `sha256:s` points to a digest that has no
blob, `Put` with `skip` succeeds and its link is under the root, but the
query that follows stops at the earlier digest, whose `Get` fails, and does
not visit the digest that `Put` returned. -/
theorem put_skip_link_not_visited :
    ((sampleManifest "a" "latest" [] docA).ArtifactType = "a" ∧
      (Registry.env.BlobStorePut MediaTypeArtifactManifest docA ⟨[], []⟩).1 =
        (⟨MediaTypeArtifactManifest, 52, Registry.digestOf docA⟩, none) ∧
      (∀ path d s, (Registry.env.linkFunc path d s).1 = none) ∧
      (Put Registry.env (.artifact (sampleManifest "a" "latest" [] docA)) true
        ⟨⟨[], []⟩, []⟩).1 = .panicked "latest" ∧
      (Put Registry.env (.artifact (sampleManifest "a" "latest" [] docA)) true
        ⟨⟨[], []⟩, []⟩).2.log =
        [.BlobStorePut MediaTypeArtifactManifest docA]) ∧
    ((Put (Registry.envWithDigest "..:..")
        (.artifact (sampleManifest "a" "sha256:s" [] docA)) true
        ⟨⟨[], []⟩, []⟩).1 = .returned ("..:..", none) ∧
      (Put (Registry.envWithDigest "..:..")
        (.artifact (sampleManifest "a" "sha256:s" [] docA)) true
        ⟨⟨[], []⟩, []⟩).2.log =
        [.BlobStorePut MediaTypeArtifactManifest docA,
         .linkFunc "/docker/registry/v2/repositories/repo/_refs/subjects/link"
           "..:.."] ∧
      referrersRootPath "repo" "sha256:s" = .returned
        "/docker/registry/v2/repositories/repo/_refs/subjects/sha256/s" ∧
      (isUnder "/docker/registry/v2/repositories/repo/_refs/subjects/sha256/s"
        "/docker/registry/v2/repositories/repo/_refs/subjects/link" → False) ∧
      Referrers (Registry.envWithDigest "..:..") "sha256:s" ""
        ⟨(Put (Registry.envWithDigest "..:..")
          (.artifact (sampleManifest "a" "sha256:s" [] docA)) true
          ⟨⟨[], []⟩, []⟩).2.st, []⟩ =
        (.returned (none, none),
         ⟨⟨[("..:..", MediaTypeArtifactManifest, docA)],
           [("/docker/registry/v2/repositories/repo/_refs/subjects/link",
             "..:..")]⟩,
          [.Manifests, .linkBlobEnumerator
            "/docker/registry/v2/repositories/repo/_refs/subjects/sha256/s"]⟩)) ∧
    ((Put Registry.env (.artifact (sampleManifest "a" "sha256:s" [] docA)) true
        danglingLink).1 = .returned (Registry.digestOf docA, none) ∧
      (Put Registry.env (.artifact (sampleManifest "a" "sha256:s" [] docA)) true
        danglingLink).2.log =
        [.BlobStorePut MediaTypeArtifactManifest docA,
         .linkFunc
           (String.mk ("/docker/registry/v2/repositories/repo/_refs/subjects/sha256/s/mem/".data
             ++ (Registry.digestOf docA).data.drop 4 ++ "/link".data))
           (Registry.digestOf docA)] ∧
      isUnder "/docker/registry/v2/repositories/repo/_refs/subjects/sha256/s"
        (String.mk ("/docker/registry/v2/repositories/repo/_refs/subjects/sha256/s/mem/".data
          ++ (Registry.digestOf docA).data.drop 4 ++ "/link".data)) ∧
      (Registry.env.linkBlobEnumerator
        "/docker/registry/v2/repositories/repo/_refs/subjects/sha256/s"
        (Put Registry.env (.artifact (sampleManifest "a" "sha256:s" [] docA))
          true danglingLink).2.st).1 =
        ⟨["mem:zz", Registry.digestOf docA], none⟩ ∧
      (Referrers Registry.env "sha256:s" ""
        ⟨(Put Registry.env (.artifact (sampleManifest "a" "sha256:s" [] docA))
          true danglingLink).2.st, []⟩).1 =
        .returned (none, some (Err.ErrManifestUnknownRevision "repo" "mem:zz")) ∧
      (Referrers Registry.env "sha256:s" ""
        ⟨(Put Registry.env (.artifact (sampleManifest "a" "sha256:s" [] docA))
          true danglingLink).2.st, []⟩).2.log =
        [.Manifests, .linkBlobEnumerator
          "/docker/registry/v2/repositories/repo/_refs/subjects/sha256/s",
         .Get "mem:zz"]) :=
  ⟨⟨by decide, by decide, fun _ _ _ => rfl, by decide, by decide⟩,
   ⟨by decide, by decide, by decide, by decide, by decide⟩,
   ⟨by decide, by decide, by decide, by decide, by decide, by decide⟩⟩

/-- C13, amended.  Skip-verification bypass.  Whatever the manifest and the
state of the stores, and whatever its outcome, `Put` with `skip` makes no
`Stat`, `Manifests` or `Exists` call: its calls are `blobStore.Put`, and
`linkFunc` after it.  For a manifest with a non-empty artifact type, when
`blobStore.Put` returns the descriptor `r` and the subject digest and
`r.Digest` both hold a `:`, the subject has a referrers root `root` and the
link path `path` exists; if `linkFunc` succeeds on it, `Put` returns the
digest of `r` without error, the two calls being its only ones.  For a
well-formed `r.Digest` the link lies under `root`, and `root` is the root
that `Referrers` of the subject passes to the link enumerator whenever
`Manifests` succeeds: in every later world in which the link enumerator
hands `r.Digest` to the visitor for that root, after digests whose visits
succeed, `Referrers` of the subject visits `r.Digest`, calling `Get` on
it. -/
theorem put_skip_bypass (env : Env σ) (dm : DeserializedManifest)
    (w : World σ) :
    (∃ calls, (Put env (.artifact dm) true w).2.log = w.log ++ calls ∧
      ∀ c ∈ calls,
        (c = .BlobStorePut MediaTypeArtifactManifest dm.raw ∨
          ∃ p d, c = .linkFunc p d) ∧
        (∀ d, c ≠ .BlobsStat d) ∧ c ≠ .Manifests ∧ (∀ d, c ≠ .Exists d)) ∧
    (∀ r, dm.ArtifactType ≠ "" →
      (env.BlobStorePut MediaTypeArtifactManifest dm.raw w.st).1 = (r, none) →
      ':' ∈ dm.Subject.Digest.data → ':' ∈ r.Digest.data →
      ∃ root path,
        referrersRootPath env.Name dm.Subject.Digest = .returned root ∧
        referenceLinkPath env.Name dm.Subject.Digest r.Digest =
          .returned path ∧
        ((env.linkFunc path r.Digest
            (env.BlobStorePut MediaTypeArtifactManifest dm.raw w.st).2).1 =
            none →
          (Put env (.artifact dm) true w).1 = .returned (r.Digest, none) ∧
          (Put env (.artifact dm) true w).2.log =
            w.log ++ [.BlobStorePut MediaTypeArtifactManifest dm.raw,
              .linkFunc path r.Digest]) ∧
        (wellFormed r.Digest → isUnder root path) ∧
        (∀ t wq, (env.Manifests wq.st).1 = none →
          ∃ calls, (Referrers env dm.Subject.Digest t wq).2.log =
            wq.log ++ [.Manifests, .linkBlobEnumerator root] ++ calls) ∧
        (∀ t wq pre post final,
          (env.Manifests wq.st).1 = none →
          (env.linkBlobEnumerator root (env.Manifests wq.st).2).1 =
            ⟨pre ++ r.Digest :: post, final⟩ →
          visitsSucceed env pre
            (env.linkBlobEnumerator root (env.Manifests wq.st).2).2 = true →
          ∃ calls, (Referrers env dm.Subject.Digest t wq).2.log =
            wq.log ++ [.Manifests, .linkBlobEnumerator root] ++
              visitCalls env pre
                (env.linkBlobEnumerator root (env.Manifests wq.st).2).2 ++
              [.Get r.Digest] ++ calls)) := by
  constructor
  · have hmem : ∀ c : Call,
        (c = .BlobStorePut MediaTypeArtifactManifest dm.raw ∨
          ∃ p d, c = .linkFunc p d) →
        (c = .BlobStorePut MediaTypeArtifactManifest dm.raw ∨
          ∃ p d, c = .linkFunc p d) ∧
        (∀ d, c ≠ .BlobsStat d) ∧ c ≠ .Manifests ∧ (∀ d, c ≠ .Exists d) := by
      intro c hc
      refine ⟨hc, ?_, ?_, ?_⟩
      · intro d hd
        subst hd
        rcases hc with h | ⟨p, d2, h⟩ <;> cases h
      · intro hd
        subst hd
        rcases hc with h | ⟨p, d2, h⟩ <;> cases h
      · intro d hd
        subst hd
        rcases hc with h | ⟨p, d2, h⟩ <;> cases h
    rcases Put_skip_log env dm w with h | h | ⟨p, d, h⟩
    · exact ⟨[], by rw [h]; simp, by simp⟩
    · refine ⟨[.BlobStorePut MediaTypeArtifactManifest dm.raw], h, ?_⟩
      intro c hc
      simp only [List.mem_singleton] at hc
      exact hmem c (Or.inl hc)
    · refine ⟨[.BlobStorePut MediaTypeArtifactManifest dm.raw,
        .linkFunc p d], h, ?_⟩
      intro c hc
      simp only [List.mem_cons, List.mem_singleton, List.not_mem_nil,
        or_false] at hc
      rcases hc with hc | hc
      · exact hmem c (Or.inl hc)
      · exact hmem c (Or.inr ⟨p, d, hc⟩)
  · intro r ht hp hs hr
    obtain ⟨path, hpath⟩ :=
      referenceLinkPath_defined env.Name dm.Subject.Digest r.Digest hs hr
    have hv : verifyManifest env dm true w = (none, w) := by
      rw [verifyManifest_skip, (artifactTypeEntries_eq_nil dm).mpr ht]
      rfl
    have hv1 : (verifyManifest env dm true w).1 = none := by rw [hv]
    have hst : (verifyManifest env dm true w).2 = w := by rw [hv]
    have hp2 : (env.BlobStorePut MediaTypeArtifactManifest dm.raw
        (verifyManifest env dm true w).2.st).1.2 = none := by rw [hst, hp]
    have hp1 : (env.BlobStorePut MediaTypeArtifactManifest dm.raw
        (verifyManifest env dm true w).2.st).1.1 = r := by rw [hst, hp]
    have hpath2 := hpath
    rw [← hp1] at hpath2
    have hput := Put_link env dm true w path hv1 hp2 hpath2
    have haft : afterStore env dm true w =
        ⟨(env.BlobStorePut MediaTypeArtifactManifest dm.raw w.st).2,
          w.log ++ [.BlobStorePut MediaTypeArtifactManifest dm.raw]⟩ := by
      simp [afterStore, hst, World.step]
    rw [hp1, haft] at hput
    simp only at hput
    obtain ⟨-, root, alg, hex, hroot, -, -, -, hlog, hunder, -⟩ :=
      write_read_root_agree_aux env dm r.Digest w path hpath
    refine ⟨root, path, hroot, hpath, ?_, hunder, hlog, ?_⟩
    · intro hl
      rw [hl] at hput
      exact ⟨by rw [hput], by rw [hput]; simp [World.step]⟩
    · intro t wq pre post final hm he hpre
      exact Referrers_visits env dm.Subject.Digest t wq root pre post
        r.Digest final hm hroot he hpre

/-- The manifest of `docA` is put with `skip` in an empty registry, where
its subject is missing: `Put` succeeds, the link is under the root of the
subject, and the query for the subject that follows visits the digest and
returns the manifest. -/
theorem put_skip_bypass_witness :
    (Put Registry.env (.artifact (sampleManifest "a" "sha256:s" [] docA)) true
      ⟨⟨[], []⟩, []⟩).1 = .returned (Registry.digestOf docA, none) ∧
    isUnder "/docker/registry/v2/repositories/repo/_refs/subjects/sha256/s"
      (String.mk ("/docker/registry/v2/repositories/repo/_refs/subjects/sha256/s/mem/".data
        ++ (Registry.digestOf docA).data.drop 4 ++ "/link".data)) ∧
    (∃ calls, (Referrers Registry.env "sha256:s" ""
      (Put Registry.env (.artifact (sampleManifest "a" "sha256:s" [] docA)) true
        ⟨⟨[], []⟩, []⟩).2).2.log =
      (Put Registry.env (.artifact (sampleManifest "a" "sha256:s" [] docA)) true
        ⟨⟨[], []⟩, []⟩).2.log ++
        [.Manifests, .linkBlobEnumerator
          "/docker/registry/v2/repositories/repo/_refs/subjects/sha256/s"] ++
        [] ++ [.Get (Registry.digestOf docA)] ++ calls) ∧
    (Referrers Registry.env "sha256:s" ""
      (Put Registry.env (.artifact (sampleManifest "a" "sha256:s" [] docA)) true
        ⟨⟨[], []⟩, []⟩).2).1 =
      .returned (some
        [⟨MediaTypeArtifactManifest, "a", Registry.digestOf docA, 52⟩], none) := by
  obtain ⟨root, path, hroot, hpath, hput, hunder, -, hvisit⟩ :=
    (put_skip_bypass Registry.env (sampleManifest "a" "sha256:s" [] docA)
      ⟨⟨[], []⟩, []⟩).2
      ⟨MediaTypeArtifactManifest, 52, Registry.digestOf docA⟩
      (by decide) (by decide) (by decide) (by decide)
  have hr : referrersRootPath Registry.env.Name
      (sampleManifest "a" "sha256:s" [] docA).Subject.Digest = .returned
      "/docker/registry/v2/repositories/repo/_refs/subjects/sha256/s" := by
    decide
  have hq : referenceLinkPath Registry.env.Name
      (sampleManifest "a" "sha256:s" [] docA).Subject.Digest
      (Registry.digestOf docA) = .returned
      (String.mk ("/docker/registry/v2/repositories/repo/_refs/subjects/sha256/s/mem/".data
        ++ (Registry.digestOf docA).data.drop 4 ++ "/link".data)) := by
    decide
  have hre := Outcome.returned.inj (hroot.symm.trans hr)
  have hpe := Outcome.returned.inj (hpath.symm.trans hq)
  subst hre
  subst hpe
  exact ⟨(hput (by decide)).1, hunder (by decide),
    hvisit "" _ [] [] none (by decide) (by decide) (by decide), by decide⟩

/-! ## Properties of the namespace of the package `oras` -/

/-- C21. The method `Repository` of `*orasNamespace` does not return: its
first statement calls the method itself, so for every namespace, every
repository name and every number of nested calls the call has not
returned; in particular it never returns the expected result, the error of
the base namespace or the `artifactRepository` wrapping its repository. -/
theorem repository_never_returns {ρ : Type} (o : orasNamespace ρ)
    (name : String) (fuel : Nat) :
    o.Repository name fuel = none ∧
    o.Repository name fuel ≠ some (o.wrapBase name) := by
  have h : ∀ n, o.Repository name n = none := by
    intro n
    induction n with
    | zero => rfl
    | succ n ih => simp [orasNamespace.Repository, ih]
  exact ⟨h fuel, by rw [h fuel]; exact fun hc => Option.noConfusion hc⟩

end Distribution
